import Mathlib

/-!
Verification development for the UE4 property-tagged binary codec
(`ue4_properties.py`): a shallow embedding of the byte-stream layer, the
property serializer/deserializer, and the path-lookup utility, together with
proofs of the round-trip, framing and error-handling properties.

Modelling conventions:
* a Python `bytes` object is a `List Nat` (each element a byte value);
* a Python `str` is a `List Nat` of Unicode code points (`PyStr`);
* IEEE-754 floats are represented by their bit patterns (`struct.unpack`
  followed by `struct.pack` transports the 32/64-bit pattern unchanged);
* fallible reads return `Except String`, mirroring raised exceptions;
* the recursive decoder takes a fuel parameter purely to express termination;
  `deserialize` passes `data.length + 1`, which is shown sufficient for every
  encoder output.
-/

set_option maxHeartbeats 1000000

/-- Decidable equality of `Except` results, for evaluating the codec on
concrete inputs. -/
instance {ε α : Type} [DecidableEq ε] [DecidableEq α] : DecidableEq (Except ε α) :=
  fun a b =>
    match a, b with
    | .ok x, .ok y =>
        if h : x = y then isTrue (by rw [h])
        else isFalse (by intro hh; injection hh; contradiction)
    | .error x, .error y =>
        if h : x = y then isTrue (by rw [h])
        else isFalse (by intro hh; injection hh; contradiction)
    | .ok _, .error _ => isFalse (by intro hh; exact Except.noConfusion hh)
    | .error _, .ok _ => isFalse (by intro hh; exact Except.noConfusion hh)

namespace UE4Props

/-- A byte value 0–255, stored as `Nat`. -/
abbrev Byte := Nat

/-- A Python `str`, as its list of Unicode code points. -/
abbrev PyStr := List Nat

/-- Code points of a literal, for the fixed tag strings of the format. -/
def lit (s : String) : PyStr := s.data.map Char.toNat

/-- Python slice `d[a:b]` with `int` bounds: negative bounds count from the
end, and both are clamped to `[0, len(d)]`. -/
def pySlice (d : List Byte) (a b : Int) : List Byte :=
  let n : Int := d.length
  let a' : Int := if a < 0 then (if n + a < 0 then 0 else n + a) else (if a ≤ n then a else n)
  let b' : Int := if b < 0 then (if n + b < 0 then 0 else n + b) else (if b ≤ n then b else n)
  (d.drop a'.toNat).take (b'.toNat - a'.toNat)

/-- Little-endian value of a byte list (`struct.unpack` little-endian). -/
def leToNat : List Byte → Nat
  | [] => 0
  | b :: bs => b + 256 * leToNat bs

/-- Reinterpret an unsigned `w`-bit value as signed (`struct.unpack` of a
signed format). -/
def toSigned (w : Nat) (u : Nat) : Int :=
  if u < 2 ^ (w - 1) then (u : Int) else (u : Int) - 2 ^ w

/-- `k` little-endian bytes of `u` (what `struct.pack` emits for in-range
values; out-of-range values raise in Python and are constrained away by the
well-formedness predicates below). -/
def natLE (k u : Nat) : List Byte :=
  if k = 0 then [] else u % 256 :: natLE (k - 1) (u / 256)
termination_by k
decreasing_by omega

/-- `struct.pack` of a signed 32-bit little-endian integer. -/
def int32LE (i : Int) : List Byte := natLE 4 (i % (2 : Int) ^ 32).toNat

/-- `struct.pack` of an unsigned 32-bit little-endian integer. -/
def uint32LE (i : Int) : List Byte := natLE 4 (i % (2 : Int) ^ 32).toNat

/-- `struct.pack` of a signed 64-bit little-endian integer. -/
def int64LE (i : Int) : List Byte := natLE 8 (i % (2 : Int) ^ 64).toNat

/-- Bytes of a 32-bit float given by its bit pattern. -/
def f32LE (bits : Nat) : List Byte := natLE 4 bits

/-- Bytes of a 64-bit float given by its bit pattern. -/
def f64LE (bits : Nat) : List Byte := natLE 8 bits

/-- `BinaryReader`: the byte buffer plus a cursor.  The offset is an `Int`
because `read_bytes` adds a (possibly negative) count to it. -/
structure Reader where
  data : List Byte
  offset : Int
deriving DecidableEq

/-- `BinaryReader.remaining`. -/
def Reader.remaining (r : Reader) : Int := (r.data.length : Int) - r.offset

/-- `BinaryReader.read_bytes`: fails when the read would pass the end of the
buffer, otherwise returns the slice `data[offset : offset + n]` and advances
the cursor by `n`. -/
def Reader.readBytes (r : Reader) (n : Int) : Except String (List Byte × Reader) :=
  if r.offset + n > (r.data.length : Int) then
    .error ("EOFError")
  else
    .ok (pySlice r.data r.offset (r.offset + n), { r with offset := r.offset + n })

/-- `BinaryReader.read_byte` (`read_bytes(1)[0]`; indexing an empty result
raises). -/
def Reader.readByte (r : Reader) : Except String (Byte × Reader) := do
  let (bs, r1) ← r.readBytes 1
  match bs with
  | [] => .error ("IndexError")
  | b :: _ => .ok (b, r1)

/-- `BinaryReader.read_int32` (`struct.unpack` needs exactly 4 bytes). -/
def Reader.readInt32 (r : Reader) : Except String (Int × Reader) := do
  let (bs, r1) ← r.readBytes 4
  if bs.length = 4 then .ok (toSigned 32 (leToNat bs), r1) else .error ("struct.error")

/-- `BinaryReader.read_uint32`. -/
def Reader.readUInt32 (r : Reader) : Except String (Int × Reader) := do
  let (bs, r1) ← r.readBytes 4
  if bs.length = 4 then .ok ((leToNat bs : Int), r1) else .error ("struct.error")

/-- `BinaryReader.read_int64`. -/
def Reader.readInt64 (r : Reader) : Except String (Int × Reader) := do
  let (bs, r1) ← r.readBytes 8
  if bs.length = 8 then .ok (toSigned 64 (leToNat bs), r1) else .error ("struct.error")

/-- `BinaryReader.read_float`, returning the 32-bit pattern. -/
def Reader.readFloat (r : Reader) : Except String (Nat × Reader) := do
  let (bs, r1) ← r.readBytes 4
  if bs.length = 4 then .ok (leToNat bs, r1) else .error ("struct.error")

/-- `BinaryReader.read_double`, returning the 64-bit pattern. -/
def Reader.readDouble (r : Reader) : Except String (Nat × Reader) := do
  let (bs, r1) ← r.readBytes 8
  if bs.length = 8 then .ok (leToNat bs, r1) else .error ("struct.error")

/-- `bytes.decode('ascii')`: succeeds exactly when every byte is below 0x80. -/
def asciiDecode (bs : List Byte) : Except String PyStr :=
  if bs.all (fun b => b < 128) then .ok bs else .error ("UnicodeDecodeError")

/-- Pair up bytes into little-endian 16-bit units (first step of
`bytes.decode('utf-16-le')`; an odd byte count raises). -/
def utf16Pairs : List Byte → Except String (List Nat)
  | [] => .ok []
  | [_] => .error ("UnicodeDecodeError")
  | b0 :: b1 :: rest => do
      let us ← utf16Pairs rest
      .ok ((b0 + 256 * b1) :: us)

/-- Combine UTF-16 units into code points (second step of
`bytes.decode('utf-16-le')`; lone surrogates raise). -/
def utf16Combine : List Nat → Except String (List Nat)
  | [] => .ok []
  | [u] =>
      if 0xD800 ≤ u ∧ u ≤ 0xDBFF then .error ("UnicodeDecodeError")
      else if 0xDC00 ≤ u ∧ u ≤ 0xDFFF then .error ("UnicodeDecodeError")
      else .ok [u]
  | u :: u2 :: rest2 =>
      if 0xD800 ≤ u ∧ u ≤ 0xDBFF then
        if 0xDC00 ≤ u2 ∧ u2 ≤ 0xDFFF then do
          let cps ← utf16Combine rest2
          .ok ((0x10000 + (u - 0xD800) * 0x400 + (u2 - 0xDC00)) :: cps)
        else .error ("UnicodeDecodeError")
      else if 0xDC00 ≤ u ∧ u ≤ 0xDFFF then .error ("UnicodeDecodeError")
      else do
        let cps ← utf16Combine (u2 :: rest2)
        .ok (u :: cps)

/-- `bytes.decode('utf-16-le')`. -/
def utf16leDecode (bs : List Byte) : Except String PyStr := do
  let us ← utf16Pairs bs
  utf16Combine us

/-- `BinaryReader.read_fstring`: signed length prefix; `0` means absent,
`1` means empty, negative means UTF-16 (magnitude counts 16-bit units
including the terminator), positive means ASCII (count includes the
terminator byte). -/
def Reader.readFstring (r : Reader) : Except String (Option PyStr × Reader) := do
  let (length, r1) ← r.readInt32
  if length = 0 then
    .ok (none, r1)
  else if length = 1 then do
    let (_, r2) ← r1.readByte
    .ok (some [], r2)
  else if length < 0 then do
    let (bs, r2) ← r1.readBytes (-length * 2)
    let cps ← utf16leDecode bs.dropLast.dropLast
    .ok (some cps, r2)
  else do
    let (bs, r2) ← r1.readBytes length
    let cps ← asciiDecode bs.dropLast
    .ok (some cps, r2)

/-- UTF-16 code units of one code point (`str.encode('utf-16-le')` unit
layer).  Python raises on unpaired-surrogate code points; those are excluded
by the well-formedness predicates. -/
def utf16Units (cp : Nat) : List Nat :=
  if cp < 0x10000 then [cp]
  else [0xD800 + (cp - 0x10000) / 0x400, 0xDC00 + (cp - 0x10000) % 0x400]

/-- `str.encode('utf-16-le')`. -/
def utf16leEncode (s : PyStr) : List Byte :=
  (s.flatMap utf16Units).flatMap (fun u => [u % 256, u / 256 % 256])

/-- `BinaryWriter.write_fstring`: `None` writes length 0; otherwise the ASCII
encoding is tried first (succeeds iff every code point is below 0x80), and
the UTF-16 fallback writes `-(len(value) + 1)` as the prefix — the code-point
count plus one, not the unit count. -/
def writeFstring : Option PyStr → List Byte
  | none => int32LE 0
  | some s =>
      if s.all (fun c => c < 128) then
        int32LE ((s.length : Int) + 1) ++ s ++ [0]
      else
        int32LE (-((s.length : Int) + 1)) ++ utf16leEncode s ++ [0, 0]

/-! ## Property data model -/

/-- Values held in `FPropertyTag.value` (Python `Any`).  Floats are carried as
their IEEE-754 bit patterns.  Python `bytes` objects and `list` values get
distinct constructors, mirroring the `isinstance` dispatch of the source. -/
inductive PValue where
  | none
  | int (i : Int)
  | float (bits : Nat)
  | double (bits : Nat)
  | bool (b : Bool)
  | str (s : PyStr)
  | bytes (b : List Byte)
  | byteList (b : List Byte)
  | intList (l : List Int)
  | floatList (l : List Nat)
  | strList (l : List (Option PyStr))
  | bytesList (l : List (List Byte))
  | vector (x y z : Nat)
  | vector2d (x y : Nat)
  | rotator (pitch yaw roll : Nat)
  | quat (x y z w : Nat)
  | linearColor (r g b a : Nat)
  | color (r g b a : Nat)
  | guid (b : List Byte)
deriving DecidableEq

/-- `FPropertyTag` (dataclass): name, type tag, value, the optional
type-specific metadata, and the nested children.  The `type_name` is an
`Option` because `read_fstring` can yield `None` for it. -/
inductive FPropertyTag where
  | mk (name : PyStr) (type_name : Option PyStr) (value : PValue)
      (inner_type : Option PyStr) (struct_type : Option PyStr)
      (enum_type : Option PyStr) (elem_name : Option PyStr)
      (nested : List FPropertyTag)

namespace FPropertyTag

def name : FPropertyTag → PyStr
  | mk n _ _ _ _ _ _ _ => n

def type_name : FPropertyTag → Option PyStr
  | mk _ t _ _ _ _ _ _ => t

def value : FPropertyTag → PValue
  | mk _ _ v _ _ _ _ _ => v

def inner_type : FPropertyTag → Option PyStr
  | mk _ _ _ it _ _ _ _ => it

def struct_type : FPropertyTag → Option PyStr
  | mk _ _ _ _ st _ _ _ => st

def enum_type : FPropertyTag → Option PyStr
  | mk _ _ _ _ _ et _ _ => et

def elem_name : FPropertyTag → Option PyStr
  | mk _ _ _ _ _ _ en _ => en

def nested : FPropertyTag → List FPropertyTag
  | mk _ _ _ _ _ _ _ ns => ns

end FPropertyTag

mutual

def propDecEq : (a b : FPropertyTag) → Decidable (a = b)
  | .mk n1 t1 v1 i1 s1 e1 l1 ns1, .mk n2 t2 v2 i2 s2 e2 l2 ns2 =>
    match decEq n1 n2, decEq t1 t2, decEq v1 v2, decEq i1 i2, decEq s1 s2,
        decEq e1 e2, decEq l1 l2, propListDecEq ns1 ns2 with
    | isTrue h1, isTrue h2, isTrue h3, isTrue h4, isTrue h5, isTrue h6, isTrue h7, isTrue h8 =>
        isTrue (by rw [h1, h2, h3, h4, h5, h6, h7, h8])
    | isFalse h, _, _, _, _, _, _, _ => isFalse (by intro hh; injection hh; contradiction)
    | _, isFalse h, _, _, _, _, _, _ => isFalse (by intro hh; injection hh; contradiction)
    | _, _, isFalse h, _, _, _, _, _ => isFalse (by intro hh; injection hh; contradiction)
    | _, _, _, isFalse h, _, _, _, _ => isFalse (by intro hh; injection hh; contradiction)
    | _, _, _, _, isFalse h, _, _, _ => isFalse (by intro hh; injection hh; contradiction)
    | _, _, _, _, _, isFalse h, _, _ => isFalse (by intro hh; injection hh; contradiction)
    | _, _, _, _, _, _, isFalse h, _ => isFalse (by intro hh; injection hh; contradiction)
    | _, _, _, _, _, _, _, isFalse h => isFalse (by intro hh; injection hh; contradiction)

def propListDecEq : (a b : List FPropertyTag) → Decidable (a = b)
  | [], [] => isTrue rfl
  | [], _ :: _ => isFalse (by intro hh; exact absurd hh (by simp))
  | _ :: _, [] => isFalse (by intro hh; exact absurd hh (by simp))
  | a :: as, b :: bs =>
    match propDecEq a b, propListDecEq as bs with
    | isTrue h1, isTrue h2 => isTrue (by rw [h1, h2])
    | isFalse h, _ => isFalse (by intro hh; injection hh; contradiction)
    | _, isFalse h => isFalse (by intro hh; injection hh; contradiction)

end

instance : DecidableEq FPropertyTag := propDecEq

/-! ## Type-tag and struct-tag string constants -/

def tnInt : PyStr := lit ("IntProperty")
def tnUInt32 : PyStr := lit ("UInt32Property")
def tnInt64 : PyStr := lit ("Int64Property")
def tnFloat : PyStr := lit ("FloatProperty")
def tnDouble : PyStr := lit ("DoubleProperty")
def tnBool : PyStr := lit ("BoolProperty")
def tnStr : PyStr := lit ("StrProperty")
def tnName : PyStr := lit ("NameProperty")
def tnEnum : PyStr := lit ("EnumProperty")
def tnStruct : PyStr := lit ("StructProperty")
def tnArray : PyStr := lit ("ArrayProperty")
def tnMap : PyStr := lit ("MapProperty")
def tnByte : PyStr := lit ("ByteProperty")
def strNone : PyStr := lit ("None")
def tnTerminator : PyStr := lit ("terminator")

def stVector : PyStr := lit ("Vector")
def stVector2D : PyStr := lit ("Vector2D")
def stRotator : PyStr := lit ("Rotator")
def stQuat : PyStr := lit ("Quat")
def stTransform : PyStr := lit ("Transform")
def stLinearColor : PyStr := lit ("LinearColor")
def stColor : PyStr := lit ("Color")
def stGuid : PyStr := lit ("Guid")
def stDateTime : PyStr := lit ("DateTime")
def stTimespan : PyStr := lit ("Timespan")

/-- `CORE_STRUCT_TYPES`: struct tag → fixed byte size (`None` for Transform,
which serializes via nested properties). -/
def CORE_STRUCT_TYPES : List (PyStr × Option Nat) :=
  [(stVector, some 12), (stVector2D, some 8), (stRotator, some 12),
   (stQuat, some 16), (stTransform, Option.none), (stLinearColor, some 16),
   (stColor, some 4), (stGuid, some 16), (stDateTime, some 8), (stTimespan, some 8)]

/-- Dictionary lookup in `CORE_STRUCT_TYPES`. -/
def coreLookup (st : PyStr) : Option (Option Nat) :=
  (CORE_STRUCT_TYPES.find? (fun kv => kv.1 = st)).map (fun kv => kv.2)

/-- True when `struct_type` names a fixed-layout core struct (`in
CORE_STRUCT_TYPES` with a non-`None` size); `None` is never in the dict. -/
def isFixedCore (st : Option PyStr) : Bool :=
  match st with
  | Option.none => false
  | some s =>
      match coreLookup s with
      | some (some _) => true
      | _ => false

/-- Python truthiness of a property value (used by `1 if prop.value else 0`
for Bool properties). -/
def pyTruthy : PValue → Bool
  | .none => false
  | .int i => i ≠ 0
  | .float b => b ≠ 0 ∧ b ≠ 0x80000000
  | .double b => b ≠ 0 ∧ b ≠ 0x8000000000000000
  | .bool b => b
  | .str s => s ≠ []
  | .bytes b => b ≠ []
  | .byteList b => b ≠ []
  | .intList l => l ≠ []
  | .floatList l => l ≠ []
  | .strList l => l ≠ []
  | .bytesList l => l ≠ []
  | _ => true

/-- `prop.value` viewed as the optional string passed to `write_fstring`
(`None` for a `None` value; other non-string values would raise in Python and
are constrained away by well-formedness). -/
def PValue.asStr : PValue → Option PyStr
  | .str s => some s
  | _ => Option.none

/-- Python `a or b` where `a` is an optional string: `None` and `''` are
falsy. -/
def pyOr (a : Option PyStr) (b : PyStr) : PyStr :=
  match a with
  | Option.none => b
  | some s => if s = [] then b else s

/-- Python `a or b` keeping the optional result. -/
def pyOrOpt (a b : Option PyStr) : Option PyStr :=
  match a with
  | Option.none => b
  | some s => if s = [] then b else some s

/-! ## Serialization (`PropertySerializer._write_*`) -/

/-- Overwrite 4 bytes at `pos`: the writer's seek-and-patch of the reserved
size field. -/
def patch32 (out : List Byte) (pos : Nat) (b4 : List Byte) : List Byte :=
  out.take pos ++ b4 ++ out.drop (pos + 4)

/-- `PropertySerializer._write_simple_property_value` (the padding byte has
already been written).  Branches where the source would raise on a
wrongly-typed value are modelled as writing nothing; the well-formedness
predicates below rule them out. -/
def writeSimpleValue (p : FPropertyTag) : List Byte :=
  if p.type_name = some tnInt then
    match p.value with | .int i => int32LE i | _ => []
  else if p.type_name = some tnUInt32 then
    match p.value with | .int i => uint32LE i | _ => []
  else if p.type_name = some tnInt64 then
    match p.value with | .int i => int64LE i | _ => []
  else if p.type_name = some tnFloat then
    match p.value with | .float b => f32LE b | _ => []
  else if p.type_name = some tnDouble then
    match p.value with | .double b => f64LE b | _ => []
  else if p.type_name = some tnStr ∨ p.type_name = some tnName then
    writeFstring p.value.asStr
  else
    match p.value with | .bytes b => b | _ => []

/-- `PropertySerializer._write_core_struct`: missing or `None` values fall
back to the `v.get(..., 0.0)` / zero defaults of the source. -/
def writeCoreStruct (st : PyStr) (v : PValue) : List Byte :=
  if st = stVector then
    match v with
    | .vector x y z => f32LE x ++ f32LE y ++ f32LE z
    | _ => f32LE 0 ++ f32LE 0 ++ f32LE 0
  else if st = stVector2D then
    match v with
    | .vector2d x y => f32LE x ++ f32LE y
    | _ => f32LE 0 ++ f32LE 0
  else if st = stRotator then
    match v with
    | .rotator pc yw rl => f32LE pc ++ f32LE yw ++ f32LE rl
    | _ => f32LE 0 ++ f32LE 0 ++ f32LE 0
  else if st = stQuat then
    match v with
    | .quat x y z w => f32LE x ++ f32LE y ++ f32LE z ++ f32LE w
    | _ => f32LE 0 ++ f32LE 0 ++ f32LE 0 ++ f32LE 0
  else if st = stLinearColor then
    match v with
    | .linearColor r g b a => f32LE r ++ f32LE g ++ f32LE b ++ f32LE a
    | _ => f32LE 0 ++ f32LE 0 ++ f32LE 0 ++ f32LE 0
  else if st = stColor then
    match v with
    | .color r g b a => [b, g, r, a]
    | _ => [0, 0, 0, 0]
  else if st = stGuid then
    match v with
    | .guid b => b
    | _ => List.replicate 16 0
  else if st = stDateTime ∨ st = stTimespan then
    match v with
    | .int i => int64LE i
    | _ => int64LE 0
  else []

/-- The element count written for an array: `len(prop.nested)` for struct
arrays, otherwise `len(prop.value)` when the value is a Python list or bytes,
otherwise 0. -/
def arrayCount (p : FPropertyTag) : Nat :=
  if p.inner_type = some tnStruct then p.nested.length
  else
    match p.value with
    | .bytes b => b.length
    | .byteList b => b.length
    | .intList l => l.length
    | .floatList l => l.length
    | .strList l => l.length
    | .bytesList l => l.length
    | _ => 0

/-- `PropertySerializer._write_prototype_tag`: a full property header whose
size field is the combined element size, with an all-zero GUID and padding
byte. -/
def writeProtoTag (proto : FPropertyTag) (elemSize : Nat) : List Byte :=
  writeFstring (some proto.name) ++ writeFstring proto.type_name ++
    int32LE (elemSize : Int) ++ int32LE 0 ++ writeFstring proto.struct_type ++
    List.replicate 16 0 ++ [0]

/-- The per-type header bytes written between the size/array-index pair and
the value region (the part the size field does not cover).  For Bool these
are the value byte and the extra padding byte. -/
def propHeaderBytes (p : FPropertyTag) : List Byte :=
  if p.type_name = some tnArray then writeFstring p.inner_type ++ [0]
  else if p.type_name = some tnStruct then
    writeFstring p.struct_type ++ List.replicate 17 0
  else if p.type_name = some tnEnum then writeFstring p.enum_type ++ [0]
  else if p.type_name = some tnBool then [if pyTruthy p.value then 1 else 0, 0]
  else [0]

/-- The prototype tag built in `_write_array_value` for a struct array:
`elem_name`/`struct_type` fall back (through Python `or`) to the first
element's fields and finally to the parent name / the empty string. -/
def protoOf (p : FPropertyTag) : FPropertyTag :=
  let en1 : Option PyStr :=
    match p.nested with
    | first :: _ => some (pyOr p.elem_name first.name)
    | [] => p.elem_name
  let st1 : Option PyStr :=
    match p.nested with
    | first :: _ => pyOrOpt p.struct_type first.struct_type
    | [] => p.struct_type
  .mk (pyOr en1 p.name) (some tnStruct) .none Option.none
    (some (pyOr st1 [])) Option.none Option.none []

/-- The non-struct element bytes of `_write_array_value`: a raw dump for
`ByteProperty` (`bytes(data)`), element-wise writes for Int/Float/Str, and
nothing for other inner types. -/
def simpleArrayBytes (p : FPropertyTag) : List Byte :=
  if p.inner_type = some tnByte then
    match p.value with
    | .bytes b => b
    | .byteList b => b
    | .intList l => l.map Int.toNat
    | _ => []
  else if p.inner_type = some tnInt then
    (match p.value with | .intList l => l | _ => []).flatMap int32LE
  else if p.inner_type = some tnFloat then
    (match p.value with | .floatList l => l | _ => []).flatMap f32LE
  else if p.inner_type = some tnStr then
    (match p.value with | .strList l => l | _ => []).flatMap writeFstring
  else []

/-- Selects what the recursive writer core emits for one property: its full
`_write_property` record, or its struct-array element body. -/
inductive WMode where
  | props
  | elem

/-
The recursive core of the writer.  `_write_property`'s body is inlined here
so that the group is structurally recursive over the property tree (and thus
evaluates definitionally); the source-shaped functions `propsConcat`,
`elemsData`, `writeProperty`, `propValueBytes`, `writeArrayValue` and
`writeStructValue` are defined right below and are definitionally equal to
the inlined code.
-/
mutual

/-- One property, written either as a full `_write_property` record
(`WMode.props`) or as a struct-array element body — its property list plus
`None` terminator (`WMode.elem`). -/
def writePropCore : WMode → FPropertyTag → List Byte
  | .props, .mk nm t v it st et en ns =>
    let q := FPropertyTag.mk nm t v it st et en ns
    let valueB : List Byte :=
      if t = some tnArray then
        int32LE ((arrayCount q : Nat) : Int) ++
          (if it = some tnStruct then
            let elemData := writeListCore .elem ns
            writeProtoTag (protoOf q) elemData.length ++ elemData
          else simpleArrayBytes q)
      else if t = some tnStruct then
        (if isFixedCore q.struct_type then
          writeCoreStruct (q.struct_type.getD []) q.value
        else writeListCore .props ns ++ writeFstring (some strNone))
      else if t = some tnEnum then writeFstring q.value.asStr
      else if t = some tnBool then []
      else writeSimpleValue q
    let pre := writeFstring (some q.name) ++ writeFstring q.type_name
    patch32 (pre ++ int32LE 0 ++ int32LE 0 ++ propHeaderBytes q ++ valueB)
      pre.length (int32LE (valueB.length : Int))
  | .elem, .mk _ _ _ _ _ _ _ ns =>
    writeListCore .props ns ++ writeFstring (some strNone)

/-- The loop of `_write_properties` (`WMode.props`) and the element loop of
the struct-array scratch buffer (`WMode.elem`). -/
def writeListCore : WMode → List FPropertyTag → List Byte
  | _, [] => []
  | mode, q :: qs => writePropCore mode q ++ writeListCore mode qs

end

/-- The concatenation of `_write_property` over a list (the loop of
`_write_properties`). -/
def propsConcat (ps : List FPropertyTag) : List Byte :=
  writeListCore .props ps

/-- The scratch-buffer contents for a struct array:
`_write_properties(temp, elem.nested)` per element — each element body is its
property list followed by a `None` terminator, no trailing zeros. -/
def elemsData (es : List FPropertyTag) : List Byte :=
  writeListCore .elem es

/-- `PropertySerializer._write_array_value` (header already written):
element count, then either prototype tag + element bodies (struct inner),
or the simple element encodings. -/
def writeArrayValue (p : FPropertyTag) : List Byte :=
  int32LE ((arrayCount p : Nat) : Int) ++
    (if p.inner_type = some tnStruct then
      let elemData := elemsData p.nested
      writeProtoTag (protoOf p) elemData.length ++ elemData
    else simpleArrayBytes p)

/-- `PropertySerializer._write_struct_value` (header already written):
fixed-layout core structs write their byte pattern, every other struct tag
writes its nested property list plus `None` terminator. -/
def writeStructValue (p : FPropertyTag) : List Byte :=
  if isFixedCore p.struct_type then
    writeCoreStruct (p.struct_type.getD []) p.value
  else propsConcat p.nested ++ writeFstring (some strNone)

/-- The value-region bytes of one property: exactly the bytes between
`value_start` and the final position in `_write_property` (empty for Bool,
whose `value_size` is 0). -/
def propValueBytes (p : FPropertyTag) : List Byte :=
  if p.type_name = some tnArray then writeArrayValue p
  else if p.type_name = some tnStruct then writeStructValue p
  else if p.type_name = some tnEnum then writeFstring p.value.asStr
  else if p.type_name = some tnBool then []
  else writeSimpleValue p

/-- `PropertySerializer._write_property`: name, type, reserved size and
array-index pair (both written as 0), the per-type header and value region,
and finally the size field patched with the value region's byte length. -/
def writeProperty (p : FPropertyTag) : List Byte :=
  let pre := writeFstring (some p.name) ++ writeFstring p.type_name
  patch32 (pre ++ int32LE 0 ++ int32LE 0 ++ propHeaderBytes p ++ propValueBytes p)
    pre.length (int32LE ((propValueBytes p).length : Int))

/-- The inlined writer core agrees with the source-shaped `writeProperty`. -/
theorem propsConcat_cons (q : FPropertyTag) (qs : List FPropertyTag) :
    propsConcat (q :: qs) = writeProperty q ++ propsConcat qs := by
  cases q with
  | mk nm t v it st et en ns =>
    simp only [propsConcat, elemsData, writeListCore, writePropCore,
      writeProperty, propValueBytes, writeArrayValue, writeStructValue,
      FPropertyTag.type_name, FPropertyTag.nested, FPropertyTag.inner_type,
      FPropertyTag.struct_type, FPropertyTag.value, FPropertyTag.name]

@[simp]
theorem propsConcat_nil : propsConcat [] = [] := rfl

/-- The element writer in its source shape. -/
theorem elemsData_cons (e : FPropertyTag) (es : List FPropertyTag) :
    elemsData (e :: es) =
      propsConcat e.nested ++ writeFstring (some strNone) ++ elemsData es := by
  cases e with
  | mk nm t v it st et en ns =>
    simp [elemsData, writeListCore, writePropCore, propsConcat,
      FPropertyTag.nested]

@[simp]
theorem elemsData_nil : elemsData [] = [] := rfl

/-- `PropertySerializer._write_properties`: each property, the `None`
terminator, and optionally four trailing zero bytes. -/
def writeProperties (ps : List FPropertyTag) (addTrailing : Bool) : List Byte :=
  propsConcat ps ++ writeFstring (some strNone) ++
    (if addTrailing then [0, 0, 0, 0] else [])

/-- `PropertySerializer.serialize` (the source defaults `add_trailing` to
`True`). -/
def serialize (ps : List FPropertyTag) (addTrailing : Bool) : List Byte :=
  writeProperties ps addTrailing

/-! ## Deserialization (`PropertySerializer._read_*`) -/

/-- Field assignment `prop.value = v`. -/
def FPropertyTag.setValue (p : FPropertyTag) (v : PValue) : FPropertyTag :=
  match p with | .mk n t _ it st et en ns => .mk n t v it st et en ns

/-- Field assignment `prop.nested = ns`. -/
def FPropertyTag.setNested (p : FPropertyTag) (ns1 : List FPropertyTag) : FPropertyTag :=
  match p with | .mk n t v it st et en _ => .mk n t v it st et en ns1

/-- Field assignment `prop.inner_type = it`. -/
def FPropertyTag.setInnerType (p : FPropertyTag) (it1 : Option PyStr) : FPropertyTag :=
  match p with | .mk n t v _ st et en ns => .mk n t v it1 st et en ns

/-- Field assignment `prop.struct_type = st`. -/
def FPropertyTag.setStructType (p : FPropertyTag) (st1 : Option PyStr) : FPropertyTag :=
  match p with | .mk n t v it _ et en ns => .mk n t v it st1 et en ns

/-- Field assignment `prop.enum_type = et`. -/
def FPropertyTag.setEnumType (p : FPropertyTag) (et1 : Option PyStr) : FPropertyTag :=
  match p with | .mk n t v it st _ en ns => .mk n t v it st et1 en ns

/-- Field assignment `prop.elem_name = en`. -/
def FPropertyTag.setElemName (p : FPropertyTag) (en1 : Option PyStr) : FPropertyTag :=
  match p with | .mk n t v it st et _ ns => .mk n t v it st et en1 ns

/-- `PropertySerializer._read_simple_value` (padding byte already consumed):
primitives by type tag; an unknown tag reads `size` raw bytes when the size
is positive and otherwise leaves the value `None`. -/
def readSimpleValue (r : Reader) (p : FPropertyTag) (typeName : Option PyStr)
    (size : Int) : Except String (FPropertyTag × Reader) :=
  if typeName = some tnInt then do
    let (i, r1) ← r.readInt32
    .ok (p.setValue (.int i), r1)
  else if typeName = some tnUInt32 then do
    let (i, r1) ← r.readUInt32
    .ok (p.setValue (.int i), r1)
  else if typeName = some tnInt64 then do
    let (i, r1) ← r.readInt64
    .ok (p.setValue (.int i), r1)
  else if typeName = some tnFloat then do
    let (b, r1) ← r.readFloat
    .ok (p.setValue (.float b), r1)
  else if typeName = some tnDouble then do
    let (b, r1) ← r.readDouble
    .ok (p.setValue (.double b), r1)
  else if typeName = some tnStr ∨ typeName = some tnName then do
    let (s?, r1) ← r.readFstring
    .ok (p.setValue (match s? with | some s => .str s | Option.none => .none), r1)
  else
    if size > 0 then do
      let (bs, r1) ← r.readBytes size
      .ok (p.setValue (.bytes bs), r1)
    else .ok (p, r)

/-- `PropertySerializer._read_core_struct`. -/
def readCoreStruct (r : Reader) (p : FPropertyTag) (st : PyStr) :
    Except String (FPropertyTag × Reader) :=
  if st = stVector then do
    let (x, r1) ← r.readFloat
    let (y, r2) ← r1.readFloat
    let (z, r3) ← r2.readFloat
    .ok (p.setValue (.vector x y z), r3)
  else if st = stVector2D then do
    let (x, r1) ← r.readFloat
    let (y, r2) ← r1.readFloat
    .ok (p.setValue (.vector2d x y), r2)
  else if st = stRotator then do
    let (pc, r1) ← r.readFloat
    let (yw, r2) ← r1.readFloat
    let (rl, r3) ← r2.readFloat
    .ok (p.setValue (.rotator pc yw rl), r3)
  else if st = stQuat then do
    let (x, r1) ← r.readFloat
    let (y, r2) ← r1.readFloat
    let (z, r3) ← r2.readFloat
    let (w, r4) ← r3.readFloat
    .ok (p.setValue (.quat x y z w), r4)
  else if st = stLinearColor then do
    let (rr, r1) ← r.readFloat
    let (g, r2) ← r1.readFloat
    let (b, r3) ← r2.readFloat
    let (a, r4) ← r3.readFloat
    .ok (p.setValue (.linearColor rr g b a), r4)
  else if st = stColor then do
    let (bs, r1) ← r.readBytes 4
    match bs with
    | [b, g, rr, a] => .ok (p.setValue (.color rr g b a), r1)
    | _ => .error ("ValueError")
  else if st = stGuid then do
    let (bs, r1) ← r.readBytes 16
    .ok (p.setValue (.guid bs), r1)
  else if st = stDateTime ∨ st = stTimespan then do
    let (i, r1) ← r.readInt64
    .ok (p.setValue (.int i), r1)
  else .ok (p, r)

/-- `PropertySerializer._read_map_property`: key/value type strings and a
padding byte, then the remaining `size`-derived bytes kept opaque.  The
`len()` calls raise `TypeError` when a type string is absent. -/
def readMapProperty (r : Reader) (p : FPropertyTag) (size : Int) :
    Except String (FPropertyTag × Reader) := do
  let (key?, r1) ← r.readFstring
  let (val?, r2) ← r1.readFstring
  let (_, r3) ← r2.readByte
  match key?, val? with
  | some k, some v =>
    let remaining : Int := size - ((k.length : Int) + 5) - ((v.length : Int) + 5) - 1
    if remaining > 0 then do
      let (bs, r4) ← r3.readBytes remaining
      .ok (p.setValue (.bytes bs), r4)
    else .ok (p, r3)
  | _, _ => .error ("TypeError")

/-- `PropertySerializer._read_property_tag`: a header-only read used for the
struct-array prototype (16 GUID bytes without the extra padding, then one
padding/bool byte). -/
def readPropertyTag (r : Reader) : Except String (Option FPropertyTag × Reader) :=
  if r.remaining < 4 then .ok (Option.none, r)
  else do
    let (name?, r1) ← r.readFstring
    match name? with
    | Option.none => .ok (Option.none, r1)
    | some name =>
      if name = strNone then .ok (Option.none, r1)
      else do
        let (t?, r2) ← r1.readFstring
        let (_, r3) ← r2.readInt32
        let (_, r4) ← r3.readInt32
        let base := FPropertyTag.mk name t? .none Option.none Option.none
          Option.none Option.none []
        let (tagged, r5) ←
          if t? = some tnStruct then do
            let (st?, r5a) ← r4.readFstring
            let (_, r5b) ← r5a.readBytes 16
            pure (base.setStructType st?, r5b)
          else if t? = some tnArray then do
            let (it?, r5a) ← r4.readFstring
            pure (base.setInnerType it?, r5a)
          else if t? = some tnEnum then do
            let (et?, r5a) ← r4.readFstring
            pure (base.setEnumType et?, r5a)
          else pure (base, r4)
        let (_, r6) ← r5.readByte
        .ok (some tagged, r6)

/-- Run a read `count` times, collecting the results (the element loops of
`_read_array_value`). -/
def iterateRead {α : Type} (f : Reader → Except String (α × Reader))
    (k : Nat) (r : Reader) : Except String (List α × Reader) :=
  if k = 0 then .ok ([], r)
  else do
    let (a, r1) ← f r
    let (as, r2) ← iterateRead f (k - 1) r1
    .ok (a :: as, r2)
termination_by k
decreasing_by omega

/-- The non-struct, non-byte element loop of `_read_array_value`:
Int/Float/Str elements read by their primitive, any other inner type through
the fixed-item-size fallback `(size - 4) // count`. -/
def readSimpleArray (inner : Option PyStr) (size : Int) (count : Int)
    (r : Reader) : Except String (PValue × Reader) :=
  if inner = some tnInt then do
    let (l, r1) ← iterateRead Reader.readInt32 count.toNat r
    .ok (.intList l, r1)
  else if inner = some tnFloat then do
    let (l, r1) ← iterateRead Reader.readFloat count.toNat r
    .ok (.floatList l, r1)
  else if inner = some tnStr then do
    let (l, r1) ← iterateRead Reader.readFstring count.toNat r
    .ok (.strList l, r1)
  else
    let itemSize : Int := if count > 0 then Int.fdiv (size - 4) count else 0
    do
      let (l, r1) ← iterateRead (fun rr => rr.readBytes itemSize) count.toNat r
      .ok (.bytesList l, r1)

/-
The recursive decoder.  The `Nat` fuel argument exists only to express
termination in Lean: every recursive call uses the predecessor fuel, and a
fuel of zero reports an error.  `deserialize` passes `data.length + 1`;
each loop iteration of the source consumes at least four bytes, so the fuel
is never exhausted on inputs the source handles (the single exception being
struct-array element counts far exceeding the buffer length, which no
theorem below touches).
-/
mutual

/-- `PropertySerializer._read_properties`: read properties while at least 4
bytes remain, stopping at (and not storing) the `None` terminator. -/
def readProperties (fuel : Nat) (r : Reader) :
    Except String (List FPropertyTag × Reader) :=
  if fuel = 0 then .error ("fuel")
  else
    if r.remaining ≥ 4 then do
      let (prop?, r1) ← readProperty (fuel - 1) r
      match prop? with
      | Option.none => .ok ([], r1)
      | some prop =>
        if prop.name = strNone then .ok ([], r1)
        else do
          let (props, r2) ← readProperties (fuel - 1) r1
          .ok (prop :: props, r2)
    else .ok ([], r)
termination_by fuel
decreasing_by all_goals omega

/-- `PropertySerializer._read_property`: name, type, declared size (int32),
array index (read but never stored), then the per-type header and value. -/
def readProperty (fuel : Nat) (r : Reader) :
    Except String (Option FPropertyTag × Reader) :=
  if fuel = 0 then .error ("fuel")
  else
    if r.remaining < 4 then .ok (Option.none, r)
    else do
      let (name?, r1) ← r.readFstring
      match name? with
      | Option.none =>
          .ok (some (.mk strNone (some tnTerminator) .none Option.none
            Option.none Option.none Option.none []), r1)
      | some name =>
        if name = strNone then
          .ok (some (.mk strNone (some tnTerminator) .none Option.none
            Option.none Option.none Option.none []), r1)
        else do
          let (t?, r2) ← r1.readFstring
          let (size, r3) ← r2.readInt32
          let (_, r4) ← r3.readInt32
          let base := FPropertyTag.mk name t? .none Option.none Option.none
            Option.none Option.none []
          if t? = some tnArray then do
            let (it?, r5) ← r4.readFstring
            let (_, r6) ← r5.readByte
            let (p1, r7) ← readArrayValue (fuel - 1) r6 (base.setInnerType it?) size
            .ok (some p1, r7)
          else if t? = some tnStruct then do
            let (st?, r5) ← r4.readFstring
            let (_, r6) ← r5.readBytes 17
            let (p1, r7) ← readStructValue (fuel - 1) r6 (base.setStructType st?) size
            .ok (some p1, r7)
          else if t? = some tnEnum then do
            let (et?, r5) ← r4.readFstring
            let (_, r6) ← r5.readByte
            let (v?, r7) ← r6.readFstring
            .ok (some ((base.setEnumType et?).setValue
              (match v? with | some s => .str s | Option.none => .none)), r7)
          else if t? = some tnMap then do
            let (p1, r5) ← readMapProperty r4 base size
            .ok (some p1, r5)
          else if t? = some tnBool then do
            let (b, r5) ← r4.readByte
            let (_, r6) ← r5.readByte
            .ok (some (base.setValue (.bool (b ≠ 0))), r6)
          else do
            let (_, r5) ← r4.readByte
            let (p1, r6) ← readSimpleValue r5 base t? size
            .ok (some p1, r6)
termination_by fuel
decreasing_by all_goals omega

/-- `PropertySerializer._read_array_value` (inner type and padding already
consumed). -/
def readArrayValue (fuel : Nat) (r : Reader) (p : FPropertyTag) (size : Int) :
    Except String (FPropertyTag × Reader) :=
  if fuel = 0 then .error ("fuel")
  else do
    let (count, r1) ← r.readInt32
    if p.inner_type = some tnStruct then do
      let (proto?, r2) ← readPropertyTag r1
      match proto? with
      | Option.none => .ok (p, r2)
      | some proto => do
        let (elems, r3) ← readElems (fuel - 1) count.toNat proto r2
        .ok (((p.setElemName (some proto.name)).setStructType
          proto.struct_type).setNested elems, r3)
    else if p.inner_type = some tnByte then do
      let (bs, r2) ← r1.readBytes count
      .ok (p.setValue (.byteList bs), r2)
    else do
      let (v, r2) ← readSimpleArray p.inner_type size count r1
      .ok (p.setValue v, r2)
termination_by fuel
decreasing_by all_goals omega

/-- The struct-array element loop of `_read_array_value`: each element takes
the prototype's name and struct type and reads its own property list. -/
def readElems (fuel : Nat) (k : Nat) (proto : FPropertyTag) (r : Reader) :
    Except String (List FPropertyTag × Reader) :=
  if fuel = 0 then .error ("fuel")
  else if k = 0 then .ok ([], r)
  else do
    let (ps, r1) ← readProperties (fuel - 1) r
    let elem := FPropertyTag.mk proto.name (some tnStruct) .none Option.none
      proto.struct_type Option.none Option.none ps
    let (rest, r2) ← readElems (fuel - 1) (k - 1) proto r1
    .ok (elem :: rest, r2)
termination_by fuel
decreasing_by all_goals omega

/-- `PropertySerializer._read_struct_value` (struct type and GUID already
consumed): fixed-layout core structs read their byte pattern; every other
tag reads a size-bounded property list and skips any remaining bytes up to
the size boundary. -/
def readStructValue (fuel : Nat) (r : Reader) (p : FPropertyTag) (size : Int) :
    Except String (FPropertyTag × Reader) :=
  if fuel = 0 then .error ("fuel")
  else
    if isFixedCore p.struct_type then
      readCoreStruct r p (p.struct_type.getD [])
    else do
      let startPos := r.offset
      let (ps, r1) ← structLoop (fuel - 1) r (startPos + size)
      let bytesRead := r1.offset - startPos
      if bytesRead < size then do
        let (_, r2) ← r1.readBytes (size - bytesRead)
        .ok (p.setNested ps, r2)
      else .ok (p.setNested ps, r1)
termination_by fuel
decreasing_by all_goals omega

/-- The bounded property-list loop inside `_read_struct_value`: runs while
the cursor is before `endPos` and at least 4 bytes remain, stopping at the
`None` sentinel. -/
def structLoop (fuel : Nat) (r : Reader) (endPos : Int) :
    Except String (List FPropertyTag × Reader) :=
  if fuel = 0 then .error ("fuel")
  else
    if r.offset < endPos ∧ r.remaining ≥ 4 then do
      let (prop?, r1) ← readProperty (fuel - 1) r
      match prop? with
      | Option.none => .ok ([], r1)
      | some prop =>
        if prop.name = strNone then .ok ([], r1)
        else do
          let (props, r2) ← structLoop (fuel - 1) r1 endPos
          .ok (prop :: props, r2)
    else .ok ([], r)
termination_by fuel
decreasing_by all_goals omega

end

/-- `PropertySerializer.deserialize`. -/
def deserialize (data : List Byte) : Except String (List FPropertyTag) :=
  (readProperties (data.length + 1) ⟨data, 0⟩).map (fun x => x.1)

/-! ## Path lookup (`find_property`) -/

/-- `path.split('.', 1)`: the first segment and, when a dot occurs, the rest. -/
def splitDot1 (path : PyStr) : PyStr × Option PyStr :=
  let seg := path.takeWhile (fun c => c ≠ 46)
  if seg.length = path.length then (path, Option.none)
  else (seg, some (path.drop (seg.length + 1)))

/-- `name.rstrip(']')`: strip all trailing `]` (code point 93). -/
def rstripBrack (s : PyStr) : PyStr :=
  (s.reverse.dropWhile (fun c => c = 93)).reverse

/-- Python `int()` on a digit string with an optional sign (the forms that
occur in property paths; other spellings raise `ValueError`, as does an empty
digit run). -/
def pyInt (s : PyStr) : Except String Int :=
  let (sign, digits) :=
    match s with
    | 45 :: rest => ((-1 : Int), rest)
    | 43 :: rest => ((1 : Int), rest)
    | _ => ((1 : Int), s)
  if digits ≠ [] ∧ digits.all (fun c => 48 ≤ c ∧ c ≤ 57) then
    .ok (sign * (digits.foldl (fun acc c => acc * 10 + (c - 48)) 0 : Nat))
  else .error ("ValueError")

/-- Python list indexing `l[i]` (negative indices count from the end;
out-of-range raises `IndexError`). -/
def pyListGet (l : List FPropertyTag) (i : Int) : Except String FPropertyTag :=
  let j : Int := if i < 0 then (l.length : Int) + i else i
  if h : 0 ≤ j ∧ j.toNat < l.length then .ok (l.get ⟨j.toNat, h.2⟩)
  else .error ("IndexError")

/-- Parse one path segment: `Name` or `Name[idx]` (splitting on `[`, code
point 91, must give exactly two parts or the unpacking raises). -/
def parseSegment (seg : PyStr) : Except String (PyStr × Option Int) :=
  if 91 ∈ seg then
    match (rstripBrack seg).splitOn 91 with
    | [nm, idxStr] => do
        let i ← pyInt idxStr
        .ok (nm, some i)
    | _ => .error ("ValueError")
  else .ok (seg, Option.none)

/-- `find_property`: walk a dot-separated path with optional index
suffixes.  The fuel is `path.length + 1`; each recursion strictly shortens
the path. -/
def findPropertyAux (fuel : Nat) (props : List FPropertyTag) (path : PyStr) :
    Except String (Option FPropertyTag) :=
  if fuel = 0 then .error ("fuel")
  else do
    let (seg, rest?) := splitDot1 path
    let (nm, idx?) ← parseSegment seg
    match props.find? (fun p => p.name = nm) with
    | Option.none => .ok Option.none
    | some prop =>
      match idx? with
      | some i =>
          if prop.type_name = some tnArray ∧ i < (prop.nested.length : Int) then do
            let target ← pyListGet prop.nested i
            match rest? with
            | some tail =>
                if target.nested ≠ [] then findPropertyAux (fuel - 1) target.nested tail
                else .ok Option.none
            | Option.none => .ok (some target)
          else .ok Option.none
      | Option.none =>
          match rest? with
          | some tail =>
              if prop.nested ≠ [] then findPropertyAux (fuel - 1) prop.nested tail
              else .ok Option.none
          | Option.none => .ok (some prop)
termination_by fuel
decreasing_by all_goals omega

/-- `find_property(properties, path)`. -/
def findProperty (props : List FPropertyTag) (path : PyStr) :
    Except String (Option FPropertyTag) :=
  findPropertyAux (path.length + 1) props path

/-! ## Well-formed property trees

A tree is well-formed when it is shaped the way the decoder produces trees
and the writer expects them: every type tag is a recognized one, values have
the matching representation and ranges accepted by `struct.pack`, the
type-specific metadata is present exactly where that type uses it, and all
strings are BMP, surrogate-free Python strings.  `decode(encode(t)) = t`
holds for exactly such trees; the claims quantify over them. -/

/-- A string the codec round-trips: all code points below 0x10000 and none a
surrogate (`encode('utf-16-le')` raises on lone surrogates, and astral code
points break the length prefix, see the C5 analysis), with the length bound
the signed 32-bit prefix imposes. -/
def wfStrB (s : PyStr) : Bool :=
  decide (s.length + 1 < 2 ^ 31) &&
    s.all (fun c => c < 0x10000 && !(0xD800 ≤ c && c ≤ 0xDFFF))

/-- Optional-string well-formedness. -/
def wfStrOptB : Option PyStr → Bool
  | Option.none => true
  | some s => wfStrB s

/-- Value shapes and ranges for the fixed-layout core structs. -/
def wfFixedValue (s : PyStr) (v : PValue) : Bool :=
  if s = stVector then
    match v with
    | .vector x y z => decide (x < 2 ^ 32) && decide (y < 2 ^ 32) && decide (z < 2 ^ 32)
    | _ => false
  else if s = stVector2D then
    match v with
    | .vector2d x y => decide (x < 2 ^ 32) && decide (y < 2 ^ 32)
    | _ => false
  else if s = stRotator then
    match v with
    | .rotator a b c => decide (a < 2 ^ 32) && decide (b < 2 ^ 32) && decide (c < 2 ^ 32)
    | _ => false
  else if s = stQuat then
    match v with
    | .quat x y z w => decide (x < 2 ^ 32) && decide (y < 2 ^ 32) &&
        decide (z < 2 ^ 32) && decide (w < 2 ^ 32)
    | _ => false
  else if s = stLinearColor then
    match v with
    | .linearColor x y z w => decide (x < 2 ^ 32) && decide (y < 2 ^ 32) &&
        decide (z < 2 ^ 32) && decide (w < 2 ^ 32)
    | _ => false
  else if s = stColor then
    match v with
    | .color r g b a => decide (r < 256) && decide (g < 256) &&
        decide (b < 256) && decide (a < 256)
    | _ => false
  else if s = stGuid then
    match v with
    | .guid b => decide (b.length = 16) && b.all (fun x => x < 256)
    | _ => false
  else if s = stDateTime ∨ s = stTimespan then
    match v with
    | .int i => decide (-(2 ^ 63) ≤ i) && decide (i < 2 ^ 63)
    | _ => false
  else false

/-- Mode for the well-formedness recursion: a regular property, or a
struct-array element that must carry the given element name and struct
type. -/
inductive WfMode where
  | prop
  | elem (en : PyStr) (st : Option PyStr)

/-- Non-recursive well-formedness of one node: everything except the checks
on the node's nested children, which `wfCore` below adds through
`childSpec`. -/
def wfNode : WfMode → FPropertyTag → Bool
  | .prop, .mk nm t v it st et el ns =>
    wfStrB nm && nm ≠ strNone &&
    decide ((propValueBytes (FPropertyTag.mk nm t v it st et el ns)).length < 2 ^ 31) &&
    (if t = some tnInt then
      (match v with
       | .int i => decide (-(2 ^ 31) ≤ i) && decide (i < 2 ^ 31)
       | _ => false) && it = Option.none && st = Option.none &&
        et = Option.none && el = Option.none && ns = []
    else if t = some tnUInt32 then
      (match v with
       | .int i => decide (0 ≤ i) && decide (i < 2 ^ 32)
       | _ => false) && it = Option.none && st = Option.none &&
        et = Option.none && el = Option.none && ns = []
    else if t = some tnInt64 then
      (match v with
       | .int i => decide (-(2 ^ 63) ≤ i) && decide (i < 2 ^ 63)
       | _ => false) && it = Option.none && st = Option.none &&
        et = Option.none && el = Option.none && ns = []
    else if t = some tnFloat then
      (match v with
       | .float b => decide (b < 2 ^ 32)
       | _ => false) && it = Option.none && st = Option.none &&
        et = Option.none && el = Option.none && ns = []
    else if t = some tnDouble then
      (match v with
       | .double b => decide (b < 2 ^ 64)
       | _ => false) && it = Option.none && st = Option.none &&
        et = Option.none && el = Option.none && ns = []
    else if t = some tnBool then
      (match v with
       | .bool _ => true
       | _ => false) && it = Option.none && st = Option.none &&
        et = Option.none && el = Option.none && ns = []
    else if t = some tnStr ∨ t = some tnName then
      (match v with
       | .none => true
       | .str s => wfStrB s
       | _ => false) && it = Option.none && st = Option.none &&
        et = Option.none && el = Option.none && ns = []
    else if t = some tnEnum then
      wfStrOptB et &&
      (match v with
       | .none => true
       | .str s => wfStrB s
       | _ => false) && it = Option.none && st = Option.none &&
        el = Option.none && ns = []
    else if t = some tnStruct then
      (match st with
       | some s =>
         wfStrB s &&
         (if isFixedCore (some s) then
           wfFixedValue s v && ns = []
         else
           (match v with | .none => true | _ => false))
       | Option.none => false) && it = Option.none && et = Option.none &&
        el = Option.none
    else if t = some tnArray then
      (if it = some tnStruct then
        (match el, st with
         | some en, some s2 =>
           wfStrB en && en ≠ [] && en ≠ strNone && wfStrB s2 && s2 ≠ [] &&
             decide (ns.length < 2 ^ 31) &&
             (match v with | .none => true | _ => false)
         | _, _ => false) && et = Option.none
      else if it = some tnByte then
        (match v with
         | .byteList b => b.all (fun x => x < 256) && decide (b.length < 2 ^ 31)
         | _ => false) && st = Option.none && et = Option.none &&
          el = Option.none && ns = []
      else if it = some tnInt then
        (match v with
         | .intList l =>
           l.all (fun i => decide (-(2 ^ 31) ≤ i) && decide (i < 2 ^ 31)) &&
             decide (l.length < 2 ^ 31)
         | _ => false) && st = Option.none && et = Option.none &&
          el = Option.none && ns = []
      else if it = some tnFloat then
        (match v with
         | .floatList l => l.all (fun b => decide (b < 2 ^ 32)) &&
             decide (l.length < 2 ^ 31)
         | _ => false) && st = Option.none && et = Option.none &&
          el = Option.none && ns = []
      else if it = some tnStr then
        (match v with
         | .strList l => l.all wfStrOptB && decide (l.length < 2 ^ 31)
         | _ => false) && st = Option.none && et = Option.none &&
          el = Option.none && ns = []
      else false)
    else false)
  | .elem en st, .mk nm t v it stp et el _ =>
    nm = en && t = some tnStruct && stp = st &&
    (match v with | .none => true | _ => false) &&
    it = Option.none && et = Option.none && el = Option.none

/-- The mode with which a node's nested children must be checked: the
property-list mode below a non-fixed struct or a struct-array element, the
element mode below a struct array, nothing (the node itself constrains
`nested` to `[]`) everywhere else. -/
def childSpec : WfMode → FPropertyTag → Option WfMode
  | .prop, .mk _ t _ it st _ el _ =>
    if t = some tnStruct then
      (if isFixedCore st then Option.none else some .prop)
    else if t = some tnArray then
      (if it = some tnStruct then
        (match el, st with
         | some en, some s2 => some (.elem en (some s2))
         | _, _ => Option.none)
      else Option.none)
    else Option.none
  | .elem _ _, _ => some .prop

mutual

/-- Well-formedness of one property (or of one struct-array element in
`WfMode.elem`): the node's own checks plus the recursive check of its
children. -/
def wfCore : WfMode → FPropertyTag → Bool
  | m, .mk nm t v it st et el ns =>
    wfNode m (.mk nm t v it st et el ns) &&
      (match childSpec m (.mk nm t v it st et el ns) with
       | some m2 => wfListCore m2 ns
       | Option.none => true)

/-- Well-formedness of a property list / element list. -/
def wfListCore : WfMode → List FPropertyTag → Bool
  | _, [] => true
  | mode, p :: ps => wfCore mode p && wfListCore mode ps

end

/-- Well-formedness of a property. -/
def wfProp (p : FPropertyTag) : Prop := wfCore .prop p = true

/-- Well-formedness of a property list. -/
def wfList (ps : List FPropertyTag) : Prop := wfListCore .prop ps = true

/-! ## Fuel accounting

`fuelNeedList ps` bounds the fuel the decoder consumes while parsing the
encoding of `ps`; it is at most the encoding's byte length, so `deserialize`
with fuel `data.length + 1` never runs dry on encoder output. -/

mutual

/-- Fuel needed to re-parse one encoded property (`WMode.props`) or one
struct-array element body (`WMode.elem`). -/
def fuelPropCore : WMode → FPropertyTag → Nat
  | .props, .mk _ t _ it st _ _ ns =>
    if t = some tnStruct then
      (if isFixedCore st then 2 else 2 + fuelListCore₂ .props ns)
    else if t = some tnArray then
      (if it = some tnStruct then 3 + fuelListCore₂ .elem ns else 2)
    else 1
  | .elem, .mk _ _ _ _ _ _ _ ns => 1 + fuelListCore₂ .props ns

/-- Fuel needed to re-parse an encoded property list (with terminator) or a
run of struct-array element bodies. -/
def fuelListCore₂ : WMode → List FPropertyTag → Nat
  | .props, [] => 2
  | .props, p :: ps => 1 + fuelPropCore .props p + fuelListCore₂ .props ps
  | .elem, [] => 1
  | .elem, e :: es => fuelPropCore .elem e + fuelListCore₂ .elem es

end

/-- Fuel needed for a property list. -/
def fuelNeedList (ps : List FPropertyTag) : Nat := fuelListCore₂ .props ps

/-- Fuel needed for one property. -/
def fuelNeedProp (p : FPropertyTag) : Nat := fuelPropCore .props p

/-- Fuel needed for the element bodies of a struct array. -/
def fuelNeedElems (es : List FPropertyTag) : Nat := fuelListCore₂ .elem es

/-! ## The byte pattern accepted for a property

`genProp p idx filler` is `writeProperty p` generalized over the on-disk
fields the decoder reads but never interprets: the 32-bit array-index and,
for struct headers, the 16 GUID bytes plus padding byte.  The writer's
output is the instance with index 0 and an all-zero filler. -/

/-- `propHeaderBytes` with the struct GUID + padding generalized. -/
def genHeader (p : FPropertyTag) (filler : List Byte) : List Byte :=
  if p.type_name = some tnArray then writeFstring p.inner_type ++ [0]
  else if p.type_name = some tnStruct then writeFstring p.struct_type ++ filler
  else if p.type_name = some tnEnum then writeFstring p.enum_type ++ [0]
  else if p.type_name = some tnBool then [if pyTruthy p.value then 1 else 0, 0]
  else [0]

/-- `writeProperty` with the array-index field and struct filler bytes
generalized. -/
def genProp (p : FPropertyTag) (idx : Int) (filler : List Byte) : List Byte :=
  writeFstring (some p.name) ++ writeFstring p.type_name ++
    int32LE ((propValueBytes p).length : Int) ++ int32LE idx ++
    genHeader p filler ++ propValueBytes p

/-! ## Monad and byte-level reduction lemmas -/

theorem bindOk {α β : Type} (a : α) (f : α → Except String β) :
    (Except.ok a >>= f) = f a := rfl

theorem bindErr {α β : Type} (e : String) (f : α → Except String β) :
    ((Except.error e : Except String α) >>= f) = .error e := rfl

theorem mapOk {α β : Type} (a : α) (f : α → β) :
    (Except.ok a : Except String α).map f = .ok (f a) := rfl

theorem natLE_length (k u : Nat) : (natLE k u).length = k := by
  induction k generalizing u with
  | zero => rw [natLE]; simp
  | succ n ih => rw [natLE]; simp [ih]

theorem int32LE_length (i : Int) : (int32LE i).length = 4 := by
  simp [int32LE, natLE_length]

theorem uint32LE_length (i : Int) : (uint32LE i).length = 4 := by
  simp [uint32LE, natLE_length]

theorem int64LE_length (i : Int) : (int64LE i).length = 8 := by
  simp [int64LE, natLE_length]

theorem f32LE_length (b : Nat) : (f32LE b).length = 4 := by
  simp [f32LE, natLE_length]

theorem f64LE_length (b : Nat) : (f64LE b).length = 8 := by
  simp [f64LE, natLE_length]

theorem leToNat_natLE (k u : Nat) : leToNat (natLE k u) = u % 256 ^ k := by
  induction k generalizing u with
  | zero => rw [natLE]; simp [leToNat, Nat.mod_one]
  | succ n ih =>
      rw [natLE]
      simp only [Nat.succ_ne_zero, if_false, leToNat, Nat.add_sub_cancel, ih]
      rw [pow_succ, mul_comm (256 ^ n) 256, Nat.mod_mul]

theorem leToNat_int32LE (i : Int) :
    (leToNat (int32LE i) : Int) = i % 2 ^ 32 := by
  have h1 : (0 : Int) < 2 ^ 32 := by norm_num
  have h2 : 0 ≤ i % 2 ^ 32 := Int.emod_nonneg i (by norm_num)
  have h3 : i % 2 ^ 32 < 2 ^ 32 := Int.emod_lt_of_pos i h1
  rw [int32LE, leToNat_natLE]
  have : (i % (2 : Int) ^ 32).toNat % 256 ^ 4 = (i % (2 : Int) ^ 32).toNat := by
    apply Nat.mod_eq_of_lt
    have : ((256 : Nat) ^ 4 : Nat) = 2 ^ 32 := by norm_num
    omega
  rw [this]
  omega

theorem leToNat_int64LE (i : Int) :
    (leToNat (int64LE i) : Int) = i % 2 ^ 64 := by
  have h1 : (0 : Int) < 2 ^ 64 := by norm_num
  have h2 : 0 ≤ i % 2 ^ 64 := Int.emod_nonneg i (by norm_num)
  have h3 : i % 2 ^ 64 < 2 ^ 64 := Int.emod_lt_of_pos i h1
  rw [int64LE, leToNat_natLE]
  have : (i % (2 : Int) ^ 64).toNat % 256 ^ 8 = (i % (2 : Int) ^ 64).toNat := by
    apply Nat.mod_eq_of_lt
    have : ((256 : Nat) ^ 8 : Nat) = 2 ^ 64 := by norm_num
    omega
  rw [this]
  omega

theorem toSigned32_int32LE (i : Int) (h1 : -(2 ^ 31) ≤ i) (h2 : i < 2 ^ 31) :
    toSigned 32 (leToNat (int32LE i)) = i := by
  have hl := leToNat_int32LE i
  rw [toSigned]
  split <;> omega

theorem toSigned64_int64LE (i : Int) (h1 : -(2 ^ 63) ≤ i) (h2 : i < 2 ^ 63) :
    toSigned 64 (leToNat (int64LE i)) = i := by
  have hl := leToNat_int64LE i
  rw [toSigned]
  split <;> omega

theorem leToNat_f32LE (b : Nat) (hb : b < 2 ^ 32) : leToNat (f32LE b) = b := by
  rw [f32LE, leToNat_natLE]
  apply Nat.mod_eq_of_lt
  have : ((256 : Nat) ^ 4 : Nat) = 2 ^ 32 := by norm_num
  omega

theorem leToNat_f64LE (b : Nat) (hb : b < 2 ^ 64) : leToNat (f64LE b) = b := by
  rw [f64LE, leToNat_natLE]
  apply Nat.mod_eq_of_lt
  have : ((256 : Nat) ^ 8 : Nat) = 2 ^ 64 := by norm_num
  omega

/-! ## Reading at a cursor

Each lemma has the shape: if the bytes from the cursor on are `x ++ tail`,
the read returns the value encoded by `x` and advances the cursor by
`x.length`. -/

theorem le_of_drop {d x tail : List Byte} {off : Int} (h0 : 0 ≤ off)
    (hoff : off ≤ (d.length : Int))
    (h : List.drop off.toNat d = x ++ tail) :
    off + x.length + tail.length = d.length := by
  have hlen := congrArg List.length h
  simp only [List.length_drop, List.length_append] at hlen
  omega

theorem off_step {d x tail : List Byte} {off : Int} (h0 : 0 ≤ off)
    (hoff : off ≤ (d.length : Int))
    (h : List.drop off.toNat d = x ++ tail) :
    off + x.length ≤ (d.length : Int) := by
  have hle := le_of_drop h0 hoff h
  omega

theorem drop_advance {d x tail : List Byte} {off : Int} (h0 : 0 ≤ off)
    (h : List.drop off.toNat d = x ++ tail) :
    List.drop (off + x.length).toNat d = tail := by
  have ht : (off + x.length).toNat = off.toNat + x.length := by omega
  rw [ht, ← List.drop_drop, h, List.drop_left]

theorem readBytes_at {d x tail : List Byte} {off n : Int} (h0 : 0 ≤ off)
    (hoff : off ≤ (d.length : Int))
    (h : List.drop off.toNat d = x ++ tail) (hn : n = (x.length : Int)) :
    Reader.readBytes ⟨d, off⟩ n = .ok (x, ⟨d, off + n⟩) := by
  have hle := le_of_drop h0 hoff h
  subst hn
  rw [Reader.readBytes, if_neg (by simp only [Reader.offset, Reader.data]; omega)]
  simp only [pySlice]
  rw [if_neg (by omega), if_pos (by omega), if_neg (by omega), if_pos (by omega)]
  have ht : (off + (x.length : Int)).toNat - off.toNat = x.length := by omega
  rw [ht, h, List.take_left]

theorem readByte_at {d tail : List Byte} {b : Byte} {off : Int} (h0 : 0 ≤ off)
    (hoff : off ≤ (d.length : Int))
    (h : List.drop off.toNat d = b :: tail) :
    Reader.readByte ⟨d, off⟩ = .ok (b, ⟨d, off + 1⟩) := by
  rw [Reader.readByte]
  rw [readBytes_at h0 hoff (x := [b]) (by simpa using h) (by simp)]
  simp [bindOk]

theorem readInt32_at {d tail : List Byte} {i off : Int} (h0 : 0 ≤ off)
    (hoff : off ≤ (d.length : Int))
    (h : List.drop off.toNat d = int32LE i ++ tail)
    (h1 : -(2 ^ 31) ≤ i) (h2 : i < 2 ^ 31) :
    Reader.readInt32 ⟨d, off⟩ = .ok (i, ⟨d, off + 4⟩) := by
  rw [Reader.readInt32, readBytes_at h0 hoff h (by simp [int32LE_length])]
  simp [bindOk, int32LE_length, toSigned32_int32LE i h1 h2]

theorem readUInt32_at {d tail : List Byte} {i off : Int} (h0 : 0 ≤ off)
    (hoff : off ≤ (d.length : Int))
    (h : List.drop off.toNat d = uint32LE i ++ tail)
    (h1 : 0 ≤ i) (h2 : i < 2 ^ 32) :
    Reader.readUInt32 ⟨d, off⟩ = .ok (i, ⟨d, off + 4⟩) := by
  rw [Reader.readUInt32, readBytes_at h0 hoff h (by simp [uint32LE_length])]
  have hv : ((leToNat (uint32LE i) : Int)) = i := by
    have he : uint32LE i = int32LE i := rfl
    rw [he, leToNat_int32LE]
    omega
  simp [bindOk, uint32LE_length, hv]

theorem readInt64_at {d tail : List Byte} {i off : Int} (h0 : 0 ≤ off)
    (hoff : off ≤ (d.length : Int))
    (h : List.drop off.toNat d = int64LE i ++ tail)
    (h1 : -(2 ^ 63) ≤ i) (h2 : i < 2 ^ 63) :
    Reader.readInt64 ⟨d, off⟩ = .ok (i, ⟨d, off + 8⟩) := by
  rw [Reader.readInt64, readBytes_at h0 hoff h (by simp [int64LE_length])]
  simp [bindOk, int64LE_length, toSigned64_int64LE i h1 h2]

theorem readFloat_at {d tail : List Byte} {b : Nat} {off : Int} (h0 : 0 ≤ off)
    (hoff : off ≤ (d.length : Int))
    (h : List.drop off.toNat d = f32LE b ++ tail) (hb : b < 2 ^ 32) :
    Reader.readFloat ⟨d, off⟩ = .ok (b, ⟨d, off + 4⟩) := by
  rw [Reader.readFloat, readBytes_at h0 hoff h (by simp [f32LE_length])]
  simp [bindOk, f32LE_length, leToNat_f32LE b hb]

theorem readDouble_at {d tail : List Byte} {b : Nat} {off : Int} (h0 : 0 ≤ off)
    (hoff : off ≤ (d.length : Int))
    (h : List.drop off.toNat d = f64LE b ++ tail) (hb : b < 2 ^ 64) :
    Reader.readDouble ⟨d, off⟩ = .ok (b, ⟨d, off + 8⟩) := by
  rw [Reader.readDouble, readBytes_at h0 hoff h (by simp [f64LE_length])]
  simp [bindOk, f64LE_length, leToNat_f64LE b hb]

/-! ## String encoding lemmas -/

/-- A BMP code point is one UTF-16 unit. -/
theorem utf16Units_bmp {c : Nat} (hc : c < 0x10000) : utf16Units c = [c] := by
  rw [utf16Units, if_pos hc]

theorem utf16leEncode_bmp {s : PyStr} (hs : ∀ c ∈ s, c < 0x10000) :
    utf16leEncode s = s.flatMap (fun c => [c % 256, c / 256 % 256]) := by
  induction s with
  | nil => rfl
  | cons c cs ih =>
      have hc := hs c (List.mem_cons_self c cs)
      have ihh := ih (fun x hx => hs x (List.mem_cons_of_mem c hx))
      simp only [utf16leEncode, List.flatMap_cons, List.flatMap_append] at ihh ⊢
      rw [utf16Units_bmp hc]
      simp [ihh]

theorem utf16leEncode_length_bmp {s : PyStr} (hs : ∀ c ∈ s, c < 0x10000) :
    (utf16leEncode s).length = 2 * s.length := by
  rw [utf16leEncode_bmp hs]
  clear hs
  induction s with
  | nil => rfl
  | cons c cs ih =>
      simp only [List.flatMap_cons, List.length_append, List.length_cons,
        List.length_nil, ih]
      omega

theorem utf16Pairs_encode {s : PyStr} (hs : ∀ c ∈ s, c < 0x10000) :
    utf16Pairs (utf16leEncode s) = .ok s := by
  rw [utf16leEncode_bmp hs]
  induction s with
  | nil => rfl
  | cons c cs ih =>
      simp only [List.flatMap_cons, List.cons_append, List.nil_append]
      rw [utf16Pairs]
      rw [ih (fun x hx => hs x (List.mem_cons_of_mem c hx))]
      have hc := hs c (List.mem_cons_self c cs)
      have : c % 256 + 256 * (c / 256 % 256) = c := by
        have h2 : c % (256 * 256) = c % 256 + 256 * (c / 256 % 256) := Nat.mod_mul
        have h3 : c % (256 * 256) = c := Nat.mod_eq_of_lt (by omega)
        omega
      simp [bindOk, this]

theorem utf16Combine_clean {s : PyStr}
    (hs : ∀ c ∈ s, ¬(0xD800 ≤ c ∧ c ≤ 0xDFFF)) :
    utf16Combine s = .ok s := by
  induction s with
  | nil => rfl
  | cons c cs ih =>
      have hc := hs c (List.mem_cons_self c cs)
      have ihh := ih (fun x hx => hs x (List.mem_cons_of_mem c hx))
      cases cs with
      | nil =>
          rw [utf16Combine, if_neg (by omega), if_neg (by omega)]
      | cons c2 cs2 =>
          rw [utf16Combine, if_neg (by omega), if_neg (by omega), ihh]
          rfl

theorem asciiDecode_clean {s : PyStr} (hs : ∀ c ∈ s, c < 128) :
    asciiDecode s = .ok s := by
  rw [asciiDecode, if_pos]
  simpa [List.all_eq_true] using hs

theorem dropLast_append_one {l : List Byte} {a : Byte} :
    (l ++ [a]).dropLast = l := by
  simp

theorem dropLast_append_two {l : List Byte} {a b : Byte} :
    (l ++ [a, b]).dropLast.dropLast = l := by
  have h : l ++ [a, b] = (l ++ [a]) ++ [b] := by simp
  rw [h, dropLast_append_one, dropLast_append_one]

/-- The bytes `write_fstring` emits for a well-formed optional string, read
back by `read_fstring`. -/
theorem readFstring_at {d tail : List Byte} {x : Option PyStr} {off : Int}
    (h0 : 0 ≤ off) (hoff : off ≤ (d.length : Int)) (hwf : wfStrOptB x = true)
    (h : List.drop off.toNat d = writeFstring x ++ tail) :
    Reader.readFstring ⟨d, off⟩ =
      .ok (x, ⟨d, off + (writeFstring x).length⟩) := by
  match x with
  | Option.none =>
      rw [writeFstring] at h
      rw [Reader.readFstring, readInt32_at h0 hoff h (by norm_num) (by norm_num)]
      simp only [bindOk]
      simp only [if_true, eq_self_iff_true]
      simp only [writeFstring, int32LE_length, Except.ok.injEq, Prod.mk.injEq,
        Reader.mk.injEq, true_and]
      omega
  | some s =>
      have hwf2 : wfStrB s = true := hwf
      rw [wfStrB] at hwf2
      simp only [Bool.and_eq_true, decide_eq_true_eq, List.all_eq_true] at hwf2
      obtain ⟨hslen, hcp⟩ := hwf2
      by_cases hA : s.all (fun c => c < 128)
      · -- ASCII branch
        have hwB : writeFstring (some s) =
            int32LE ((s.length : Int) + 1) ++ (s ++ [0]) := by
          rw [writeFstring, if_pos hA]
          simp [List.append_assoc]
        rw [hwB] at h
        rw [List.append_assoc] at h
        rw [Reader.readFstring,
          readInt32_at h0 hoff h (by omega) (by push_cast; omega)]
        simp only [bindOk]
        have h2 := drop_advance h0 h
        have hoff2 := off_step h0 hoff h
        rw [int32LE_length] at h2 hoff2
        push_cast at h2 hoff2
        have h02 : (0 : Int) ≤ off + 4 := by omega
        by_cases hnil : s = []
        · subst hnil
          rw [if_neg (by norm_num), if_pos (by norm_num)]
          simp only [List.nil_append] at h2
          rw [readByte_at h02 hoff2 h2]
          simp only [bindOk]
          simp only [hwB, List.length_append, List.length_cons, List.length_nil,
            int32LE_length, Except.ok.injEq, Prod.mk.injEq, Reader.mk.injEq,
            List.nil_append, true_and]
          try omega
        · have hpos : 0 < s.length := List.length_pos.mpr hnil
          rw [if_neg (by push_cast; omega), if_neg (by push_cast; omega),
            if_neg (by push_cast; omega)]
          rw [readBytes_at h02 hoff2 h2 (by
            simp only [List.length_append, List.length_cons, List.length_nil]
            push_cast
            omega)]
          simp only [bindOk]
          rw [dropLast_append_one,
            asciiDecode_clean (by
              intro c hc
              have hA2 := hA
              simp only [List.all_eq_true, decide_eq_true_eq] at hA2
              exact hA2 c hc)]
          simp only [bindOk]
          simp only [hwB, List.length_append, List.length_cons, List.length_nil,
            int32LE_length, Except.ok.injEq, Prod.mk.injEq, Reader.mk.injEq,
            true_and]
          try (push_cast; omega)
      · -- UTF-16 branch
        have hbmp : ∀ c ∈ s, c < 0x10000 := fun c hc => (hcp c hc).1
        have hwB : writeFstring (some s) =
            int32LE (-((s.length : Int) + 1)) ++ (utf16leEncode s ++ [0, 0]) := by
          rw [writeFstring, if_neg hA]
          simp [List.append_assoc]
        rw [hwB] at h
        rw [List.append_assoc] at h
        rw [Reader.readFstring,
          readInt32_at h0 hoff h (by push_cast; omega) (by push_cast; omega)]
        simp only [bindOk]
        have h2 := drop_advance h0 h
        have hoff2 := off_step h0 hoff h
        rw [int32LE_length] at h2 hoff2
        push_cast at h2 hoff2
        have h02 : (0 : Int) ≤ off + 4 := by omega
        rw [if_neg (by push_cast; omega), if_neg (by push_cast; omega),
          if_pos (by push_cast; omega)]
        rw [readBytes_at h02 hoff2 h2 (by
          simp only [List.length_append, List.length_cons, List.length_nil,
            utf16leEncode_length_bmp hbmp]
          push_cast
          omega)]
        simp only [bindOk]
        rw [dropLast_append_two]
        rw [utf16leDecode, utf16Pairs_encode hbmp, bindOk,
          utf16Combine_clean (fun c hc => by
            have hsur := (hcp c hc).2
            simp at hsur
            omega)]
        simp only [bindOk]
        simp only [hwB, List.length_append, List.length_cons, List.length_nil,
          int32LE_length, utf16leEncode_length_bmp hbmp, Except.ok.injEq,
          Prod.mk.injEq, Reader.mk.injEq, true_and]
        try (push_cast; omega)

/-! ## Writer shape lemmas -/

theorem writeProperties_false_eq (ps : List FPropertyTag) :
    writeProperties ps false = propsConcat ps ++ writeFstring (some strNone) := by
  simp [writeProperties]

theorem writeProperties_cons (p : FPropertyTag) (ps : List FPropertyTag) :
    writeProperties (p :: ps) false =
      writeProperty p ++ writeProperties ps false := by
  rw [writeProperties_false_eq, writeProperties_false_eq, propsConcat_cons,
    List.append_assoc]

theorem writeProperties_nil :
    writeProperties [] false = writeFstring (some strNone) := by
  simp [writeProperties_false_eq]

theorem strNoneTerm_length : (writeFstring (some strNone)).length = 9 := by
  simp only [writeFstring]
  rw [if_pos (by decide)]
  simp only [List.length_append, int32LE_length, List.length_cons,
    List.length_nil]
  decide

theorem wf_strNone : wfStrOptB (some strNone) = true := by decide

/-- Patching four bytes right after a prefix `a` replaces exactly the
four-byte block that follows it. -/
theorem patch32_right (a b c b2 : List Byte) (hb : b.length = 4) :
    patch32 (a ++ (b ++ c)) a.length b2 = a ++ (b2 ++ c) := by
  have h1 : (a ++ (b ++ c)).take a.length = a := List.take_left a (b ++ c)
  have h2 : (a ++ (b ++ c)).drop (a.length + 4) = c := by
    rw [← List.append_assoc]
    have h3 : a.length + 4 = (a ++ b).length := by simp [hb]
    rw [h3, List.drop_left]
  rw [patch32, h1, h2, List.append_assoc]

theorem genHeader_replicate (p : FPropertyTag) :
    genHeader p (List.replicate 17 0) = propHeaderBytes p := rfl

/-- The writer's seek-and-patch output is `genProp` with array index 0 and an
all-zero struct filler. -/
theorem writeProperty_eq_gen (p : FPropertyTag) :
    writeProperty p = genProp p 0 (List.replicate 17 0) := by
  simp only [writeProperty]
  rw [List.append_assoc, List.append_assoc, List.append_assoc]
  rw [patch32_right _ _ _ _ (int32LE_length 0)]
  simp only [genProp, genHeader_replicate, List.append_assoc]

theorem writeFstring_length_ge (x : Option PyStr) :
    4 ≤ (writeFstring x).length := by
  cases x with
  | none => simp [writeFstring, int32LE_length]
  | some s =>
      rw [writeFstring]
      split
      · simp [int32LE_length]
      · simp [int32LE_length]

theorem genProp_length_eq (p : FPropertyTag) (idx : Int) (filler : List Byte) :
    (genProp p idx filler).length =
      (writeFstring (some p.name)).length + (writeFstring p.type_name).length +
        8 + (genHeader p filler).length + (propValueBytes p).length := by
  simp [genProp, int32LE_length]
  omega

theorem genHeader_length_ge (p : FPropertyTag) (filler : List Byte) :
    1 ≤ (genHeader p filler).length ∨ p.type_name = some tnStruct := by
  rw [genHeader]
  split
  · left; simp [List.length_append]
  · split
    · right; assumption
    · split
      · left; simp [List.length_append]
      · split
        · left; simp
        · left; simp

theorem genProp_length_ge (p : FPropertyTag) (idx : Int) (filler : List Byte) :
    16 ≤ (genProp p idx filler).length := by
  have h1 := writeFstring_length_ge (some p.name)
  have h2 := writeFstring_length_ge p.type_name
  rw [genProp_length_eq]
  omega

theorem writeProperty_length_eq (p : FPropertyTag) :
    (writeProperty p).length =
      (writeFstring (some p.name)).length + (writeFstring p.type_name).length +
        8 + (propHeaderBytes p).length + (propValueBytes p).length := by
  rw [writeProperty_eq_gen, genProp_length_eq, genHeader_replicate]

theorem genProp_length_filler (p : FPropertyTag) (idx : Int)
    (filler : List Byte) (hf : filler.length = 17) :
    (genProp p idx filler).length = (writeProperty p).length := by
  rw [writeProperty_length_eq, genProp_length_eq]
  have : (genHeader p filler).length = (propHeaderBytes p).length := by
    rw [genHeader, propHeaderBytes]
    split
    · rfl
    · split
      · simp [hf]
      · rfl
  omega

theorem writeProperty_length_ge (p : FPropertyTag) :
    16 + (propValueBytes p).length ≤ (writeProperty p).length := by
  have h1 := writeFstring_length_ge (some p.name)
  have h2 := writeFstring_length_ge p.type_name
  rw [writeProperty_length_eq]
  omega

theorem writeProperties_false_length (ps : List FPropertyTag) :
    (writeProperties ps false).length = (propsConcat ps).length + 9 := by
  rw [writeProperties_false_eq]
  simp [strNoneTerm_length]

theorem writeProperties_false_length_ge (ps : List FPropertyTag) :
    9 ≤ (writeProperties ps false).length := by
  rw [writeProperties_false_length]
  omega

theorem elemsData_cons_length (e : FPropertyTag) (es : List FPropertyTag) :
    (elemsData (e :: es)).length =
      (writeProperties e.nested false).length + (elemsData es).length := by
  rw [elemsData_cons, writeProperties_false_length]
  simp [strNoneTerm_length]
  omega

/-! ## Fuel is covered by the encoding's byte length -/

theorem fuelBound_aux (n : Nat) :
    (∀ p : FPropertyTag, sizeOf p ≤ n →
        fuelPropCore .props p + 1 ≤ (writeProperty p).length) ∧
    (∀ ps : List FPropertyTag, sizeOf ps ≤ n →
        fuelListCore₂ .props ps + 2 ≤ (writeProperties ps false).length ∧
        fuelListCore₂ .elem ps ≤ (elemsData ps).length + 1) := by
  induction n with
  | zero =>
      constructor
      · intro p hsz
        cases p with
        | mk nm t v it st et el ns =>
            simp only [FPropertyTag.mk.sizeOf_spec] at hsz
            omega
      · intro ps hsz
        cases ps with
        | nil => simp at hsz
        | cons q qs =>
            simp only [List.cons.sizeOf_spec] at hsz
            omega
  | succ n ih =>
      obtain ⟨ihP, ihL⟩ := ih
      constructor
      · intro p hsz
        cases p with
        | mk nm t v it st et el ns =>
          simp only [FPropertyTag.mk.sizeOf_spec] at hsz
          have hns : sizeOf ns ≤ n := by omega
          have hwg := writeProperty_length_ge (.mk nm t v it st et el ns)
          by_cases hts : t = some tnStruct
          · subst hts
            simp only [fuelPropCore, if_true]
            by_cases hfix : isFixedCore st
            · rw [if_pos hfix]; omega
            · rw [if_neg hfix]
              have hpv : propValueBytes (.mk nm (some tnStruct) v it st et el ns)
                  = writeProperties ns false := by
                simp only [propValueBytes, FPropertyTag.type_name,
                  writeStructValue, FPropertyTag.struct_type, FPropertyTag.nested]
                rw [if_neg (by decide)]
                simp only [if_true]
                rw [if_neg hfix, ← writeProperties_false_eq]
              rw [hpv] at hwg
              have h1 := (ihL ns hns).1
              omega
          · by_cases hta : t = some tnArray
            · subst hta
              simp only [fuelPropCore]
              rw [if_neg (by decide)]
              simp only [if_true]
              by_cases hit : it = some tnStruct
              · rw [if_pos hit]
                have hpv : (elemsData ns).length ≤
                    (propValueBytes (.mk nm (some tnArray) v it st et el ns)).length := by
                  simp only [propValueBytes, FPropertyTag.type_name, if_true]
                  simp only [writeArrayValue, FPropertyTag.inner_type,
                    FPropertyTag.nested]
                  rw [if_pos hit]
                  simp [List.length_append, int32LE_length]
                  omega
                have he := (ihL ns hns).2
                omega
              · rw [if_neg hit]; omega
            · simp only [fuelPropCore]
              rw [if_neg hts, if_neg hta]
              omega
      · intro ps hsz
        cases ps with
        | nil =>
            constructor
            · simp [fuelListCore₂, writeProperties_nil, strNoneTerm_length]
            · simp [fuelListCore₂]
        | cons q qs =>
            cases q with
            | mk nm t v it st et el ns =>
              simp only [List.cons.sizeOf_spec, FPropertyTag.mk.sizeOf_spec] at hsz
              have hq : sizeOf (FPropertyTag.mk nm t v it st et el ns) ≤ n := by
                simp only [FPropertyTag.mk.sizeOf_spec]
                omega
              have hqs : sizeOf qs ≤ n := by omega
              have hns : sizeOf ns ≤ n := by omega
              have h1 := ihP _ hq
              have h2 := ihL qs hqs
              have h3 := ihL ns hns
              constructor
              · rw [writeProperties_cons]
                simp only [fuelListCore₂, List.length_append]
                omega
              · rw [elemsData_cons_length]
                simp only [fuelListCore₂, fuelPropCore, FPropertyTag.nested]
                omega

theorem fuelNeedProp_le (p : FPropertyTag) :
    fuelNeedProp p + 1 ≤ (writeProperty p).length :=
  (fuelBound_aux (sizeOf p)).1 p le_rfl

theorem fuelNeedList_le (ps : List FPropertyTag) :
    fuelNeedList ps + 2 ≤ (writeProperties ps false).length :=
  ((fuelBound_aux (sizeOf ps)).2 ps le_rfl).1

theorem fuelNeedElems_le (es : List FPropertyTag) :
    fuelNeedElems es ≤ (elemsData es).length + 1 :=
  ((fuelBound_aux (sizeOf es)).2 es le_rfl).2

/-! ## Decoder inversion -/

/-- `readProperty` re-parses every `genProp` rendering of `p` — any array
index and any struct filler bytes — returning `p` itself and leaving the
cursor right after the record. -/
def PropParses (p : FPropertyTag) : Prop :=
  ∀ (fuel : Nat) (d filler tail : List Byte) (off idx : Int),
    wfProp p → filler.length = 17 → -(2 ^ 31) ≤ idx → idx < 2 ^ 31 →
    0 ≤ off → off ≤ (d.length : Int) →
    List.drop off.toNat d = genProp p idx filler ++ tail →
    fuelNeedProp p ≤ fuel →
    readProperty fuel ⟨d, off⟩ =
      .ok (some p, ⟨d, off + ((genProp p idx filler).length : Int)⟩)

theorem pureOk {α : Type} (a : α) : (pure a : Except String α) = .ok a := rfl

theorem rem_ge {d x tail : List Byte} {off : Int} (h0 : 0 ≤ off)
    (hoff : off ≤ (d.length : Int)) (h : List.drop off.toNat d = x ++ tail)
    (hx : 4 ≤ x.length) : Reader.remaining ⟨d, off⟩ ≥ 4 := by
  have hl := le_of_drop h0 hoff h
  show (4 : Int) ≤ (d.length : Int) - off
  omega

theorem rem_not_lt {d x tail : List Byte} {off : Int} (h0 : 0 ≤ off)
    (hoff : off ≤ (d.length : Int)) (h : List.drop off.toNat d = x ++ tail)
    (hx : 4 ≤ x.length) : ¬ Reader.remaining ⟨d, off⟩ < 4 := by
  have hl := le_of_drop h0 hoff h
  show ¬ (d.length : Int) - off < 4
  omega

theorem wfProp_name_ne {p : FPropertyTag} (h : wfCore .prop p = true) :
    p.name ≠ strNone := by
  cases p with
  | mk nm t v it st et el ns =>
      rw [wfCore] at h
      have h1 := ((Bool.and_eq_true _ _).mp h).1
      unfold wfNode at h1
      have h2 := ((Bool.and_eq_true _ _).mp h1).1
      have h3 := ((Bool.and_eq_true _ _).mp h2).1
      have h4 := ((Bool.and_eq_true _ _).mp h3).2
      exact of_decide_eq_true h4

theorem pvalue_none_of {v : PValue}
    (h : (match v with | PValue.none => true | _ => false) = true) :
    v = .none := by
  cases v <;> simp_all

/-- `_read_property` consumes the `None` terminator and returns the sentinel
record. -/
theorem readProperty_sentinel {d tail : List Byte} {off : Int} {fuel : Nat}
    (hf : fuel ≠ 0) (h0 : 0 ≤ off) (hoff : off ≤ (d.length : Int))
    (h : List.drop off.toNat d = writeFstring (some strNone) ++ tail) :
    readProperty fuel ⟨d, off⟩ =
      .ok (some (.mk strNone (some tnTerminator) .none Option.none Option.none
        Option.none Option.none []),
        ⟨d, off + ((writeFstring (some strNone)).length : Int)⟩) := by
  rw [readProperty, if_neg hf,
    if_neg (rem_not_lt h0 hoff h (by rw [strNoneTerm_length]; omega))]
  rw [readFstring_at h0 hoff wf_strNone h]
  simp only [bindOk, if_true]

/-- `_read_property_tag` re-parses the prototype tag `_write_prototype_tag`
emits for a struct array. -/
theorem readPropertyTag_at {d tail : List Byte} {off : Int} {en s2 : PyStr}
    {esz : Nat} (h0 : 0 ≤ off) (hoff : off ≤ (d.length : Int))
    (hwfen : wfStrB en = true) (hne : en ≠ strNone)
    (hwfs2 : wfStrB s2 = true) (hesz : esz < 2 ^ 31)
    (h : List.drop off.toNat d =
      writeProtoTag (.mk en (some tnStruct) .none Option.none (some s2)
        Option.none Option.none []) esz ++ tail) :
    readPropertyTag ⟨d, off⟩ =
      .ok (some (.mk en (some tnStruct) .none Option.none (some s2)
          Option.none Option.none []),
        ⟨d, off + ((writeProtoTag (.mk en (some tnStruct) .none Option.none
          (some s2) Option.none Option.none []) esz).length : Int)⟩) := by
  simp only [writeProtoTag, FPropertyTag.name, FPropertyTag.type_name,
    FPropertyTag.struct_type, List.append_assoc] at h
  rw [readPropertyTag,
    if_neg (rem_not_lt h0 hoff h (writeFstring_length_ge (some en)))]
  rw [readFstring_at h0 hoff (show wfStrOptB (some en) = true from hwfen) h]
  simp only [bindOk]
  rw [if_neg hne]
  have h01 : (0 : Int) ≤ off + ((writeFstring (some en)).length : Int) := by
    omega
  have hoff1 := off_step h0 hoff h
  have hD1 := drop_advance h0 h
  rw [readFstring_at h01 hoff1 (by decide) hD1]
  simp only [bindOk]
  have h02 : (0 : Int) ≤ off + ((writeFstring (some en)).length : Int) +
      ((writeFstring (some tnStruct)).length : Int) := by omega
  have hoff2 := off_step h01 hoff1 hD1
  have hD2 := drop_advance h01 hD1
  rw [readInt32_at h02 hoff2 hD2 (by omega) (by exact_mod_cast hesz)]
  simp only [bindOk]
  have h03 : (0 : Int) ≤ off + ((writeFstring (some en)).length : Int) +
      ((writeFstring (some tnStruct)).length : Int) + 4 := by omega
  have hoff3 := off_step h02 hoff2 hD2
  have hD3 := drop_advance h02 hD2
  rw [int32LE_length] at hoff3 hD3
  push_cast at hoff3 hD3
  rw [readInt32_at h03 hoff3 hD3 (by norm_num) (by norm_num)]
  simp only [bindOk]
  have h04 : (0 : Int) ≤ off + ((writeFstring (some en)).length : Int) +
      ((writeFstring (some tnStruct)).length : Int) + 4 + 4 := by omega
  have hoff4 := off_step h03 hoff3 hD3
  have hD4 := drop_advance h03 hD3
  rw [int32LE_length] at hoff4 hD4
  push_cast at hoff4 hD4
  simp only [if_true]
  rw [readFstring_at h04 hoff4 (show wfStrOptB (some s2) = true from hwfs2) hD4]
  simp only [bindOk, pureOk]
  have h05 : (0 : Int) ≤ off + ((writeFstring (some en)).length : Int) +
      ((writeFstring (some tnStruct)).length : Int) + 4 + 4 +
      ((writeFstring (some s2)).length : Int) := by omega
  have hoff5 := off_step h04 hoff4 hD4
  have hD5 := drop_advance h04 hD4
  rw [readBytes_at h05 hoff5 hD5 (by simp)]
  simp only [bindOk, pureOk]
  have h06 : (0 : Int) ≤ off + ((writeFstring (some en)).length : Int) +
      ((writeFstring (some tnStruct)).length : Int) + 4 + 4 +
      ((writeFstring (some s2)).length : Int) + 16 := by omega
  have hoff6 : off + ((writeFstring (some en)).length : Int) +
      ((writeFstring (some tnStruct)).length : Int) + 4 + 4 +
      ((writeFstring (some s2)).length : Int) + 16 ≤ (d.length : Int) := by
    have hq := off_step h05 hoff5 hD5
    simp at hq
    omega
  have hD6 : List.drop (off + ((writeFstring (some en)).length : Int) +
      ((writeFstring (some tnStruct)).length : Int) + 4 + 4 +
      ((writeFstring (some s2)).length : Int) + 16).toNat d = 0 :: tail := by
    simpa using drop_advance h05 hD5
  rw [readByte_at h06 hoff6 hD6]
  simp only [bindOk]
  simp only [FPropertyTag.setStructType, writeProtoTag, FPropertyTag.name,
    FPropertyTag.type_name, FPropertyTag.struct_type, Except.ok.injEq,
    Prod.mk.injEq, Reader.mk.injEq, List.length_append, int32LE_length,
    List.length_replicate, List.length_cons, List.length_nil, true_and]
  push_cast
  omega

/-- The Int-element loop of `_read_array_value` re-parses the writer's
element dump. -/
theorem iterInt32_at : ∀ (l : List Int) (d tail : List Byte) (off : Int),
    0 ≤ off → off ≤ (d.length : Int) →
    (∀ i ∈ l, -(2 ^ 31) ≤ i ∧ i < 2 ^ 31) →
    List.drop off.toNat d = l.flatMap int32LE ++ tail →
    iterateRead Reader.readInt32 l.length ⟨d, off⟩ =
      .ok (l, ⟨d, off + ((l.flatMap int32LE).length : Int)⟩)
  | [] => by
      intro d tail off h0 hoff hr h
      rw [iterateRead]
      simp
  | i :: l => by
      intro d tail off h0 hoff hr h
      simp only [List.flatMap_cons, List.append_assoc] at h
      rw [iterateRead, if_neg (by simp)]
      rw [readInt32_at h0 hoff h (hr i (by simp)).1 (hr i (by simp)).2]
      simp only [bindOk]
      have h01 : (0 : Int) ≤ off + 4 := by omega
      have hoff1 := off_step h0 hoff h
      have hD1 := drop_advance h0 h
      rw [int32LE_length] at hoff1 hD1
      push_cast at hoff1 hD1
      have hih := iterInt32_at l _ _ _ h01 hoff1
        (fun j hj => hr j (List.mem_cons_of_mem i hj)) hD1
      simp only [List.length_cons, Nat.add_sub_cancel]
      rw [hih]
      simp only [bindOk, List.flatMap_cons, List.length_append, int32LE_length,
        Except.ok.injEq, Prod.mk.injEq, Reader.mk.injEq, true_and]
      push_cast
      omega

/-- The Float-element loop of `_read_array_value` re-parses the writer's
element dump. -/
theorem iterFloat_at : ∀ (l : List Nat) (d tail : List Byte) (off : Int),
    0 ≤ off → off ≤ (d.length : Int) →
    (∀ b ∈ l, b < 2 ^ 32) →
    List.drop off.toNat d = l.flatMap f32LE ++ tail →
    iterateRead Reader.readFloat l.length ⟨d, off⟩ =
      .ok (l, ⟨d, off + ((l.flatMap f32LE).length : Int)⟩)
  | [] => by
      intro d tail off h0 hoff hr h
      rw [iterateRead]
      simp
  | b :: l => by
      intro d tail off h0 hoff hr h
      simp only [List.flatMap_cons, List.append_assoc] at h
      rw [iterateRead, if_neg (by simp)]
      rw [readFloat_at h0 hoff h (hr b (by simp))]
      simp only [bindOk]
      have h01 : (0 : Int) ≤ off + 4 := by omega
      have hoff1 := off_step h0 hoff h
      have hD1 := drop_advance h0 h
      rw [f32LE_length] at hoff1 hD1
      push_cast at hoff1 hD1
      have hih := iterFloat_at l _ _ _ h01 hoff1
        (fun j hj => hr j (List.mem_cons_of_mem b hj)) hD1
      simp only [List.length_cons, Nat.add_sub_cancel]
      rw [hih]
      simp only [bindOk, List.flatMap_cons, List.length_append, f32LE_length,
        Except.ok.injEq, Prod.mk.injEq, Reader.mk.injEq, true_and]
      push_cast
      omega

/-- The Str-element loop of `_read_array_value` re-parses the writer's
element dump. -/
theorem iterFstr_at : ∀ (l : List (Option PyStr)) (d tail : List Byte)
      (off : Int),
    0 ≤ off → off ≤ (d.length : Int) →
    (∀ x ∈ l, wfStrOptB x = true) →
    List.drop off.toNat d = l.flatMap writeFstring ++ tail →
    iterateRead Reader.readFstring l.length ⟨d, off⟩ =
      .ok (l, ⟨d, off + ((l.flatMap writeFstring).length : Int)⟩)
  | [] => by
      intro d tail off h0 hoff hr h
      rw [iterateRead]
      simp
  | x :: l => by
      intro d tail off h0 hoff hr h
      simp only [List.flatMap_cons, List.append_assoc] at h
      rw [iterateRead, if_neg (by simp)]
      rw [readFstring_at h0 hoff (hr x (by simp)) h]
      simp only [bindOk]
      have h01 : (0 : Int) ≤ off + ((writeFstring x).length : Int) := by omega
      have hoff1 := off_step h0 hoff h
      have hD1 := drop_advance h0 h
      have hih := iterFstr_at l _ _ _ h01 hoff1
        (fun j hj => hr j (List.mem_cons_of_mem x hj)) hD1
      simp only [List.length_cons, Nat.add_sub_cancel]
      rw [hih]
      simp only [bindOk, List.flatMap_cons, List.length_append,
        Except.ok.injEq, Prod.mk.injEq, Reader.mk.injEq, true_and]
      push_cast
      omega

/-- `_read_properties` re-parses a written property list (terminator
included), given that each member re-parses. -/
theorem listParses : ∀ (ps : List FPropertyTag),
    (∀ p ∈ ps, PropParses p) →
    ∀ (fuel : Nat) (d tail : List Byte) (off : Int),
    wfList ps → 0 ≤ off → off ≤ (d.length : Int) →
    List.drop off.toNat d = writeProperties ps false ++ tail →
    fuelNeedList ps ≤ fuel →
    readProperties fuel ⟨d, off⟩ =
      .ok (ps, ⟨d, off + ((writeProperties ps false).length : Int)⟩)
  | [] => by
      intro hmem fuel d tail off hwf h0 hoff h hfuel
      rw [writeProperties_nil] at h
      simp only [fuelNeedList, fuelListCore₂] at hfuel
      rw [readProperties, if_neg (by omega),
        if_pos (rem_ge h0 hoff h (by rw [strNoneTerm_length]; omega))]
      rw [readProperty_sentinel (by omega) h0 hoff h]
      simp only [bindOk, FPropertyTag.name, if_true]
      rw [writeProperties_nil]
  | p :: ps => by
      intro hmem fuel d tail off hwf h0 hoff h hfuel
      have ihms : ∀ q ∈ ps, PropParses q :=
        fun q hq => hmem q (List.mem_cons_of_mem p hq)
      have hP : PropParses p := hmem p (List.mem_cons_self p ps)
      have hq : wfListCore .prop (p :: ps) = true := hwf
      rw [wfListCore] at hq
      obtain ⟨hwp, hwps⟩ := (Bool.and_eq_true _ _).mp hq
      rw [writeProperties_cons, List.append_assoc, writeProperty_eq_gen] at h
      simp only [fuelNeedList, fuelListCore₂, fuelNeedProp] at hfuel
      rw [readProperties, if_neg (by omega),
        if_pos (rem_ge h0 hoff h
          (by have := genProp_length_ge p 0 (List.replicate 17 0); omega))]
      rw [hP (fuel - 1) d (List.replicate 17 0) (writeProperties ps false ++ tail)
        off 0 hwp (by simp) (by norm_num) (by norm_num) h0 hoff h
        (by simp only [fuelNeedProp]; omega)]
      simp only [bindOk]
      rw [if_neg (wfProp_name_ne hwp)]
      have h01 : (0 : Int) ≤
          off + ((genProp p 0 (List.replicate 17 0)).length : Int) := by omega
      have hoff1 := off_step h0 hoff h
      have hD1 := drop_advance h0 h
      rw [listParses ps ihms (fuel - 1) d tail _ hwps h01 hoff1 hD1
        (by simp only [fuelNeedList]; omega)]
      simp only [bindOk]
      simp only [Except.ok.injEq, Prod.mk.injEq, Reader.mk.injEq, true_and]
      rw [← writeProperty_eq_gen, writeProperties_cons]
      simp only [List.length_append]
      push_cast
      omega

/-- The struct-value list loop stops exactly at its declared end position
after consuming the written property list. -/
theorem structLoopParses : ∀ (ps : List FPropertyTag),
    (∀ p ∈ ps, PropParses p) →
    ∀ (fuel : Nat) (d tail : List Byte) (off : Int),
    wfList ps → 0 ≤ off → off ≤ (d.length : Int) →
    List.drop off.toNat d = writeProperties ps false ++ tail →
    fuelNeedList ps ≤ fuel →
    structLoop fuel ⟨d, off⟩
        (off + ((writeProperties ps false).length : Int)) =
      .ok (ps, ⟨d, off + ((writeProperties ps false).length : Int)⟩)
  | [] => by
      intro hmem fuel d tail off hwf h0 hoff h hfuel
      simp only [fuelNeedList, fuelListCore₂] at hfuel
      have hlt : off < off + ((writeProperties [] false).length : Int) := by
        have := writeProperties_false_length_ge []
        omega
      rw [writeProperties_nil] at h
      rw [structLoop, if_neg (by omega),
        if_pos ⟨hlt, rem_ge h0 hoff h (by rw [strNoneTerm_length]; omega)⟩]
      rw [readProperty_sentinel (by omega) h0 hoff h]
      simp only [bindOk, FPropertyTag.name, if_true]
      rw [writeProperties_nil]
  | p :: ps => by
      intro hmem fuel d tail off hwf h0 hoff h hfuel
      have ihms : ∀ q ∈ ps, PropParses q :=
        fun q hq => hmem q (List.mem_cons_of_mem p hq)
      have hP : PropParses p := hmem p (List.mem_cons_self p ps)
      have hq : wfListCore .prop (p :: ps) = true := hwf
      rw [wfListCore] at hq
      obtain ⟨hwp, hwps⟩ := (Bool.and_eq_true _ _).mp hq
      have hE : off + ((writeProperties (p :: ps) false).length : Int) =
          off + ((genProp p 0 (List.replicate 17 0)).length : Int) +
            ((writeProperties ps false).length : Int) := by
        rw [← writeProperty_eq_gen, writeProperties_cons]
        simp only [List.length_append]
        push_cast
        ring
      rw [writeProperties_cons, List.append_assoc, writeProperty_eq_gen] at h
      simp only [fuelNeedList, fuelListCore₂, fuelNeedProp] at hfuel
      have hlt : off < off + ((writeProperties (p :: ps) false).length : Int) := by
        have := writeProperties_false_length_ge (p :: ps)
        omega
      rw [structLoop, if_neg (by omega),
        if_pos ⟨hlt, rem_ge h0 hoff h
          (by have := genProp_length_ge p 0 (List.replicate 17 0); omega)⟩]
      rw [hP (fuel - 1) d (List.replicate 17 0) (writeProperties ps false ++ tail)
        off 0 hwp (by simp) (by norm_num) (by norm_num) h0 hoff h
        (by simp only [fuelNeedProp]; omega)]
      simp only [bindOk]
      rw [if_neg (wfProp_name_ne hwp)]
      have h01 : (0 : Int) ≤
          off + ((genProp p 0 (List.replicate 17 0)).length : Int) := by omega
      have hoff1 := off_step h0 hoff h
      have hD1 := drop_advance h0 h
      rw [hE]
      rw [structLoopParses ps ihms (fuel - 1) d tail _ hwps h01 hoff1 hD1
        (by simp only [fuelNeedList]; omega)]
      simp only [bindOk]

/-- The struct-array element loop re-parses the writer's element bodies:
each element takes the prototype's name and struct type and its own property
list. -/
theorem elemsParses : ∀ (es : List FPropertyTag) (en s2 : PyStr)
      (proto : FPropertyTag),
    (∀ e ∈ es, ∀ q ∈ e.nested, PropParses q) →
    proto.name = en → proto.struct_type = some s2 →
    ∀ (fuel : Nat) (d tail : List Byte) (off : Int),
    wfListCore (.elem en (some s2)) es = true →
    0 ≤ off → off ≤ (d.length : Int) →
    List.drop off.toNat d = elemsData es ++ tail →
    fuelNeedElems es ≤ fuel →
    readElems fuel es.length proto ⟨d, off⟩ =
      .ok (es, ⟨d, off + ((elemsData es).length : Int)⟩)
  | [] => by
      intro en s2 proto hmem hpn hps fuel d tail off hwf h0 hoff h hfuel
      simp only [fuelNeedElems, fuelListCore₂] at hfuel
      rw [readElems, if_neg (by omega)]
      simp
  | e :: es => by
      intro en s2 proto hmem hpn hps fuel d tail off hwf h0 hoff h hfuel
      cases e with
      | mk nm t v it stp et el ns =>
        rw [wfListCore] at hwf
        obtain ⟨hwe, hwes⟩ := (Bool.and_eq_true _ _).mp hwf
        rw [wfCore] at hwe
        obtain ⟨hwn, hwch⟩ := (Bool.and_eq_true _ _).mp hwe
        have hwns : wfListCore .prop ns = true := by
          simpa only [childSpec] using hwch
        unfold wfNode at hwn
        simp only [Bool.and_eq_true, decide_eq_true_eq] at hwn
        obtain ⟨⟨⟨⟨⟨⟨hnm, ht⟩, hstp⟩, hv⟩, hit⟩, het⟩, hel⟩ := hwn
        have hv2 := pvalue_none_of hv
        subst hnm ht hstp hv2 hit het hel
        rw [elemsData_cons, ← writeProperties_false_eq, List.append_assoc] at h
        simp only [FPropertyTag.nested] at h
        simp only [fuelNeedElems, fuelListCore₂, fuelPropCore] at hfuel
        rw [readElems, if_neg (by omega), if_neg (by simp)]
        have hmemns : ∀ q ∈ ns, PropParses q := by
          have hx := hmem
            (.mk nm (some tnStruct) .none Option.none (some s2) Option.none
              Option.none ns) (List.mem_cons_self _ _)
          simpa [FPropertyTag.nested] using hx
        rw [listParses ns hmemns (fuel - 1) d _ off hwns h0 hoff h
          (by simp only [fuelNeedList]; omega)]
        simp only [bindOk]
        rw [hpn, hps]
        have h01 : (0 : Int) ≤
            off + ((writeProperties ns false).length : Int) := by omega
        have hoff1 := off_step h0 hoff h
        have hD1 := drop_advance h0 h
        simp only [List.length_cons, Nat.add_sub_cancel]
        rw [elemsParses es nm s2 proto
          (fun q hq r hr => hmem q (List.mem_cons_of_mem _ hq) r hr) hpn hps
          (fuel - 1) d tail _ hwes h01 hoff1 hD1
          (by simp only [fuelNeedElems]; omega)]
        simp only [bindOk]
        simp only [Except.ok.injEq, Prod.mk.injEq, Reader.mk.injEq, true_and]
        rw [elemsData_cons_length]
        simp only [FPropertyTag.nested]
        push_cast
        omega

theorem nested_sizeOf_lt (e : FPropertyTag) : sizeOf e.nested < sizeOf e := by
  cases e with
  | mk nm t v it st et el ns =>
      simp only [FPropertyTag.mk.sizeOf_spec, FPropertyTag.nested]
      omega

/-- `_read_property` re-parses an IntProperty record. -/
theorem propParses_int (nm : PyStr) (i : Int) :
    PropParses (.mk nm (some tnInt) (.int i) Option.none Option.none
      Option.none Option.none []) := by
  intro fuel d filler tail off idx hwf hfil hidx1 hidx2 h0 hoff h hfuel
  have hw : wfCore .prop (.mk nm (some tnInt) (.int i) Option.none Option.none
      Option.none Option.none []) = true := hwf
  rw [wfCore] at hw
  obtain ⟨hwn, hch⟩ := (Bool.and_eq_true _ _).mp hw
  unfold wfNode at hwn
  simp at hwn
  obtain ⟨⟨⟨hnm, hne⟩, hsz⟩, hi1, hi2⟩ := hwn
  have hpv : propValueBytes (.mk nm (some tnInt) (.int i) Option.none
      Option.none Option.none Option.none []) = int32LE i := by
    simp only [propValueBytes, FPropertyTag.type_name, writeSimpleValue,
      FPropertyTag.value]
    rw [if_neg (by decide), if_neg (by decide), if_neg (by decide),
      if_neg (by decide)]
    simp only [if_true]
  have hgh : genHeader (.mk nm (some tnInt) (.int i) Option.none Option.none
      Option.none Option.none []) filler = [0] := by
    simp only [genHeader, FPropertyTag.type_name]
    rw [if_neg (by decide), if_neg (by decide), if_neg (by decide),
      if_neg (by decide)]
  simp only [genProp, FPropertyTag.name, FPropertyTag.type_name, hgh,
    List.append_assoc] at h
  rw [readProperty,
    if_neg (by
      simp only [fuelNeedProp, fuelPropCore] at hfuel
      rw [if_neg (by decide), if_neg (by decide)] at hfuel
      omega),
    if_neg (rem_not_lt h0 hoff h (writeFstring_length_ge (some nm)))]
  rw [readFstring_at h0 hoff (show wfStrOptB (some nm) = true from hnm) h]
  simp only [bindOk]
  rw [if_neg hne]
  have h01 : (0 : Int) ≤ off + ((writeFstring (some nm)).length : Int) := by
    omega
  have hoff1 := off_step h0 hoff h
  have hD1 := drop_advance h0 h
  rw [readFstring_at h01 hoff1 (by decide) hD1]
  simp only [bindOk]
  have h02 : (0 : Int) ≤ off + ((writeFstring (some nm)).length : Int) +
      ((writeFstring (some tnInt)).length : Int) := by omega
  have hoff2 := off_step h01 hoff1 hD1
  have hD2 := drop_advance h01 hD1
  rw [readInt32_at h02 hoff2 hD2 (by omega) (by push_cast; omega)]
  simp only [bindOk]
  have h03 : (0 : Int) ≤ off + ((writeFstring (some nm)).length : Int) +
      ((writeFstring (some tnInt)).length : Int) + 4 := by omega
  have hoff3 := off_step h02 hoff2 hD2
  have hD3 := drop_advance h02 hD2
  rw [int32LE_length] at hoff3 hD3
  push_cast at hoff3 hD3
  rw [readInt32_at h03 hoff3 hD3 hidx1 hidx2]
  simp only [bindOk]
  rw [if_neg (by decide), if_neg (by decide), if_neg (by decide),
    if_neg (by decide), if_neg (by decide)]
  have h04 : (0 : Int) ≤ off + ((writeFstring (some nm)).length : Int) +
      ((writeFstring (some tnInt)).length : Int) + 4 + 4 := by omega
  have hoff4 := off_step h03 hoff3 hD3
  have hD4 := drop_advance h03 hD3
  rw [int32LE_length] at hoff4 hD4
  push_cast at hoff4 hD4
  rw [readByte_at h04 hoff4 (by simpa using hD4)]
  simp only [bindOk]
  rw [readSimpleValue, if_pos rfl]
  have h05 : (0 : Int) ≤ off + ((writeFstring (some nm)).length : Int) +
      ((writeFstring (some tnInt)).length : Int) + 4 + 4 + 1 := by omega
  have hoff5 : off + ((writeFstring (some nm)).length : Int) +
      ((writeFstring (some tnInt)).length : Int) + 4 + 4 + 1 ≤
      (d.length : Int) := by
    have hq := off_step h04 hoff4 (show List.drop (off +
      ((writeFstring (some nm)).length : Int) +
      ((writeFstring (some tnInt)).length : Int) + 4 + 4).toNat d =
        [0] ++ (propValueBytes (.mk nm (some tnInt) (.int i) Option.none
          Option.none Option.none Option.none []) ++ tail) from hD4)
    simp at hq
    omega
  have hD5 : List.drop (off + ((writeFstring (some nm)).length : Int) +
      ((writeFstring (some tnInt)).length : Int) + 4 + 4 + 1).toNat d =
      int32LE i ++ tail := by
    have hq := drop_advance h04 (show List.drop (off +
      ((writeFstring (some nm)).length : Int) +
      ((writeFstring (some tnInt)).length : Int) + 4 + 4).toNat d =
        [0] ++ (propValueBytes (.mk nm (some tnInt) (.int i) Option.none
          Option.none Option.none Option.none []) ++ tail) from hD4)
    simp only [List.length_cons, List.length_nil, hpv] at hq
    push_cast at hq
    exact hq
  rw [readInt32_at h05 hoff5 hD5 (by omega) (by omega)]
  simp only [bindOk]
  simp only [FPropertyTag.setValue, Except.ok.injEq, Prod.mk.injEq,
    Reader.mk.injEq, true_and, genProp, FPropertyTag.name,
    FPropertyTag.type_name, hgh, hpv, List.length_append, int32LE_length,
    List.length_cons, List.length_nil]
  push_cast
  omega

/-- `_read_property` re-parses a UInt32Property record. -/
theorem propParses_uint32 (nm : PyStr) (i : Int) :
    PropParses (.mk nm (some tnUInt32) (.int i) Option.none Option.none
      Option.none Option.none []) := by
  intro fuel d filler tail off idx hwf hfil hidx1 hidx2 h0 hoff h hfuel
  have hw : wfCore .prop (.mk nm (some tnUInt32) (.int i) Option.none Option.none
      Option.none Option.none []) = true := hwf
  rw [wfCore] at hw
  obtain ⟨hwn, hch⟩ := (Bool.and_eq_true _ _).mp hw
  unfold wfNode at hwn
  simp at hwn
  obtain ⟨⟨⟨hnm, hne⟩, hsz⟩, hi1, hi2⟩ := hwn
  have hpv : propValueBytes (.mk nm (some tnUInt32) (.int i) Option.none
      Option.none Option.none Option.none []) = uint32LE i := by
    simp only [propValueBytes, FPropertyTag.type_name, writeSimpleValue,
      FPropertyTag.value]
    rw [if_neg (by decide), if_neg (by decide), if_neg (by decide), if_neg (by decide), if_neg (by decide)]
    simp only [if_true]
  have hgh : genHeader (.mk nm (some tnUInt32) (.int i) Option.none Option.none
      Option.none Option.none []) filler = [0] := by
    simp only [genHeader, FPropertyTag.type_name]
    rw [if_neg (by decide), if_neg (by decide), if_neg (by decide),
      if_neg (by decide)]
  simp only [genProp, FPropertyTag.name, FPropertyTag.type_name, hgh,
    List.append_assoc] at h
  rw [readProperty,
    if_neg (by
      simp only [fuelNeedProp, fuelPropCore] at hfuel
      rw [if_neg (by decide), if_neg (by decide)] at hfuel
      omega),
    if_neg (rem_not_lt h0 hoff h (writeFstring_length_ge (some nm)))]
  rw [readFstring_at h0 hoff (show wfStrOptB (some nm) = true from hnm) h]
  simp only [bindOk]
  rw [if_neg hne]
  have h01 : (0 : Int) ≤ off + ((writeFstring (some nm)).length : Int) := by
    omega
  have hoff1 := off_step h0 hoff h
  have hD1 := drop_advance h0 h
  rw [readFstring_at h01 hoff1 (by decide) hD1]
  simp only [bindOk]
  have h02 : (0 : Int) ≤ off + ((writeFstring (some nm)).length : Int) +
      ((writeFstring (some tnUInt32)).length : Int) := by omega
  have hoff2 := off_step h01 hoff1 hD1
  have hD2 := drop_advance h01 hD1
  rw [readInt32_at h02 hoff2 hD2 (by omega) (by push_cast; omega)]
  simp only [bindOk]
  have h03 : (0 : Int) ≤ off + ((writeFstring (some nm)).length : Int) +
      ((writeFstring (some tnUInt32)).length : Int) + 4 := by omega
  have hoff3 := off_step h02 hoff2 hD2
  have hD3 := drop_advance h02 hD2
  rw [int32LE_length] at hoff3 hD3
  push_cast at hoff3 hD3
  rw [readInt32_at h03 hoff3 hD3 hidx1 hidx2]
  simp only [bindOk]
  rw [if_neg (by decide), if_neg (by decide), if_neg (by decide),
    if_neg (by decide), if_neg (by decide)]
  have h04 : (0 : Int) ≤ off + ((writeFstring (some nm)).length : Int) +
      ((writeFstring (some tnUInt32)).length : Int) + 4 + 4 := by omega
  have hoff4 := off_step h03 hoff3 hD3
  have hD4 := drop_advance h03 hD3
  rw [int32LE_length] at hoff4 hD4
  push_cast at hoff4 hD4
  rw [readByte_at h04 hoff4 (by simpa using hD4)]
  simp only [bindOk]
  rw [readSimpleValue, if_neg (by decide), if_pos rfl]
  have h05 : (0 : Int) ≤ off + ((writeFstring (some nm)).length : Int) +
      ((writeFstring (some tnUInt32)).length : Int) + 4 + 4 + 1 := by omega
  have hoff5 : off + ((writeFstring (some nm)).length : Int) +
      ((writeFstring (some tnUInt32)).length : Int) + 4 + 4 + 1 ≤
      (d.length : Int) := by
    have hq := off_step h04 hoff4 (show List.drop (off +
      ((writeFstring (some nm)).length : Int) +
      ((writeFstring (some tnUInt32)).length : Int) + 4 + 4).toNat d =
        [0] ++ (propValueBytes (.mk nm (some tnUInt32) (.int i) Option.none
          Option.none Option.none Option.none []) ++ tail) from hD4)
    simp at hq
    omega
  have hD5 : List.drop (off + ((writeFstring (some nm)).length : Int) +
      ((writeFstring (some tnUInt32)).length : Int) + 4 + 4 + 1).toNat d =
      uint32LE i ++ tail := by
    have hq := drop_advance h04 (show List.drop (off +
      ((writeFstring (some nm)).length : Int) +
      ((writeFstring (some tnUInt32)).length : Int) + 4 + 4).toNat d =
        [0] ++ (propValueBytes (.mk nm (some tnUInt32) (.int i) Option.none
          Option.none Option.none Option.none []) ++ tail) from hD4)
    simp only [List.length_cons, List.length_nil, hpv] at hq
    push_cast at hq
    exact hq
  rw [readUInt32_at h05 hoff5 hD5 (by omega) (by omega)]
  simp only [bindOk]
  simp only [FPropertyTag.setValue, Except.ok.injEq, Prod.mk.injEq,
    Reader.mk.injEq, true_and, genProp, FPropertyTag.name,
    FPropertyTag.type_name, hgh, hpv, List.length_append, int32LE_length, uint32LE_length,
    List.length_cons, List.length_nil]
  push_cast
  omega

/-- `_read_property` re-parses an Int64Property record. -/
theorem propParses_int64 (nm : PyStr) (i : Int) :
    PropParses (.mk nm (some tnInt64) (.int i) Option.none Option.none
      Option.none Option.none []) := by
  intro fuel d filler tail off idx hwf hfil hidx1 hidx2 h0 hoff h hfuel
  have hw : wfCore .prop (.mk nm (some tnInt64) (.int i) Option.none Option.none
      Option.none Option.none []) = true := hwf
  rw [wfCore] at hw
  obtain ⟨hwn, hch⟩ := (Bool.and_eq_true _ _).mp hw
  unfold wfNode at hwn
  simp at hwn
  obtain ⟨⟨⟨hnm, hne⟩, hsz⟩, hi1, hi2⟩ := hwn
  have hpv : propValueBytes (.mk nm (some tnInt64) (.int i) Option.none
      Option.none Option.none Option.none []) = int64LE i := by
    simp only [propValueBytes, FPropertyTag.type_name, writeSimpleValue,
      FPropertyTag.value]
    rw [if_neg (by decide), if_neg (by decide), if_neg (by decide), if_neg (by decide), if_neg (by decide), if_neg (by decide)]
    simp only [if_true]
  have hgh : genHeader (.mk nm (some tnInt64) (.int i) Option.none Option.none
      Option.none Option.none []) filler = [0] := by
    simp only [genHeader, FPropertyTag.type_name]
    rw [if_neg (by decide), if_neg (by decide), if_neg (by decide),
      if_neg (by decide)]
  simp only [genProp, FPropertyTag.name, FPropertyTag.type_name, hgh,
    List.append_assoc] at h
  rw [readProperty,
    if_neg (by
      simp only [fuelNeedProp, fuelPropCore] at hfuel
      rw [if_neg (by decide), if_neg (by decide)] at hfuel
      omega),
    if_neg (rem_not_lt h0 hoff h (writeFstring_length_ge (some nm)))]
  rw [readFstring_at h0 hoff (show wfStrOptB (some nm) = true from hnm) h]
  simp only [bindOk]
  rw [if_neg hne]
  have h01 : (0 : Int) ≤ off + ((writeFstring (some nm)).length : Int) := by
    omega
  have hoff1 := off_step h0 hoff h
  have hD1 := drop_advance h0 h
  rw [readFstring_at h01 hoff1 (by decide) hD1]
  simp only [bindOk]
  have h02 : (0 : Int) ≤ off + ((writeFstring (some nm)).length : Int) +
      ((writeFstring (some tnInt64)).length : Int) := by omega
  have hoff2 := off_step h01 hoff1 hD1
  have hD2 := drop_advance h01 hD1
  rw [readInt32_at h02 hoff2 hD2 (by omega) (by push_cast; omega)]
  simp only [bindOk]
  have h03 : (0 : Int) ≤ off + ((writeFstring (some nm)).length : Int) +
      ((writeFstring (some tnInt64)).length : Int) + 4 := by omega
  have hoff3 := off_step h02 hoff2 hD2
  have hD3 := drop_advance h02 hD2
  rw [int32LE_length] at hoff3 hD3
  push_cast at hoff3 hD3
  rw [readInt32_at h03 hoff3 hD3 hidx1 hidx2]
  simp only [bindOk]
  rw [if_neg (by decide), if_neg (by decide), if_neg (by decide),
    if_neg (by decide), if_neg (by decide)]
  have h04 : (0 : Int) ≤ off + ((writeFstring (some nm)).length : Int) +
      ((writeFstring (some tnInt64)).length : Int) + 4 + 4 := by omega
  have hoff4 := off_step h03 hoff3 hD3
  have hD4 := drop_advance h03 hD3
  rw [int32LE_length] at hoff4 hD4
  push_cast at hoff4 hD4
  rw [readByte_at h04 hoff4 (by simpa using hD4)]
  simp only [bindOk]
  rw [readSimpleValue, if_neg (by decide), if_neg (by decide), if_pos rfl]
  have h05 : (0 : Int) ≤ off + ((writeFstring (some nm)).length : Int) +
      ((writeFstring (some tnInt64)).length : Int) + 4 + 4 + 1 := by omega
  have hoff5 : off + ((writeFstring (some nm)).length : Int) +
      ((writeFstring (some tnInt64)).length : Int) + 4 + 4 + 1 ≤
      (d.length : Int) := by
    have hq := off_step h04 hoff4 (show List.drop (off +
      ((writeFstring (some nm)).length : Int) +
      ((writeFstring (some tnInt64)).length : Int) + 4 + 4).toNat d =
        [0] ++ (propValueBytes (.mk nm (some tnInt64) (.int i) Option.none
          Option.none Option.none Option.none []) ++ tail) from hD4)
    simp at hq
    omega
  have hD5 : List.drop (off + ((writeFstring (some nm)).length : Int) +
      ((writeFstring (some tnInt64)).length : Int) + 4 + 4 + 1).toNat d =
      int64LE i ++ tail := by
    have hq := drop_advance h04 (show List.drop (off +
      ((writeFstring (some nm)).length : Int) +
      ((writeFstring (some tnInt64)).length : Int) + 4 + 4).toNat d =
        [0] ++ (propValueBytes (.mk nm (some tnInt64) (.int i) Option.none
          Option.none Option.none Option.none []) ++ tail) from hD4)
    simp only [List.length_cons, List.length_nil, hpv] at hq
    push_cast at hq
    exact hq
  rw [readInt64_at h05 hoff5 hD5 (by omega) (by omega)]
  simp only [bindOk]
  simp only [FPropertyTag.setValue, Except.ok.injEq, Prod.mk.injEq,
    Reader.mk.injEq, true_and, genProp, FPropertyTag.name,
    FPropertyTag.type_name, hgh, hpv, List.length_append, int32LE_length, int64LE_length,
    List.length_cons, List.length_nil]
  push_cast
  omega

/-- `_read_property` re-parses a FloatProperty record. -/
theorem propParses_float (nm : PyStr) (b : Nat) :
    PropParses (.mk nm (some tnFloat) (.float b) Option.none Option.none
      Option.none Option.none []) := by
  intro fuel d filler tail off idx hwf hfil hidx1 hidx2 h0 hoff h hfuel
  have hw : wfCore .prop (.mk nm (some tnFloat) (.float b) Option.none Option.none
      Option.none Option.none []) = true := hwf
  rw [wfCore] at hw
  obtain ⟨hwn, hch⟩ := (Bool.and_eq_true _ _).mp hw
  unfold wfNode at hwn
  simp at hwn
  obtain ⟨⟨⟨hnm, hne⟩, hsz⟩, hb⟩ := hwn
  have hpv : propValueBytes (.mk nm (some tnFloat) (.float b) Option.none
      Option.none Option.none Option.none []) = f32LE b := by
    simp only [propValueBytes, FPropertyTag.type_name, writeSimpleValue,
      FPropertyTag.value]
    rw [if_neg (by decide), if_neg (by decide), if_neg (by decide), if_neg (by decide), if_neg (by decide), if_neg (by decide), if_neg (by decide)]
    simp only [if_true]
  have hgh : genHeader (.mk nm (some tnFloat) (.float b) Option.none Option.none
      Option.none Option.none []) filler = [0] := by
    simp only [genHeader, FPropertyTag.type_name]
    rw [if_neg (by decide), if_neg (by decide), if_neg (by decide),
      if_neg (by decide)]
  simp only [genProp, FPropertyTag.name, FPropertyTag.type_name, hgh,
    List.append_assoc] at h
  rw [readProperty,
    if_neg (by
      simp only [fuelNeedProp, fuelPropCore] at hfuel
      rw [if_neg (by decide), if_neg (by decide)] at hfuel
      omega),
    if_neg (rem_not_lt h0 hoff h (writeFstring_length_ge (some nm)))]
  rw [readFstring_at h0 hoff (show wfStrOptB (some nm) = true from hnm) h]
  simp only [bindOk]
  rw [if_neg hne]
  have h01 : (0 : Int) ≤ off + ((writeFstring (some nm)).length : Int) := by
    omega
  have hoff1 := off_step h0 hoff h
  have hD1 := drop_advance h0 h
  rw [readFstring_at h01 hoff1 (by decide) hD1]
  simp only [bindOk]
  have h02 : (0 : Int) ≤ off + ((writeFstring (some nm)).length : Int) +
      ((writeFstring (some tnFloat)).length : Int) := by omega
  have hoff2 := off_step h01 hoff1 hD1
  have hD2 := drop_advance h01 hD1
  rw [readInt32_at h02 hoff2 hD2 (by omega) (by push_cast; omega)]
  simp only [bindOk]
  have h03 : (0 : Int) ≤ off + ((writeFstring (some nm)).length : Int) +
      ((writeFstring (some tnFloat)).length : Int) + 4 := by omega
  have hoff3 := off_step h02 hoff2 hD2
  have hD3 := drop_advance h02 hD2
  rw [int32LE_length] at hoff3 hD3
  push_cast at hoff3 hD3
  rw [readInt32_at h03 hoff3 hD3 hidx1 hidx2]
  simp only [bindOk]
  rw [if_neg (by decide), if_neg (by decide), if_neg (by decide),
    if_neg (by decide), if_neg (by decide)]
  have h04 : (0 : Int) ≤ off + ((writeFstring (some nm)).length : Int) +
      ((writeFstring (some tnFloat)).length : Int) + 4 + 4 := by omega
  have hoff4 := off_step h03 hoff3 hD3
  have hD4 := drop_advance h03 hD3
  rw [int32LE_length] at hoff4 hD4
  push_cast at hoff4 hD4
  rw [readByte_at h04 hoff4 (by simpa using hD4)]
  simp only [bindOk]
  rw [readSimpleValue, if_neg (by decide), if_neg (by decide),
    if_neg (by decide), if_pos rfl]
  have h05 : (0 : Int) ≤ off + ((writeFstring (some nm)).length : Int) +
      ((writeFstring (some tnFloat)).length : Int) + 4 + 4 + 1 := by omega
  have hoff5 : off + ((writeFstring (some nm)).length : Int) +
      ((writeFstring (some tnFloat)).length : Int) + 4 + 4 + 1 ≤
      (d.length : Int) := by
    have hq := off_step h04 hoff4 (show List.drop (off +
      ((writeFstring (some nm)).length : Int) +
      ((writeFstring (some tnFloat)).length : Int) + 4 + 4).toNat d =
        [0] ++ (propValueBytes (.mk nm (some tnFloat) (.float b) Option.none
          Option.none Option.none Option.none []) ++ tail) from hD4)
    simp at hq
    omega
  have hD5 : List.drop (off + ((writeFstring (some nm)).length : Int) +
      ((writeFstring (some tnFloat)).length : Int) + 4 + 4 + 1).toNat d =
      f32LE b ++ tail := by
    have hq := drop_advance h04 (show List.drop (off +
      ((writeFstring (some nm)).length : Int) +
      ((writeFstring (some tnFloat)).length : Int) + 4 + 4).toNat d =
        [0] ++ (propValueBytes (.mk nm (some tnFloat) (.float b) Option.none
          Option.none Option.none Option.none []) ++ tail) from hD4)
    simp only [List.length_cons, List.length_nil, hpv] at hq
    push_cast at hq
    exact hq
  rw [readFloat_at h05 hoff5 hD5 (by omega)]
  simp only [bindOk]
  simp only [FPropertyTag.setValue, Except.ok.injEq, Prod.mk.injEq,
    Reader.mk.injEq, true_and, genProp, FPropertyTag.name,
    FPropertyTag.type_name, hgh, hpv, List.length_append, int32LE_length, f32LE_length,
    List.length_cons, List.length_nil]
  push_cast
  omega

/-- `_read_property` re-parses a DoubleProperty record. -/
theorem propParses_double (nm : PyStr) (b : Nat) :
    PropParses (.mk nm (some tnDouble) (.double b) Option.none Option.none
      Option.none Option.none []) := by
  intro fuel d filler tail off idx hwf hfil hidx1 hidx2 h0 hoff h hfuel
  have hw : wfCore .prop (.mk nm (some tnDouble) (.double b) Option.none Option.none
      Option.none Option.none []) = true := hwf
  rw [wfCore] at hw
  obtain ⟨hwn, hch⟩ := (Bool.and_eq_true _ _).mp hw
  unfold wfNode at hwn
  simp at hwn
  obtain ⟨⟨⟨hnm, hne⟩, hsz⟩, hb⟩ := hwn
  have hpv : propValueBytes (.mk nm (some tnDouble) (.double b) Option.none
      Option.none Option.none Option.none []) = f64LE b := by
    simp only [propValueBytes, FPropertyTag.type_name, writeSimpleValue,
      FPropertyTag.value]
    rw [if_neg (by decide), if_neg (by decide), if_neg (by decide), if_neg (by decide), if_neg (by decide), if_neg (by decide), if_neg (by decide), if_neg (by decide)]
    simp only [if_true]
  have hgh : genHeader (.mk nm (some tnDouble) (.double b) Option.none Option.none
      Option.none Option.none []) filler = [0] := by
    simp only [genHeader, FPropertyTag.type_name]
    rw [if_neg (by decide), if_neg (by decide), if_neg (by decide),
      if_neg (by decide)]
  simp only [genProp, FPropertyTag.name, FPropertyTag.type_name, hgh,
    List.append_assoc] at h
  rw [readProperty,
    if_neg (by
      simp only [fuelNeedProp, fuelPropCore] at hfuel
      rw [if_neg (by decide), if_neg (by decide)] at hfuel
      omega),
    if_neg (rem_not_lt h0 hoff h (writeFstring_length_ge (some nm)))]
  rw [readFstring_at h0 hoff (show wfStrOptB (some nm) = true from hnm) h]
  simp only [bindOk]
  rw [if_neg hne]
  have h01 : (0 : Int) ≤ off + ((writeFstring (some nm)).length : Int) := by
    omega
  have hoff1 := off_step h0 hoff h
  have hD1 := drop_advance h0 h
  rw [readFstring_at h01 hoff1 (by decide) hD1]
  simp only [bindOk]
  have h02 : (0 : Int) ≤ off + ((writeFstring (some nm)).length : Int) +
      ((writeFstring (some tnDouble)).length : Int) := by omega
  have hoff2 := off_step h01 hoff1 hD1
  have hD2 := drop_advance h01 hD1
  rw [readInt32_at h02 hoff2 hD2 (by omega) (by push_cast; omega)]
  simp only [bindOk]
  have h03 : (0 : Int) ≤ off + ((writeFstring (some nm)).length : Int) +
      ((writeFstring (some tnDouble)).length : Int) + 4 := by omega
  have hoff3 := off_step h02 hoff2 hD2
  have hD3 := drop_advance h02 hD2
  rw [int32LE_length] at hoff3 hD3
  push_cast at hoff3 hD3
  rw [readInt32_at h03 hoff3 hD3 hidx1 hidx2]
  simp only [bindOk]
  rw [if_neg (by decide), if_neg (by decide), if_neg (by decide),
    if_neg (by decide), if_neg (by decide)]
  have h04 : (0 : Int) ≤ off + ((writeFstring (some nm)).length : Int) +
      ((writeFstring (some tnDouble)).length : Int) + 4 + 4 := by omega
  have hoff4 := off_step h03 hoff3 hD3
  have hD4 := drop_advance h03 hD3
  rw [int32LE_length] at hoff4 hD4
  push_cast at hoff4 hD4
  rw [readByte_at h04 hoff4 (by simpa using hD4)]
  simp only [bindOk]
  rw [readSimpleValue, if_neg (by decide), if_neg (by decide),
    if_neg (by decide), if_neg (by decide), if_pos rfl]
  have h05 : (0 : Int) ≤ off + ((writeFstring (some nm)).length : Int) +
      ((writeFstring (some tnDouble)).length : Int) + 4 + 4 + 1 := by omega
  have hoff5 : off + ((writeFstring (some nm)).length : Int) +
      ((writeFstring (some tnDouble)).length : Int) + 4 + 4 + 1 ≤
      (d.length : Int) := by
    have hq := off_step h04 hoff4 (show List.drop (off +
      ((writeFstring (some nm)).length : Int) +
      ((writeFstring (some tnDouble)).length : Int) + 4 + 4).toNat d =
        [0] ++ (propValueBytes (.mk nm (some tnDouble) (.double b) Option.none
          Option.none Option.none Option.none []) ++ tail) from hD4)
    simp at hq
    omega
  have hD5 : List.drop (off + ((writeFstring (some nm)).length : Int) +
      ((writeFstring (some tnDouble)).length : Int) + 4 + 4 + 1).toNat d =
      f64LE b ++ tail := by
    have hq := drop_advance h04 (show List.drop (off +
      ((writeFstring (some nm)).length : Int) +
      ((writeFstring (some tnDouble)).length : Int) + 4 + 4).toNat d =
        [0] ++ (propValueBytes (.mk nm (some tnDouble) (.double b) Option.none
          Option.none Option.none Option.none []) ++ tail) from hD4)
    simp only [List.length_cons, List.length_nil, hpv] at hq
    push_cast at hq
    exact hq
  rw [readDouble_at h05 hoff5 hD5 (by omega)]
  simp only [bindOk]
  simp only [FPropertyTag.setValue, Except.ok.injEq, Prod.mk.injEq,
    Reader.mk.injEq, true_and, genProp, FPropertyTag.name,
    FPropertyTag.type_name, hgh, hpv, List.length_append, int32LE_length, f64LE_length,
    List.length_cons, List.length_nil]
  push_cast
  omega

/-! ## Distinctness of the type-tag strings -/

@[simp] theorem ne_tnInt_tnUInt32 : ¬ tnInt = tnUInt32 := by decide
@[simp] theorem ne_tnInt_tnInt64 : ¬ tnInt = tnInt64 := by decide
@[simp] theorem ne_tnInt_tnFloat : ¬ tnInt = tnFloat := by decide
@[simp] theorem ne_tnInt_tnDouble : ¬ tnInt = tnDouble := by decide
@[simp] theorem ne_tnInt_tnBool : ¬ tnInt = tnBool := by decide
@[simp] theorem ne_tnInt_tnStr : ¬ tnInt = tnStr := by decide
@[simp] theorem ne_tnInt_tnName : ¬ tnInt = tnName := by decide
@[simp] theorem ne_tnInt_tnEnum : ¬ tnInt = tnEnum := by decide
@[simp] theorem ne_tnInt_tnStruct : ¬ tnInt = tnStruct := by decide
@[simp] theorem ne_tnInt_tnArray : ¬ tnInt = tnArray := by decide
@[simp] theorem ne_tnInt_tnMap : ¬ tnInt = tnMap := by decide
@[simp] theorem ne_tnInt_tnByte : ¬ tnInt = tnByte := by decide
@[simp] theorem ne_tnInt_tnTerminator : ¬ tnInt = tnTerminator := by decide
@[simp] theorem ne_tnInt_strNone : ¬ tnInt = strNone := by decide
@[simp] theorem ne_tnUInt32_tnInt : ¬ tnUInt32 = tnInt := by decide
@[simp] theorem ne_tnUInt32_tnInt64 : ¬ tnUInt32 = tnInt64 := by decide
@[simp] theorem ne_tnUInt32_tnFloat : ¬ tnUInt32 = tnFloat := by decide
@[simp] theorem ne_tnUInt32_tnDouble : ¬ tnUInt32 = tnDouble := by decide
@[simp] theorem ne_tnUInt32_tnBool : ¬ tnUInt32 = tnBool := by decide
@[simp] theorem ne_tnUInt32_tnStr : ¬ tnUInt32 = tnStr := by decide
@[simp] theorem ne_tnUInt32_tnName : ¬ tnUInt32 = tnName := by decide
@[simp] theorem ne_tnUInt32_tnEnum : ¬ tnUInt32 = tnEnum := by decide
@[simp] theorem ne_tnUInt32_tnStruct : ¬ tnUInt32 = tnStruct := by decide
@[simp] theorem ne_tnUInt32_tnArray : ¬ tnUInt32 = tnArray := by decide
@[simp] theorem ne_tnUInt32_tnMap : ¬ tnUInt32 = tnMap := by decide
@[simp] theorem ne_tnUInt32_tnByte : ¬ tnUInt32 = tnByte := by decide
@[simp] theorem ne_tnUInt32_tnTerminator : ¬ tnUInt32 = tnTerminator := by decide
@[simp] theorem ne_tnUInt32_strNone : ¬ tnUInt32 = strNone := by decide
@[simp] theorem ne_tnInt64_tnInt : ¬ tnInt64 = tnInt := by decide
@[simp] theorem ne_tnInt64_tnUInt32 : ¬ tnInt64 = tnUInt32 := by decide
@[simp] theorem ne_tnInt64_tnFloat : ¬ tnInt64 = tnFloat := by decide
@[simp] theorem ne_tnInt64_tnDouble : ¬ tnInt64 = tnDouble := by decide
@[simp] theorem ne_tnInt64_tnBool : ¬ tnInt64 = tnBool := by decide
@[simp] theorem ne_tnInt64_tnStr : ¬ tnInt64 = tnStr := by decide
@[simp] theorem ne_tnInt64_tnName : ¬ tnInt64 = tnName := by decide
@[simp] theorem ne_tnInt64_tnEnum : ¬ tnInt64 = tnEnum := by decide
@[simp] theorem ne_tnInt64_tnStruct : ¬ tnInt64 = tnStruct := by decide
@[simp] theorem ne_tnInt64_tnArray : ¬ tnInt64 = tnArray := by decide
@[simp] theorem ne_tnInt64_tnMap : ¬ tnInt64 = tnMap := by decide
@[simp] theorem ne_tnInt64_tnByte : ¬ tnInt64 = tnByte := by decide
@[simp] theorem ne_tnInt64_tnTerminator : ¬ tnInt64 = tnTerminator := by decide
@[simp] theorem ne_tnInt64_strNone : ¬ tnInt64 = strNone := by decide
@[simp] theorem ne_tnFloat_tnInt : ¬ tnFloat = tnInt := by decide
@[simp] theorem ne_tnFloat_tnUInt32 : ¬ tnFloat = tnUInt32 := by decide
@[simp] theorem ne_tnFloat_tnInt64 : ¬ tnFloat = tnInt64 := by decide
@[simp] theorem ne_tnFloat_tnDouble : ¬ tnFloat = tnDouble := by decide
@[simp] theorem ne_tnFloat_tnBool : ¬ tnFloat = tnBool := by decide
@[simp] theorem ne_tnFloat_tnStr : ¬ tnFloat = tnStr := by decide
@[simp] theorem ne_tnFloat_tnName : ¬ tnFloat = tnName := by decide
@[simp] theorem ne_tnFloat_tnEnum : ¬ tnFloat = tnEnum := by decide
@[simp] theorem ne_tnFloat_tnStruct : ¬ tnFloat = tnStruct := by decide
@[simp] theorem ne_tnFloat_tnArray : ¬ tnFloat = tnArray := by decide
@[simp] theorem ne_tnFloat_tnMap : ¬ tnFloat = tnMap := by decide
@[simp] theorem ne_tnFloat_tnByte : ¬ tnFloat = tnByte := by decide
@[simp] theorem ne_tnFloat_tnTerminator : ¬ tnFloat = tnTerminator := by decide
@[simp] theorem ne_tnFloat_strNone : ¬ tnFloat = strNone := by decide
@[simp] theorem ne_tnDouble_tnInt : ¬ tnDouble = tnInt := by decide
@[simp] theorem ne_tnDouble_tnUInt32 : ¬ tnDouble = tnUInt32 := by decide
@[simp] theorem ne_tnDouble_tnInt64 : ¬ tnDouble = tnInt64 := by decide
@[simp] theorem ne_tnDouble_tnFloat : ¬ tnDouble = tnFloat := by decide
@[simp] theorem ne_tnDouble_tnBool : ¬ tnDouble = tnBool := by decide
@[simp] theorem ne_tnDouble_tnStr : ¬ tnDouble = tnStr := by decide
@[simp] theorem ne_tnDouble_tnName : ¬ tnDouble = tnName := by decide
@[simp] theorem ne_tnDouble_tnEnum : ¬ tnDouble = tnEnum := by decide
@[simp] theorem ne_tnDouble_tnStruct : ¬ tnDouble = tnStruct := by decide
@[simp] theorem ne_tnDouble_tnArray : ¬ tnDouble = tnArray := by decide
@[simp] theorem ne_tnDouble_tnMap : ¬ tnDouble = tnMap := by decide
@[simp] theorem ne_tnDouble_tnByte : ¬ tnDouble = tnByte := by decide
@[simp] theorem ne_tnDouble_tnTerminator : ¬ tnDouble = tnTerminator := by decide
@[simp] theorem ne_tnDouble_strNone : ¬ tnDouble = strNone := by decide
@[simp] theorem ne_tnBool_tnInt : ¬ tnBool = tnInt := by decide
@[simp] theorem ne_tnBool_tnUInt32 : ¬ tnBool = tnUInt32 := by decide
@[simp] theorem ne_tnBool_tnInt64 : ¬ tnBool = tnInt64 := by decide
@[simp] theorem ne_tnBool_tnFloat : ¬ tnBool = tnFloat := by decide
@[simp] theorem ne_tnBool_tnDouble : ¬ tnBool = tnDouble := by decide
@[simp] theorem ne_tnBool_tnStr : ¬ tnBool = tnStr := by decide
@[simp] theorem ne_tnBool_tnName : ¬ tnBool = tnName := by decide
@[simp] theorem ne_tnBool_tnEnum : ¬ tnBool = tnEnum := by decide
@[simp] theorem ne_tnBool_tnStruct : ¬ tnBool = tnStruct := by decide
@[simp] theorem ne_tnBool_tnArray : ¬ tnBool = tnArray := by decide
@[simp] theorem ne_tnBool_tnMap : ¬ tnBool = tnMap := by decide
@[simp] theorem ne_tnBool_tnByte : ¬ tnBool = tnByte := by decide
@[simp] theorem ne_tnBool_tnTerminator : ¬ tnBool = tnTerminator := by decide
@[simp] theorem ne_tnBool_strNone : ¬ tnBool = strNone := by decide
@[simp] theorem ne_tnStr_tnInt : ¬ tnStr = tnInt := by decide
@[simp] theorem ne_tnStr_tnUInt32 : ¬ tnStr = tnUInt32 := by decide
@[simp] theorem ne_tnStr_tnInt64 : ¬ tnStr = tnInt64 := by decide
@[simp] theorem ne_tnStr_tnFloat : ¬ tnStr = tnFloat := by decide
@[simp] theorem ne_tnStr_tnDouble : ¬ tnStr = tnDouble := by decide
@[simp] theorem ne_tnStr_tnBool : ¬ tnStr = tnBool := by decide
@[simp] theorem ne_tnStr_tnName : ¬ tnStr = tnName := by decide
@[simp] theorem ne_tnStr_tnEnum : ¬ tnStr = tnEnum := by decide
@[simp] theorem ne_tnStr_tnStruct : ¬ tnStr = tnStruct := by decide
@[simp] theorem ne_tnStr_tnArray : ¬ tnStr = tnArray := by decide
@[simp] theorem ne_tnStr_tnMap : ¬ tnStr = tnMap := by decide
@[simp] theorem ne_tnStr_tnByte : ¬ tnStr = tnByte := by decide
@[simp] theorem ne_tnStr_tnTerminator : ¬ tnStr = tnTerminator := by decide
@[simp] theorem ne_tnStr_strNone : ¬ tnStr = strNone := by decide
@[simp] theorem ne_tnName_tnInt : ¬ tnName = tnInt := by decide
@[simp] theorem ne_tnName_tnUInt32 : ¬ tnName = tnUInt32 := by decide
@[simp] theorem ne_tnName_tnInt64 : ¬ tnName = tnInt64 := by decide
@[simp] theorem ne_tnName_tnFloat : ¬ tnName = tnFloat := by decide
@[simp] theorem ne_tnName_tnDouble : ¬ tnName = tnDouble := by decide
@[simp] theorem ne_tnName_tnBool : ¬ tnName = tnBool := by decide
@[simp] theorem ne_tnName_tnStr : ¬ tnName = tnStr := by decide
@[simp] theorem ne_tnName_tnEnum : ¬ tnName = tnEnum := by decide
@[simp] theorem ne_tnName_tnStruct : ¬ tnName = tnStruct := by decide
@[simp] theorem ne_tnName_tnArray : ¬ tnName = tnArray := by decide
@[simp] theorem ne_tnName_tnMap : ¬ tnName = tnMap := by decide
@[simp] theorem ne_tnName_tnByte : ¬ tnName = tnByte := by decide
@[simp] theorem ne_tnName_tnTerminator : ¬ tnName = tnTerminator := by decide
@[simp] theorem ne_tnName_strNone : ¬ tnName = strNone := by decide
@[simp] theorem ne_tnEnum_tnInt : ¬ tnEnum = tnInt := by decide
@[simp] theorem ne_tnEnum_tnUInt32 : ¬ tnEnum = tnUInt32 := by decide
@[simp] theorem ne_tnEnum_tnInt64 : ¬ tnEnum = tnInt64 := by decide
@[simp] theorem ne_tnEnum_tnFloat : ¬ tnEnum = tnFloat := by decide
@[simp] theorem ne_tnEnum_tnDouble : ¬ tnEnum = tnDouble := by decide
@[simp] theorem ne_tnEnum_tnBool : ¬ tnEnum = tnBool := by decide
@[simp] theorem ne_tnEnum_tnStr : ¬ tnEnum = tnStr := by decide
@[simp] theorem ne_tnEnum_tnName : ¬ tnEnum = tnName := by decide
@[simp] theorem ne_tnEnum_tnStruct : ¬ tnEnum = tnStruct := by decide
@[simp] theorem ne_tnEnum_tnArray : ¬ tnEnum = tnArray := by decide
@[simp] theorem ne_tnEnum_tnMap : ¬ tnEnum = tnMap := by decide
@[simp] theorem ne_tnEnum_tnByte : ¬ tnEnum = tnByte := by decide
@[simp] theorem ne_tnEnum_tnTerminator : ¬ tnEnum = tnTerminator := by decide
@[simp] theorem ne_tnEnum_strNone : ¬ tnEnum = strNone := by decide
@[simp] theorem ne_tnStruct_tnInt : ¬ tnStruct = tnInt := by decide
@[simp] theorem ne_tnStruct_tnUInt32 : ¬ tnStruct = tnUInt32 := by decide
@[simp] theorem ne_tnStruct_tnInt64 : ¬ tnStruct = tnInt64 := by decide
@[simp] theorem ne_tnStruct_tnFloat : ¬ tnStruct = tnFloat := by decide
@[simp] theorem ne_tnStruct_tnDouble : ¬ tnStruct = tnDouble := by decide
@[simp] theorem ne_tnStruct_tnBool : ¬ tnStruct = tnBool := by decide
@[simp] theorem ne_tnStruct_tnStr : ¬ tnStruct = tnStr := by decide
@[simp] theorem ne_tnStruct_tnName : ¬ tnStruct = tnName := by decide
@[simp] theorem ne_tnStruct_tnEnum : ¬ tnStruct = tnEnum := by decide
@[simp] theorem ne_tnStruct_tnArray : ¬ tnStruct = tnArray := by decide
@[simp] theorem ne_tnStruct_tnMap : ¬ tnStruct = tnMap := by decide
@[simp] theorem ne_tnStruct_tnByte : ¬ tnStruct = tnByte := by decide
@[simp] theorem ne_tnStruct_tnTerminator : ¬ tnStruct = tnTerminator := by decide
@[simp] theorem ne_tnStruct_strNone : ¬ tnStruct = strNone := by decide
@[simp] theorem ne_tnArray_tnInt : ¬ tnArray = tnInt := by decide
@[simp] theorem ne_tnArray_tnUInt32 : ¬ tnArray = tnUInt32 := by decide
@[simp] theorem ne_tnArray_tnInt64 : ¬ tnArray = tnInt64 := by decide
@[simp] theorem ne_tnArray_tnFloat : ¬ tnArray = tnFloat := by decide
@[simp] theorem ne_tnArray_tnDouble : ¬ tnArray = tnDouble := by decide
@[simp] theorem ne_tnArray_tnBool : ¬ tnArray = tnBool := by decide
@[simp] theorem ne_tnArray_tnStr : ¬ tnArray = tnStr := by decide
@[simp] theorem ne_tnArray_tnName : ¬ tnArray = tnName := by decide
@[simp] theorem ne_tnArray_tnEnum : ¬ tnArray = tnEnum := by decide
@[simp] theorem ne_tnArray_tnStruct : ¬ tnArray = tnStruct := by decide
@[simp] theorem ne_tnArray_tnMap : ¬ tnArray = tnMap := by decide
@[simp] theorem ne_tnArray_tnByte : ¬ tnArray = tnByte := by decide
@[simp] theorem ne_tnArray_tnTerminator : ¬ tnArray = tnTerminator := by decide
@[simp] theorem ne_tnArray_strNone : ¬ tnArray = strNone := by decide
@[simp] theorem ne_tnMap_tnInt : ¬ tnMap = tnInt := by decide
@[simp] theorem ne_tnMap_tnUInt32 : ¬ tnMap = tnUInt32 := by decide
@[simp] theorem ne_tnMap_tnInt64 : ¬ tnMap = tnInt64 := by decide
@[simp] theorem ne_tnMap_tnFloat : ¬ tnMap = tnFloat := by decide
@[simp] theorem ne_tnMap_tnDouble : ¬ tnMap = tnDouble := by decide
@[simp] theorem ne_tnMap_tnBool : ¬ tnMap = tnBool := by decide
@[simp] theorem ne_tnMap_tnStr : ¬ tnMap = tnStr := by decide
@[simp] theorem ne_tnMap_tnName : ¬ tnMap = tnName := by decide
@[simp] theorem ne_tnMap_tnEnum : ¬ tnMap = tnEnum := by decide
@[simp] theorem ne_tnMap_tnStruct : ¬ tnMap = tnStruct := by decide
@[simp] theorem ne_tnMap_tnArray : ¬ tnMap = tnArray := by decide
@[simp] theorem ne_tnMap_tnByte : ¬ tnMap = tnByte := by decide
@[simp] theorem ne_tnMap_tnTerminator : ¬ tnMap = tnTerminator := by decide
@[simp] theorem ne_tnMap_strNone : ¬ tnMap = strNone := by decide
@[simp] theorem ne_tnByte_tnInt : ¬ tnByte = tnInt := by decide
@[simp] theorem ne_tnByte_tnUInt32 : ¬ tnByte = tnUInt32 := by decide
@[simp] theorem ne_tnByte_tnInt64 : ¬ tnByte = tnInt64 := by decide
@[simp] theorem ne_tnByte_tnFloat : ¬ tnByte = tnFloat := by decide
@[simp] theorem ne_tnByte_tnDouble : ¬ tnByte = tnDouble := by decide
@[simp] theorem ne_tnByte_tnBool : ¬ tnByte = tnBool := by decide
@[simp] theorem ne_tnByte_tnStr : ¬ tnByte = tnStr := by decide
@[simp] theorem ne_tnByte_tnName : ¬ tnByte = tnName := by decide
@[simp] theorem ne_tnByte_tnEnum : ¬ tnByte = tnEnum := by decide
@[simp] theorem ne_tnByte_tnStruct : ¬ tnByte = tnStruct := by decide
@[simp] theorem ne_tnByte_tnArray : ¬ tnByte = tnArray := by decide
@[simp] theorem ne_tnByte_tnMap : ¬ tnByte = tnMap := by decide
@[simp] theorem ne_tnByte_tnTerminator : ¬ tnByte = tnTerminator := by decide
@[simp] theorem ne_tnByte_strNone : ¬ tnByte = strNone := by decide
@[simp] theorem ne_tnTerminator_tnInt : ¬ tnTerminator = tnInt := by decide
@[simp] theorem ne_tnTerminator_tnUInt32 : ¬ tnTerminator = tnUInt32 := by decide
@[simp] theorem ne_tnTerminator_tnInt64 : ¬ tnTerminator = tnInt64 := by decide
@[simp] theorem ne_tnTerminator_tnFloat : ¬ tnTerminator = tnFloat := by decide
@[simp] theorem ne_tnTerminator_tnDouble : ¬ tnTerminator = tnDouble := by decide
@[simp] theorem ne_tnTerminator_tnBool : ¬ tnTerminator = tnBool := by decide
@[simp] theorem ne_tnTerminator_tnStr : ¬ tnTerminator = tnStr := by decide
@[simp] theorem ne_tnTerminator_tnName : ¬ tnTerminator = tnName := by decide
@[simp] theorem ne_tnTerminator_tnEnum : ¬ tnTerminator = tnEnum := by decide
@[simp] theorem ne_tnTerminator_tnStruct : ¬ tnTerminator = tnStruct := by decide
@[simp] theorem ne_tnTerminator_tnArray : ¬ tnTerminator = tnArray := by decide
@[simp] theorem ne_tnTerminator_tnMap : ¬ tnTerminator = tnMap := by decide
@[simp] theorem ne_tnTerminator_tnByte : ¬ tnTerminator = tnByte := by decide
@[simp] theorem ne_tnTerminator_strNone : ¬ tnTerminator = strNone := by decide
@[simp] theorem ne_strNone_tnInt : ¬ strNone = tnInt := by decide
@[simp] theorem ne_strNone_tnUInt32 : ¬ strNone = tnUInt32 := by decide
@[simp] theorem ne_strNone_tnInt64 : ¬ strNone = tnInt64 := by decide
@[simp] theorem ne_strNone_tnFloat : ¬ strNone = tnFloat := by decide
@[simp] theorem ne_strNone_tnDouble : ¬ strNone = tnDouble := by decide
@[simp] theorem ne_strNone_tnBool : ¬ strNone = tnBool := by decide
@[simp] theorem ne_strNone_tnStr : ¬ strNone = tnStr := by decide
@[simp] theorem ne_strNone_tnName : ¬ strNone = tnName := by decide
@[simp] theorem ne_strNone_tnEnum : ¬ strNone = tnEnum := by decide
@[simp] theorem ne_strNone_tnStruct : ¬ strNone = tnStruct := by decide
@[simp] theorem ne_strNone_tnArray : ¬ strNone = tnArray := by decide
@[simp] theorem ne_strNone_tnMap : ¬ strNone = tnMap := by decide
@[simp] theorem ne_strNone_tnByte : ¬ strNone = tnByte := by decide
@[simp] theorem ne_strNone_tnTerminator : ¬ strNone = tnTerminator := by decide

/-- `_read_property` re-parses a BoolProperty record (whose value byte and
padding byte live outside the size region). -/
theorem propParses_bool (nm : PyStr) (b : Bool) :
    PropParses (.mk nm (some tnBool) (.bool b) Option.none Option.none
      Option.none Option.none []) := by
  intro fuel d filler tail off idx hwf hfil hidx1 hidx2 h0 hoff h hfuel
  have hw : wfCore .prop (.mk nm (some tnBool) (.bool b) Option.none
      Option.none Option.none Option.none []) = true := hwf
  rw [wfCore] at hw
  obtain ⟨hwn, hch⟩ := (Bool.and_eq_true _ _).mp hw
  unfold wfNode at hwn
  simp at hwn
  obtain ⟨⟨hnm, hne⟩, hsz⟩ := hwn
  have hpv : propValueBytes (.mk nm (some tnBool) (.bool b) Option.none
      Option.none Option.none Option.none []) = [] := by
    simp only [propValueBytes, FPropertyTag.type_name]
    rw [if_neg (by decide), if_neg (by decide), if_neg (by decide)]
    simp only [if_true]
  have hgh : genHeader (.mk nm (some tnBool) (.bool b) Option.none Option.none
      Option.none Option.none []) filler =
      [if b = true then 1 else 0, 0] := by
    simp only [genHeader, FPropertyTag.type_name, FPropertyTag.value, pyTruthy]
    rw [if_neg (by decide), if_neg (by decide), if_neg (by decide)]
    simp only [if_true]
  simp only [genProp, FPropertyTag.name, FPropertyTag.type_name, hgh,
    List.append_assoc] at h
  rw [readProperty,
    if_neg (by
      simp only [fuelNeedProp, fuelPropCore] at hfuel
      rw [if_neg (by decide), if_neg (by decide)] at hfuel
      omega),
    if_neg (rem_not_lt h0 hoff h (writeFstring_length_ge (some nm)))]
  rw [readFstring_at h0 hoff (show wfStrOptB (some nm) = true from hnm) h]
  simp only [bindOk]
  rw [if_neg hne]
  have h01 : (0 : Int) ≤ off + ((writeFstring (some nm)).length : Int) := by
    omega
  have hoff1 := off_step h0 hoff h
  have hD1 := drop_advance h0 h
  rw [readFstring_at h01 hoff1 (by decide) hD1]
  simp only [bindOk]
  have h02 : (0 : Int) ≤ off + ((writeFstring (some nm)).length : Int) +
      ((writeFstring (some tnBool)).length : Int) := by omega
  have hoff2 := off_step h01 hoff1 hD1
  have hD2 := drop_advance h01 hD1
  rw [readInt32_at h02 hoff2 hD2 (by omega) (by push_cast; omega)]
  simp only [bindOk]
  have h03 : (0 : Int) ≤ off + ((writeFstring (some nm)).length : Int) +
      ((writeFstring (some tnBool)).length : Int) + 4 := by omega
  have hoff3 := off_step h02 hoff2 hD2
  have hD3 := drop_advance h02 hD2
  rw [int32LE_length] at hoff3 hD3
  push_cast at hoff3 hD3
  rw [readInt32_at h03 hoff3 hD3 hidx1 hidx2]
  simp only [bindOk]
  rw [if_neg (by decide), if_neg (by decide), if_neg (by decide),
    if_neg (by decide)]
  simp only [if_true]
  have h04 : (0 : Int) ≤ off + ((writeFstring (some nm)).length : Int) +
      ((writeFstring (some tnBool)).length : Int) + 4 + 4 := by omega
  have hoff4 := off_step h03 hoff3 hD3
  have hD4 := drop_advance h03 hD3
  rw [int32LE_length] at hoff4 hD4
  push_cast at hoff4 hD4
  have hD4b : List.drop (off + ((writeFstring (some nm)).length : Int) +
      ((writeFstring (some tnBool)).length : Int) + 4 + 4).toNat d =
      [if b = true then (1 : Nat) else 0] ++ (0 :: tail) := by
    simpa using hD4
  rw [readByte_at h04 hoff4 (by simpa using hD4b)]
  simp only [bindOk]
  have h05 : (0 : Int) ≤ off + ((writeFstring (some nm)).length : Int) +
      ((writeFstring (some tnBool)).length : Int) + 4 + 4 + 1 := by omega
  have hoff5 : off + ((writeFstring (some nm)).length : Int) +
      ((writeFstring (some tnBool)).length : Int) + 4 + 4 + 1 ≤
      (d.length : Int) := by
    have hq := off_step h04 hoff4 hD4b
    simp at hq
    omega
  have hD5 : List.drop (off + ((writeFstring (some nm)).length : Int) +
      ((writeFstring (some tnBool)).length : Int) + 4 + 4 + 1).toNat d =
      0 :: tail := by
    have hq := drop_advance h04 hD4b
    simp at hq
    push_cast at hq
    simpa using hq
  rw [readByte_at h05 hoff5 hD5]
  simp only [bindOk]
  simp only [FPropertyTag.setValue, Except.ok.injEq, Prod.mk.injEq,
    Reader.mk.injEq, genProp, FPropertyTag.name, FPropertyTag.type_name,
    hgh, hpv, List.length_append, int32LE_length, List.length_cons,
    List.length_nil, FPropertyTag.mk.injEq, true_and, and_true]
  constructor
  · cases b <;> simp
  · push_cast
    omega

/-- `_read_property` re-parses a StrProperty record holding a string. -/
theorem propParses_str_some (nm s : PyStr) :
    PropParses (.mk nm (some tnStr) (.str s) Option.none Option.none
      Option.none Option.none []) := by
  intro fuel d filler tail off idx hwf hfil hidx1 hidx2 h0 hoff h hfuel
  have hw : wfCore .prop (.mk nm (some tnStr) (.str s) Option.none Option.none
      Option.none Option.none []) = true := hwf
  rw [wfCore] at hw
  obtain ⟨hwn, hch⟩ := (Bool.and_eq_true _ _).mp hw
  unfold wfNode at hwn
  simp at hwn
  obtain ⟨⟨⟨hnm, hne⟩, hsz⟩, hs⟩ := hwn
  have hpv : propValueBytes (.mk nm (some tnStr) (.str s) Option.none
      Option.none Option.none Option.none []) = writeFstring (some s) := by
    simp [propValueBytes, FPropertyTag.type_name, writeSimpleValue,
      FPropertyTag.value, PValue.asStr]
  have hgh : genHeader (.mk nm (some tnStr) (.str s) Option.none Option.none
      Option.none Option.none []) filler = [0] := by
    simp only [genHeader, FPropertyTag.type_name]
    rw [if_neg (by decide), if_neg (by decide), if_neg (by decide),
      if_neg (by decide)]
  simp only [genProp, FPropertyTag.name, FPropertyTag.type_name, hgh,
    List.append_assoc] at h
  rw [readProperty,
    if_neg (by
      simp only [fuelNeedProp, fuelPropCore] at hfuel
      rw [if_neg (by decide), if_neg (by decide)] at hfuel
      omega),
    if_neg (rem_not_lt h0 hoff h (writeFstring_length_ge (some nm)))]
  rw [readFstring_at h0 hoff (show wfStrOptB (some nm) = true from hnm) h]
  simp only [bindOk]
  rw [if_neg hne]
  have h01 : (0 : Int) ≤ off + ((writeFstring (some nm)).length : Int) := by
    omega
  have hoff1 := off_step h0 hoff h
  have hD1 := drop_advance h0 h
  rw [readFstring_at h01 hoff1 (by decide) hD1]
  simp only [bindOk]
  have h02 : (0 : Int) ≤ off + ((writeFstring (some nm)).length : Int) +
      ((writeFstring (some tnStr)).length : Int) := by omega
  have hoff2 := off_step h01 hoff1 hD1
  have hD2 := drop_advance h01 hD1
  rw [readInt32_at h02 hoff2 hD2 (by omega) (by push_cast; omega)]
  simp only [bindOk]
  have h03 : (0 : Int) ≤ off + ((writeFstring (some nm)).length : Int) +
      ((writeFstring (some tnStr)).length : Int) + 4 := by omega
  have hoff3 := off_step h02 hoff2 hD2
  have hD3 := drop_advance h02 hD2
  rw [int32LE_length] at hoff3 hD3
  push_cast at hoff3 hD3
  rw [readInt32_at h03 hoff3 hD3 hidx1 hidx2]
  simp only [bindOk]
  rw [if_neg (by decide), if_neg (by decide), if_neg (by decide),
    if_neg (by decide), if_neg (by decide)]
  have h04 : (0 : Int) ≤ off + ((writeFstring (some nm)).length : Int) +
      ((writeFstring (some tnStr)).length : Int) + 4 + 4 := by omega
  have hoff4 := off_step h03 hoff3 hD3
  have hD4 := drop_advance h03 hD3
  rw [int32LE_length] at hoff4 hD4
  push_cast at hoff4 hD4
  rw [readByte_at h04 hoff4 (by simpa using hD4)]
  simp only [bindOk]
  rw [readSimpleValue, if_neg (by decide), if_neg (by decide),
    if_neg (by decide), if_neg (by decide), if_neg (by decide),
    if_pos (Or.inl rfl)]
  have h05 : (0 : Int) ≤ off + ((writeFstring (some nm)).length : Int) +
      ((writeFstring (some tnStr)).length : Int) + 4 + 4 + 1 := by omega
  have hoff5 : off + ((writeFstring (some nm)).length : Int) +
      ((writeFstring (some tnStr)).length : Int) + 4 + 4 + 1 ≤
      (d.length : Int) := by
    have hq := off_step h04 hoff4 (show List.drop (off +
      ((writeFstring (some nm)).length : Int) +
      ((writeFstring (some tnStr)).length : Int) + 4 + 4).toNat d =
        [0] ++ (propValueBytes (.mk nm (some tnStr) (.str s) Option.none
          Option.none Option.none Option.none []) ++ tail) from hD4)
    simp at hq
    omega
  have hD5 : List.drop (off + ((writeFstring (some nm)).length : Int) +
      ((writeFstring (some tnStr)).length : Int) + 4 + 4 + 1).toNat d =
      writeFstring (some s) ++ tail := by
    have hq := drop_advance h04 (show List.drop (off +
      ((writeFstring (some nm)).length : Int) +
      ((writeFstring (some tnStr)).length : Int) + 4 + 4).toNat d =
        [0] ++ (propValueBytes (.mk nm (some tnStr) (.str s) Option.none
          Option.none Option.none Option.none []) ++ tail) from hD4)
    simp only [List.length_cons, List.length_nil, hpv] at hq
    push_cast at hq
    exact hq
  rw [readFstring_at h05 hoff5 (show wfStrOptB (some s) = true from hs) hD5]
  simp only [bindOk]
  simp only [FPropertyTag.setValue, Except.ok.injEq, Prod.mk.injEq,
    Reader.mk.injEq, true_and, genProp, FPropertyTag.name,
    FPropertyTag.type_name, hgh, hpv, List.length_append, int32LE_length,
    List.length_cons, List.length_nil]
  push_cast
  omega

/-- `_read_property` re-parses a NameProperty record holding a string. -/
theorem propParses_name_some (nm s : PyStr) :
    PropParses (.mk nm (some tnName) (.str s) Option.none Option.none
      Option.none Option.none []) := by
  intro fuel d filler tail off idx hwf hfil hidx1 hidx2 h0 hoff h hfuel
  have hw : wfCore .prop (.mk nm (some tnName) (.str s) Option.none Option.none
      Option.none Option.none []) = true := hwf
  rw [wfCore] at hw
  obtain ⟨hwn, hch⟩ := (Bool.and_eq_true _ _).mp hw
  unfold wfNode at hwn
  simp at hwn
  obtain ⟨⟨⟨hnm, hne⟩, hsz⟩, hs⟩ := hwn
  have hpv : propValueBytes (.mk nm (some tnName) (.str s) Option.none
      Option.none Option.none Option.none []) = writeFstring (some s) := by
    simp [propValueBytes, FPropertyTag.type_name, writeSimpleValue,
      FPropertyTag.value, PValue.asStr]
  have hgh : genHeader (.mk nm (some tnName) (.str s) Option.none Option.none
      Option.none Option.none []) filler = [0] := by
    simp only [genHeader, FPropertyTag.type_name]
    rw [if_neg (by decide), if_neg (by decide), if_neg (by decide),
      if_neg (by decide)]
  simp only [genProp, FPropertyTag.name, FPropertyTag.type_name, hgh,
    List.append_assoc] at h
  rw [readProperty,
    if_neg (by
      simp only [fuelNeedProp, fuelPropCore] at hfuel
      rw [if_neg (by decide), if_neg (by decide)] at hfuel
      omega),
    if_neg (rem_not_lt h0 hoff h (writeFstring_length_ge (some nm)))]
  rw [readFstring_at h0 hoff (show wfStrOptB (some nm) = true from hnm) h]
  simp only [bindOk]
  rw [if_neg hne]
  have h01 : (0 : Int) ≤ off + ((writeFstring (some nm)).length : Int) := by
    omega
  have hoff1 := off_step h0 hoff h
  have hD1 := drop_advance h0 h
  rw [readFstring_at h01 hoff1 (by decide) hD1]
  simp only [bindOk]
  have h02 : (0 : Int) ≤ off + ((writeFstring (some nm)).length : Int) +
      ((writeFstring (some tnName)).length : Int) := by omega
  have hoff2 := off_step h01 hoff1 hD1
  have hD2 := drop_advance h01 hD1
  rw [readInt32_at h02 hoff2 hD2 (by omega) (by push_cast; omega)]
  simp only [bindOk]
  have h03 : (0 : Int) ≤ off + ((writeFstring (some nm)).length : Int) +
      ((writeFstring (some tnName)).length : Int) + 4 := by omega
  have hoff3 := off_step h02 hoff2 hD2
  have hD3 := drop_advance h02 hD2
  rw [int32LE_length] at hoff3 hD3
  push_cast at hoff3 hD3
  rw [readInt32_at h03 hoff3 hD3 hidx1 hidx2]
  simp only [bindOk]
  rw [if_neg (by decide), if_neg (by decide), if_neg (by decide),
    if_neg (by decide), if_neg (by decide)]
  have h04 : (0 : Int) ≤ off + ((writeFstring (some nm)).length : Int) +
      ((writeFstring (some tnName)).length : Int) + 4 + 4 := by omega
  have hoff4 := off_step h03 hoff3 hD3
  have hD4 := drop_advance h03 hD3
  rw [int32LE_length] at hoff4 hD4
  push_cast at hoff4 hD4
  rw [readByte_at h04 hoff4 (by simpa using hD4)]
  simp only [bindOk]
  rw [readSimpleValue, if_neg (by decide), if_neg (by decide),
    if_neg (by decide), if_neg (by decide), if_neg (by decide),
    if_pos (Or.inr rfl)]
  have h05 : (0 : Int) ≤ off + ((writeFstring (some nm)).length : Int) +
      ((writeFstring (some tnName)).length : Int) + 4 + 4 + 1 := by omega
  have hoff5 : off + ((writeFstring (some nm)).length : Int) +
      ((writeFstring (some tnName)).length : Int) + 4 + 4 + 1 ≤
      (d.length : Int) := by
    have hq := off_step h04 hoff4 (show List.drop (off +
      ((writeFstring (some nm)).length : Int) +
      ((writeFstring (some tnName)).length : Int) + 4 + 4).toNat d =
        [0] ++ (propValueBytes (.mk nm (some tnName) (.str s) Option.none
          Option.none Option.none Option.none []) ++ tail) from hD4)
    simp at hq
    omega
  have hD5 : List.drop (off + ((writeFstring (some nm)).length : Int) +
      ((writeFstring (some tnName)).length : Int) + 4 + 4 + 1).toNat d =
      writeFstring (some s) ++ tail := by
    have hq := drop_advance h04 (show List.drop (off +
      ((writeFstring (some nm)).length : Int) +
      ((writeFstring (some tnName)).length : Int) + 4 + 4).toNat d =
        [0] ++ (propValueBytes (.mk nm (some tnName) (.str s) Option.none
          Option.none Option.none Option.none []) ++ tail) from hD4)
    simp only [List.length_cons, List.length_nil, hpv] at hq
    push_cast at hq
    exact hq
  rw [readFstring_at h05 hoff5 (show wfStrOptB (some s) = true from hs) hD5]
  simp only [bindOk]
  simp only [FPropertyTag.setValue, Except.ok.injEq, Prod.mk.injEq,
    Reader.mk.injEq, true_and, genProp, FPropertyTag.name,
    FPropertyTag.type_name, hgh, hpv, List.length_append, int32LE_length,
    List.length_cons, List.length_nil]
  push_cast
  omega

/-- `_read_property` re-parses a StrProperty record holding `None`. -/
theorem propParses_str_none (nm : PyStr) :
    PropParses (.mk nm (some tnStr) .none Option.none Option.none
      Option.none Option.none []) := by
  intro fuel d filler tail off idx hwf hfil hidx1 hidx2 h0 hoff h hfuel
  have hw : wfCore .prop (.mk nm (some tnStr) .none Option.none Option.none
      Option.none Option.none []) = true := hwf
  rw [wfCore] at hw
  obtain ⟨hwn, hch⟩ := (Bool.and_eq_true _ _).mp hw
  unfold wfNode at hwn
  simp at hwn
  obtain ⟨⟨hnm, hne⟩, hsz⟩ := hwn
  have hpv : propValueBytes (.mk nm (some tnStr) .none Option.none
      Option.none Option.none Option.none []) = writeFstring Option.none := by
    simp [propValueBytes, FPropertyTag.type_name, writeSimpleValue,
      FPropertyTag.value, PValue.asStr]
  have hgh : genHeader (.mk nm (some tnStr) .none Option.none Option.none
      Option.none Option.none []) filler = [0] := by
    simp only [genHeader, FPropertyTag.type_name]
    rw [if_neg (by decide), if_neg (by decide), if_neg (by decide),
      if_neg (by decide)]
  simp only [genProp, FPropertyTag.name, FPropertyTag.type_name, hgh,
    List.append_assoc] at h
  rw [readProperty,
    if_neg (by
      simp only [fuelNeedProp, fuelPropCore] at hfuel
      rw [if_neg (by decide), if_neg (by decide)] at hfuel
      omega),
    if_neg (rem_not_lt h0 hoff h (writeFstring_length_ge (some nm)))]
  rw [readFstring_at h0 hoff (show wfStrOptB (some nm) = true from hnm) h]
  simp only [bindOk]
  rw [if_neg hne]
  have h01 : (0 : Int) ≤ off + ((writeFstring (some nm)).length : Int) := by
    omega
  have hoff1 := off_step h0 hoff h
  have hD1 := drop_advance h0 h
  rw [readFstring_at h01 hoff1 (by decide) hD1]
  simp only [bindOk]
  have h02 : (0 : Int) ≤ off + ((writeFstring (some nm)).length : Int) +
      ((writeFstring (some tnStr)).length : Int) := by omega
  have hoff2 := off_step h01 hoff1 hD1
  have hD2 := drop_advance h01 hD1
  rw [readInt32_at h02 hoff2 hD2 (by omega) (by push_cast; omega)]
  simp only [bindOk]
  have h03 : (0 : Int) ≤ off + ((writeFstring (some nm)).length : Int) +
      ((writeFstring (some tnStr)).length : Int) + 4 := by omega
  have hoff3 := off_step h02 hoff2 hD2
  have hD3 := drop_advance h02 hD2
  rw [int32LE_length] at hoff3 hD3
  push_cast at hoff3 hD3
  rw [readInt32_at h03 hoff3 hD3 hidx1 hidx2]
  simp only [bindOk]
  rw [if_neg (by decide), if_neg (by decide), if_neg (by decide),
    if_neg (by decide), if_neg (by decide)]
  have h04 : (0 : Int) ≤ off + ((writeFstring (some nm)).length : Int) +
      ((writeFstring (some tnStr)).length : Int) + 4 + 4 := by omega
  have hoff4 := off_step h03 hoff3 hD3
  have hD4 := drop_advance h03 hD3
  rw [int32LE_length] at hoff4 hD4
  push_cast at hoff4 hD4
  rw [readByte_at h04 hoff4 (by simpa using hD4)]
  simp only [bindOk]
  rw [readSimpleValue, if_neg (by decide), if_neg (by decide),
    if_neg (by decide), if_neg (by decide), if_neg (by decide),
    if_pos (Or.inl rfl)]
  have h05 : (0 : Int) ≤ off + ((writeFstring (some nm)).length : Int) +
      ((writeFstring (some tnStr)).length : Int) + 4 + 4 + 1 := by omega
  have hoff5 : off + ((writeFstring (some nm)).length : Int) +
      ((writeFstring (some tnStr)).length : Int) + 4 + 4 + 1 ≤
      (d.length : Int) := by
    have hq := off_step h04 hoff4 (show List.drop (off +
      ((writeFstring (some nm)).length : Int) +
      ((writeFstring (some tnStr)).length : Int) + 4 + 4).toNat d =
        [0] ++ (propValueBytes (.mk nm (some tnStr) .none Option.none
          Option.none Option.none Option.none []) ++ tail) from hD4)
    simp at hq
    omega
  have hD5 : List.drop (off + ((writeFstring (some nm)).length : Int) +
      ((writeFstring (some tnStr)).length : Int) + 4 + 4 + 1).toNat d =
      writeFstring Option.none ++ tail := by
    have hq := drop_advance h04 (show List.drop (off +
      ((writeFstring (some nm)).length : Int) +
      ((writeFstring (some tnStr)).length : Int) + 4 + 4).toNat d =
        [0] ++ (propValueBytes (.mk nm (some tnStr) .none Option.none
          Option.none Option.none Option.none []) ++ tail) from hD4)
    simp only [List.length_cons, List.length_nil, hpv] at hq
    push_cast at hq
    exact hq
  rw [readFstring_at h05 hoff5 (show wfStrOptB Option.none = true from rfl) hD5]
  simp only [bindOk]
  simp only [FPropertyTag.setValue, Except.ok.injEq, Prod.mk.injEq,
    Reader.mk.injEq, true_and, genProp, FPropertyTag.name,
    FPropertyTag.type_name, hgh, hpv, List.length_append, int32LE_length,
    List.length_cons, List.length_nil]
  push_cast
  omega

/-- `_read_property` re-parses a NameProperty record holding `None`. -/
theorem propParses_name_none (nm : PyStr) :
    PropParses (.mk nm (some tnName) .none Option.none Option.none
      Option.none Option.none []) := by
  intro fuel d filler tail off idx hwf hfil hidx1 hidx2 h0 hoff h hfuel
  have hw : wfCore .prop (.mk nm (some tnName) .none Option.none Option.none
      Option.none Option.none []) = true := hwf
  rw [wfCore] at hw
  obtain ⟨hwn, hch⟩ := (Bool.and_eq_true _ _).mp hw
  unfold wfNode at hwn
  simp at hwn
  obtain ⟨⟨hnm, hne⟩, hsz⟩ := hwn
  have hpv : propValueBytes (.mk nm (some tnName) .none Option.none
      Option.none Option.none Option.none []) = writeFstring Option.none := by
    simp [propValueBytes, FPropertyTag.type_name, writeSimpleValue,
      FPropertyTag.value, PValue.asStr]
  have hgh : genHeader (.mk nm (some tnName) .none Option.none Option.none
      Option.none Option.none []) filler = [0] := by
    simp only [genHeader, FPropertyTag.type_name]
    rw [if_neg (by decide), if_neg (by decide), if_neg (by decide),
      if_neg (by decide)]
  simp only [genProp, FPropertyTag.name, FPropertyTag.type_name, hgh,
    List.append_assoc] at h
  rw [readProperty,
    if_neg (by
      simp only [fuelNeedProp, fuelPropCore] at hfuel
      rw [if_neg (by decide), if_neg (by decide)] at hfuel
      omega),
    if_neg (rem_not_lt h0 hoff h (writeFstring_length_ge (some nm)))]
  rw [readFstring_at h0 hoff (show wfStrOptB (some nm) = true from hnm) h]
  simp only [bindOk]
  rw [if_neg hne]
  have h01 : (0 : Int) ≤ off + ((writeFstring (some nm)).length : Int) := by
    omega
  have hoff1 := off_step h0 hoff h
  have hD1 := drop_advance h0 h
  rw [readFstring_at h01 hoff1 (by decide) hD1]
  simp only [bindOk]
  have h02 : (0 : Int) ≤ off + ((writeFstring (some nm)).length : Int) +
      ((writeFstring (some tnName)).length : Int) := by omega
  have hoff2 := off_step h01 hoff1 hD1
  have hD2 := drop_advance h01 hD1
  rw [readInt32_at h02 hoff2 hD2 (by omega) (by push_cast; omega)]
  simp only [bindOk]
  have h03 : (0 : Int) ≤ off + ((writeFstring (some nm)).length : Int) +
      ((writeFstring (some tnName)).length : Int) + 4 := by omega
  have hoff3 := off_step h02 hoff2 hD2
  have hD3 := drop_advance h02 hD2
  rw [int32LE_length] at hoff3 hD3
  push_cast at hoff3 hD3
  rw [readInt32_at h03 hoff3 hD3 hidx1 hidx2]
  simp only [bindOk]
  rw [if_neg (by decide), if_neg (by decide), if_neg (by decide),
    if_neg (by decide), if_neg (by decide)]
  have h04 : (0 : Int) ≤ off + ((writeFstring (some nm)).length : Int) +
      ((writeFstring (some tnName)).length : Int) + 4 + 4 := by omega
  have hoff4 := off_step h03 hoff3 hD3
  have hD4 := drop_advance h03 hD3
  rw [int32LE_length] at hoff4 hD4
  push_cast at hoff4 hD4
  rw [readByte_at h04 hoff4 (by simpa using hD4)]
  simp only [bindOk]
  rw [readSimpleValue, if_neg (by decide), if_neg (by decide),
    if_neg (by decide), if_neg (by decide), if_neg (by decide),
    if_pos (Or.inr rfl)]
  have h05 : (0 : Int) ≤ off + ((writeFstring (some nm)).length : Int) +
      ((writeFstring (some tnName)).length : Int) + 4 + 4 + 1 := by omega
  have hoff5 : off + ((writeFstring (some nm)).length : Int) +
      ((writeFstring (some tnName)).length : Int) + 4 + 4 + 1 ≤
      (d.length : Int) := by
    have hq := off_step h04 hoff4 (show List.drop (off +
      ((writeFstring (some nm)).length : Int) +
      ((writeFstring (some tnName)).length : Int) + 4 + 4).toNat d =
        [0] ++ (propValueBytes (.mk nm (some tnName) .none Option.none
          Option.none Option.none Option.none []) ++ tail) from hD4)
    simp at hq
    omega
  have hD5 : List.drop (off + ((writeFstring (some nm)).length : Int) +
      ((writeFstring (some tnName)).length : Int) + 4 + 4 + 1).toNat d =
      writeFstring Option.none ++ tail := by
    have hq := drop_advance h04 (show List.drop (off +
      ((writeFstring (some nm)).length : Int) +
      ((writeFstring (some tnName)).length : Int) + 4 + 4).toNat d =
        [0] ++ (propValueBytes (.mk nm (some tnName) .none Option.none
          Option.none Option.none Option.none []) ++ tail) from hD4)
    simp only [List.length_cons, List.length_nil, hpv] at hq
    push_cast at hq
    exact hq
  rw [readFstring_at h05 hoff5 (show wfStrOptB Option.none = true from rfl) hD5]
  simp only [bindOk]
  simp only [FPropertyTag.setValue, Except.ok.injEq, Prod.mk.injEq,
    Reader.mk.injEq, true_and, genProp, FPropertyTag.name,
    FPropertyTag.type_name, hgh, hpv, List.length_append, int32LE_length,
    List.length_cons, List.length_nil]
  push_cast
  omega

/-- `_read_property` re-parses an EnumProperty record holding a string. -/
theorem propParses_enum_some (nm : PyStr) (et : Option PyStr) (s : PyStr) :
    PropParses (.mk nm (some tnEnum) (.str s) Option.none Option.none
      et Option.none []) := by
  intro fuel d filler tail off idx hwf hfil hidx1 hidx2 h0 hoff h hfuel
  have hw : wfCore .prop (.mk nm (some tnEnum) (.str s) Option.none Option.none
      et Option.none []) = true := hwf
  rw [wfCore] at hw
  obtain ⟨hwn, hch⟩ := (Bool.and_eq_true _ _).mp hw
  unfold wfNode at hwn
  simp at hwn
  obtain ⟨⟨⟨hnm, hne⟩, hsz⟩, hwet, hs⟩ := hwn
  have hpv : propValueBytes (.mk nm (some tnEnum) (.str s) Option.none
      Option.none et Option.none []) = writeFstring (some s) := by
    simp [propValueBytes, FPropertyTag.type_name, FPropertyTag.value,
      PValue.asStr]
  have hgh : genHeader (.mk nm (some tnEnum) (.str s) Option.none Option.none
      et Option.none []) filler = writeFstring et ++ [0] := by
    simp [genHeader, FPropertyTag.type_name, FPropertyTag.enum_type]
  simp only [genProp, FPropertyTag.name, FPropertyTag.type_name, hgh,
    List.append_assoc] at h
  rw [readProperty,
    if_neg (by
      simp only [fuelNeedProp, fuelPropCore] at hfuel
      rw [if_neg (by decide), if_neg (by decide)] at hfuel
      omega),
    if_neg (rem_not_lt h0 hoff h (writeFstring_length_ge (some nm)))]
  rw [readFstring_at h0 hoff (show wfStrOptB (some nm) = true from hnm) h]
  simp only [bindOk]
  rw [if_neg hne]
  have h01 : (0 : Int) ≤ off + ((writeFstring (some nm)).length : Int) := by
    omega
  have hoff1 := off_step h0 hoff h
  have hD1 := drop_advance h0 h
  rw [readFstring_at h01 hoff1 (by decide) hD1]
  simp only [bindOk]
  have h02 : (0 : Int) ≤ off + ((writeFstring (some nm)).length : Int) +
      ((writeFstring (some tnEnum)).length : Int) := by omega
  have hoff2 := off_step h01 hoff1 hD1
  have hD2 := drop_advance h01 hD1
  rw [readInt32_at h02 hoff2 hD2 (by omega) (by push_cast; omega)]
  simp only [bindOk]
  have h03 : (0 : Int) ≤ off + ((writeFstring (some nm)).length : Int) +
      ((writeFstring (some tnEnum)).length : Int) + 4 := by omega
  have hoff3 := off_step h02 hoff2 hD2
  have hD3 := drop_advance h02 hD2
  rw [int32LE_length] at hoff3 hD3
  push_cast at hoff3 hD3
  rw [readInt32_at h03 hoff3 hD3 hidx1 hidx2]
  simp only [bindOk]
  rw [if_neg (by decide), if_neg (by decide)]
  simp only [if_true]
  have h04 : (0 : Int) ≤ off + ((writeFstring (some nm)).length : Int) +
      ((writeFstring (some tnEnum)).length : Int) + 4 + 4 := by omega
  have hoff4 := off_step h03 hoff3 hD3
  have hD4 := drop_advance h03 hD3
  rw [int32LE_length] at hoff4 hD4
  push_cast at hoff4 hD4
  rw [readFstring_at h04 hoff4 (show wfStrOptB et = true from hwet) hD4]
  simp only [bindOk]
  have h05 : (0 : Int) ≤ off + ((writeFstring (some nm)).length : Int) +
      ((writeFstring (some tnEnum)).length : Int) + 4 + 4 +
      ((writeFstring et).length : Int) := by omega
  have hoff5 := off_step h04 hoff4 hD4
  have hD5 := drop_advance h04 hD4
  have hD5b : List.drop (off + ((writeFstring (some nm)).length : Int) +
      ((writeFstring (some tnEnum)).length : Int) + 4 + 4 +
      ((writeFstring et).length : Int)).toNat d =
      [0] ++ (writeFstring (some s) ++ tail) := by
    simpa [hpv] using hD5
  rw [readByte_at h05 hoff5 (by simpa using hD5b)]
  simp only [bindOk]
  have h06 : (0 : Int) ≤ off + ((writeFstring (some nm)).length : Int) +
      ((writeFstring (some tnEnum)).length : Int) + 4 + 4 +
      ((writeFstring et).length : Int) + 1 := by omega
  have hoff6 : off + ((writeFstring (some nm)).length : Int) +
      ((writeFstring (some tnEnum)).length : Int) + 4 + 4 +
      ((writeFstring et).length : Int) + 1 ≤ (d.length : Int) := by
    have hq := off_step h05 hoff5 hD5b
    simp at hq
    omega
  have hD6 : List.drop (off + ((writeFstring (some nm)).length : Int) +
      ((writeFstring (some tnEnum)).length : Int) + 4 + 4 +
      ((writeFstring et).length : Int) + 1).toNat d =
      writeFstring (some s) ++ tail := by
    have hq := drop_advance h05 hD5b
    simp only [List.length_cons, List.length_nil] at hq
    push_cast at hq
    exact hq
  rw [readFstring_at h06 hoff6 (show wfStrOptB (some s) = true from hs) hD6]
  simp only [bindOk]
  simp only [FPropertyTag.setValue, FPropertyTag.setEnumType, Except.ok.injEq,
    Prod.mk.injEq, Reader.mk.injEq, true_and, genProp, FPropertyTag.name,
    FPropertyTag.type_name, hgh, hpv, List.length_append, int32LE_length,
    List.length_cons, List.length_nil]
  push_cast
  omega

/-- `_read_property` re-parses an EnumProperty record holding `None`. -/
theorem propParses_enum_none (nm : PyStr) (et : Option PyStr) :
    PropParses (.mk nm (some tnEnum) .none Option.none Option.none
      et Option.none []) := by
  intro fuel d filler tail off idx hwf hfil hidx1 hidx2 h0 hoff h hfuel
  have hw : wfCore .prop (.mk nm (some tnEnum) .none Option.none Option.none
      et Option.none []) = true := hwf
  rw [wfCore] at hw
  obtain ⟨hwn, hch⟩ := (Bool.and_eq_true _ _).mp hw
  unfold wfNode at hwn
  simp at hwn
  obtain ⟨⟨⟨hnm, hne⟩, hsz⟩, hwet⟩ := hwn
  have hpv : propValueBytes (.mk nm (some tnEnum) .none Option.none
      Option.none et Option.none []) = writeFstring Option.none := by
    simp [propValueBytes, FPropertyTag.type_name, FPropertyTag.value,
      PValue.asStr]
  have hgh : genHeader (.mk nm (some tnEnum) .none Option.none Option.none
      et Option.none []) filler = writeFstring et ++ [0] := by
    simp [genHeader, FPropertyTag.type_name, FPropertyTag.enum_type]
  simp only [genProp, FPropertyTag.name, FPropertyTag.type_name, hgh,
    List.append_assoc] at h
  rw [readProperty,
    if_neg (by
      simp only [fuelNeedProp, fuelPropCore] at hfuel
      rw [if_neg (by decide), if_neg (by decide)] at hfuel
      omega),
    if_neg (rem_not_lt h0 hoff h (writeFstring_length_ge (some nm)))]
  rw [readFstring_at h0 hoff (show wfStrOptB (some nm) = true from hnm) h]
  simp only [bindOk]
  rw [if_neg hne]
  have h01 : (0 : Int) ≤ off + ((writeFstring (some nm)).length : Int) := by
    omega
  have hoff1 := off_step h0 hoff h
  have hD1 := drop_advance h0 h
  rw [readFstring_at h01 hoff1 (by decide) hD1]
  simp only [bindOk]
  have h02 : (0 : Int) ≤ off + ((writeFstring (some nm)).length : Int) +
      ((writeFstring (some tnEnum)).length : Int) := by omega
  have hoff2 := off_step h01 hoff1 hD1
  have hD2 := drop_advance h01 hD1
  rw [readInt32_at h02 hoff2 hD2 (by omega) (by push_cast; omega)]
  simp only [bindOk]
  have h03 : (0 : Int) ≤ off + ((writeFstring (some nm)).length : Int) +
      ((writeFstring (some tnEnum)).length : Int) + 4 := by omega
  have hoff3 := off_step h02 hoff2 hD2
  have hD3 := drop_advance h02 hD2
  rw [int32LE_length] at hoff3 hD3
  push_cast at hoff3 hD3
  rw [readInt32_at h03 hoff3 hD3 hidx1 hidx2]
  simp only [bindOk]
  rw [if_neg (by decide), if_neg (by decide)]
  simp only [if_true]
  have h04 : (0 : Int) ≤ off + ((writeFstring (some nm)).length : Int) +
      ((writeFstring (some tnEnum)).length : Int) + 4 + 4 := by omega
  have hoff4 := off_step h03 hoff3 hD3
  have hD4 := drop_advance h03 hD3
  rw [int32LE_length] at hoff4 hD4
  push_cast at hoff4 hD4
  rw [readFstring_at h04 hoff4 (show wfStrOptB et = true from hwet) hD4]
  simp only [bindOk]
  have h05 : (0 : Int) ≤ off + ((writeFstring (some nm)).length : Int) +
      ((writeFstring (some tnEnum)).length : Int) + 4 + 4 +
      ((writeFstring et).length : Int) := by omega
  have hoff5 := off_step h04 hoff4 hD4
  have hD5 := drop_advance h04 hD4
  have hD5b : List.drop (off + ((writeFstring (some nm)).length : Int) +
      ((writeFstring (some tnEnum)).length : Int) + 4 + 4 +
      ((writeFstring et).length : Int)).toNat d =
      [0] ++ (writeFstring Option.none ++ tail) := by
    simpa [hpv] using hD5
  rw [readByte_at h05 hoff5 (by simpa using hD5b)]
  simp only [bindOk]
  have h06 : (0 : Int) ≤ off + ((writeFstring (some nm)).length : Int) +
      ((writeFstring (some tnEnum)).length : Int) + 4 + 4 +
      ((writeFstring et).length : Int) + 1 := by omega
  have hoff6 : off + ((writeFstring (some nm)).length : Int) +
      ((writeFstring (some tnEnum)).length : Int) + 4 + 4 +
      ((writeFstring et).length : Int) + 1 ≤ (d.length : Int) := by
    have hq := off_step h05 hoff5 hD5b
    simp at hq
    omega
  have hD6 : List.drop (off + ((writeFstring (some nm)).length : Int) +
      ((writeFstring (some tnEnum)).length : Int) + 4 + 4 +
      ((writeFstring et).length : Int) + 1).toNat d =
      writeFstring Option.none ++ tail := by
    have hq := drop_advance h05 hD5b
    simp only [List.length_cons, List.length_nil] at hq
    push_cast at hq
    exact hq
  rw [readFstring_at h06 hoff6 (show wfStrOptB Option.none = true from rfl) hD6]
  simp only [bindOk]
  simp only [FPropertyTag.setValue, FPropertyTag.setEnumType, Except.ok.injEq,
    Prod.mk.injEq, Reader.mk.injEq, true_and, genProp, FPropertyTag.name,
    FPropertyTag.type_name, hgh, hpv, List.length_append, int32LE_length,
    List.length_cons, List.length_nil]
  push_cast
  omega

/-! ## Distinctness of the core-struct tag strings -/

@[simp] theorem ne_stVector_stVector2D : ¬ stVector = stVector2D := by decide
@[simp] theorem ne_stVector_stRotator : ¬ stVector = stRotator := by decide
@[simp] theorem ne_stVector_stQuat : ¬ stVector = stQuat := by decide
@[simp] theorem ne_stVector_stTransform : ¬ stVector = stTransform := by decide
@[simp] theorem ne_stVector_stLinearColor : ¬ stVector = stLinearColor := by decide
@[simp] theorem ne_stVector_stColor : ¬ stVector = stColor := by decide
@[simp] theorem ne_stVector_stGuid : ¬ stVector = stGuid := by decide
@[simp] theorem ne_stVector_stDateTime : ¬ stVector = stDateTime := by decide
@[simp] theorem ne_stVector_stTimespan : ¬ stVector = stTimespan := by decide
@[simp] theorem ne_stVector2D_stVector : ¬ stVector2D = stVector := by decide
@[simp] theorem ne_stVector2D_stRotator : ¬ stVector2D = stRotator := by decide
@[simp] theorem ne_stVector2D_stQuat : ¬ stVector2D = stQuat := by decide
@[simp] theorem ne_stVector2D_stTransform : ¬ stVector2D = stTransform := by decide
@[simp] theorem ne_stVector2D_stLinearColor : ¬ stVector2D = stLinearColor := by decide
@[simp] theorem ne_stVector2D_stColor : ¬ stVector2D = stColor := by decide
@[simp] theorem ne_stVector2D_stGuid : ¬ stVector2D = stGuid := by decide
@[simp] theorem ne_stVector2D_stDateTime : ¬ stVector2D = stDateTime := by decide
@[simp] theorem ne_stVector2D_stTimespan : ¬ stVector2D = stTimespan := by decide
@[simp] theorem ne_stRotator_stVector : ¬ stRotator = stVector := by decide
@[simp] theorem ne_stRotator_stVector2D : ¬ stRotator = stVector2D := by decide
@[simp] theorem ne_stRotator_stQuat : ¬ stRotator = stQuat := by decide
@[simp] theorem ne_stRotator_stTransform : ¬ stRotator = stTransform := by decide
@[simp] theorem ne_stRotator_stLinearColor : ¬ stRotator = stLinearColor := by decide
@[simp] theorem ne_stRotator_stColor : ¬ stRotator = stColor := by decide
@[simp] theorem ne_stRotator_stGuid : ¬ stRotator = stGuid := by decide
@[simp] theorem ne_stRotator_stDateTime : ¬ stRotator = stDateTime := by decide
@[simp] theorem ne_stRotator_stTimespan : ¬ stRotator = stTimespan := by decide
@[simp] theorem ne_stQuat_stVector : ¬ stQuat = stVector := by decide
@[simp] theorem ne_stQuat_stVector2D : ¬ stQuat = stVector2D := by decide
@[simp] theorem ne_stQuat_stRotator : ¬ stQuat = stRotator := by decide
@[simp] theorem ne_stQuat_stTransform : ¬ stQuat = stTransform := by decide
@[simp] theorem ne_stQuat_stLinearColor : ¬ stQuat = stLinearColor := by decide
@[simp] theorem ne_stQuat_stColor : ¬ stQuat = stColor := by decide
@[simp] theorem ne_stQuat_stGuid : ¬ stQuat = stGuid := by decide
@[simp] theorem ne_stQuat_stDateTime : ¬ stQuat = stDateTime := by decide
@[simp] theorem ne_stQuat_stTimespan : ¬ stQuat = stTimespan := by decide
@[simp] theorem ne_stTransform_stVector : ¬ stTransform = stVector := by decide
@[simp] theorem ne_stTransform_stVector2D : ¬ stTransform = stVector2D := by decide
@[simp] theorem ne_stTransform_stRotator : ¬ stTransform = stRotator := by decide
@[simp] theorem ne_stTransform_stQuat : ¬ stTransform = stQuat := by decide
@[simp] theorem ne_stTransform_stLinearColor : ¬ stTransform = stLinearColor := by decide
@[simp] theorem ne_stTransform_stColor : ¬ stTransform = stColor := by decide
@[simp] theorem ne_stTransform_stGuid : ¬ stTransform = stGuid := by decide
@[simp] theorem ne_stTransform_stDateTime : ¬ stTransform = stDateTime := by decide
@[simp] theorem ne_stTransform_stTimespan : ¬ stTransform = stTimespan := by decide
@[simp] theorem ne_stLinearColor_stVector : ¬ stLinearColor = stVector := by decide
@[simp] theorem ne_stLinearColor_stVector2D : ¬ stLinearColor = stVector2D := by decide
@[simp] theorem ne_stLinearColor_stRotator : ¬ stLinearColor = stRotator := by decide
@[simp] theorem ne_stLinearColor_stQuat : ¬ stLinearColor = stQuat := by decide
@[simp] theorem ne_stLinearColor_stTransform : ¬ stLinearColor = stTransform := by decide
@[simp] theorem ne_stLinearColor_stColor : ¬ stLinearColor = stColor := by decide
@[simp] theorem ne_stLinearColor_stGuid : ¬ stLinearColor = stGuid := by decide
@[simp] theorem ne_stLinearColor_stDateTime : ¬ stLinearColor = stDateTime := by decide
@[simp] theorem ne_stLinearColor_stTimespan : ¬ stLinearColor = stTimespan := by decide
@[simp] theorem ne_stColor_stVector : ¬ stColor = stVector := by decide
@[simp] theorem ne_stColor_stVector2D : ¬ stColor = stVector2D := by decide
@[simp] theorem ne_stColor_stRotator : ¬ stColor = stRotator := by decide
@[simp] theorem ne_stColor_stQuat : ¬ stColor = stQuat := by decide
@[simp] theorem ne_stColor_stTransform : ¬ stColor = stTransform := by decide
@[simp] theorem ne_stColor_stLinearColor : ¬ stColor = stLinearColor := by decide
@[simp] theorem ne_stColor_stGuid : ¬ stColor = stGuid := by decide
@[simp] theorem ne_stColor_stDateTime : ¬ stColor = stDateTime := by decide
@[simp] theorem ne_stColor_stTimespan : ¬ stColor = stTimespan := by decide
@[simp] theorem ne_stGuid_stVector : ¬ stGuid = stVector := by decide
@[simp] theorem ne_stGuid_stVector2D : ¬ stGuid = stVector2D := by decide
@[simp] theorem ne_stGuid_stRotator : ¬ stGuid = stRotator := by decide
@[simp] theorem ne_stGuid_stQuat : ¬ stGuid = stQuat := by decide
@[simp] theorem ne_stGuid_stTransform : ¬ stGuid = stTransform := by decide
@[simp] theorem ne_stGuid_stLinearColor : ¬ stGuid = stLinearColor := by decide
@[simp] theorem ne_stGuid_stColor : ¬ stGuid = stColor := by decide
@[simp] theorem ne_stGuid_stDateTime : ¬ stGuid = stDateTime := by decide
@[simp] theorem ne_stGuid_stTimespan : ¬ stGuid = stTimespan := by decide
@[simp] theorem ne_stDateTime_stVector : ¬ stDateTime = stVector := by decide
@[simp] theorem ne_stDateTime_stVector2D : ¬ stDateTime = stVector2D := by decide
@[simp] theorem ne_stDateTime_stRotator : ¬ stDateTime = stRotator := by decide
@[simp] theorem ne_stDateTime_stQuat : ¬ stDateTime = stQuat := by decide
@[simp] theorem ne_stDateTime_stTransform : ¬ stDateTime = stTransform := by decide
@[simp] theorem ne_stDateTime_stLinearColor : ¬ stDateTime = stLinearColor := by decide
@[simp] theorem ne_stDateTime_stColor : ¬ stDateTime = stColor := by decide
@[simp] theorem ne_stDateTime_stGuid : ¬ stDateTime = stGuid := by decide
@[simp] theorem ne_stDateTime_stTimespan : ¬ stDateTime = stTimespan := by decide
@[simp] theorem ne_stTimespan_stVector : ¬ stTimespan = stVector := by decide
@[simp] theorem ne_stTimespan_stVector2D : ¬ stTimespan = stVector2D := by decide
@[simp] theorem ne_stTimespan_stRotator : ¬ stTimespan = stRotator := by decide
@[simp] theorem ne_stTimespan_stQuat : ¬ stTimespan = stQuat := by decide
@[simp] theorem ne_stTimespan_stTransform : ¬ stTimespan = stTransform := by decide
@[simp] theorem ne_stTimespan_stLinearColor : ¬ stTimespan = stLinearColor := by decide
@[simp] theorem ne_stTimespan_stColor : ¬ stTimespan = stColor := by decide
@[simp] theorem ne_stTimespan_stGuid : ¬ stTimespan = stGuid := by decide
@[simp] theorem ne_stTimespan_stDateTime : ¬ stTimespan = stDateTime := by decide

/-- `_read_core_struct` re-parses the byte pattern `_write_core_struct`
emits for a well-formed fixed-layout struct value. -/
theorem readCoreStruct_at {d tail : List Byte} {off : Int} {s : PyStr}
    {v : PValue} (base : FPropertyTag) (h0 : 0 ≤ off)
    (hoff : off ≤ (d.length : Int)) (hfix : wfFixedValue s v = true)
    (h : List.drop off.toNat d = writeCoreStruct s v ++ tail) :
    readCoreStruct ⟨d, off⟩ base s =
      .ok (base.setValue v, ⟨d, off + ((writeCoreStruct s v).length : Int)⟩) := by
  by_cases h1 : s = stVector
  · subst h1
    simp [wfFixedValue] at hfix
    rcases v with _ | i | bi | bi2 | bb | ss | bs | bs2 | il | fl | sl | bl | ⟨x, y, z⟩ | ⟨x, y⟩ | ⟨x, y, z⟩ | ⟨x, y, z, w⟩ | ⟨x, y, z, w⟩ | ⟨x, y, z, w⟩ | gb <;> simp at hfix
    obtain ⟨⟨hx, hy⟩, hz⟩ := hfix
    simp [writeCoreStruct, List.append_assoc] at h
    rw [readCoreStruct, if_pos rfl]
    rw [readFloat_at h0 hoff h (by omega)]
    simp only [bindOk]
    have h01 : (0 : Int) ≤ off + 4 := by omega
    have hoff1 := off_step h0 hoff h
    have hD1 := drop_advance h0 h
    rw [f32LE_length] at hoff1 hD1
    push_cast at hoff1 hD1
    rw [readFloat_at h01 hoff1 hD1 (by omega)]
    simp only [bindOk]
    have h02 : (0 : Int) ≤ off + 4 + 4 := by omega
    have hoff2 := off_step h01 hoff1 hD1
    have hD2 := drop_advance h01 hD1
    rw [f32LE_length] at hoff2 hD2
    push_cast at hoff2 hD2
    rw [readFloat_at h02 hoff2 hD2 (by omega)]
    simp only [bindOk]
    simp only [FPropertyTag.setValue, Except.ok.injEq, Prod.mk.injEq,
      Reader.mk.injEq, true_and]
    simp [writeCoreStruct, List.length_append, f32LE_length]
    try push_cast
    try omega
  by_cases h2 : s = stVector2D
  · subst h2
    simp [wfFixedValue] at hfix
    rcases v with _ | i | bi | bi2 | bb | ss | bs | bs2 | il | fl | sl | bl | ⟨x, y, z⟩ | ⟨x, y⟩ | ⟨x, y, z⟩ | ⟨x, y, z, w⟩ | ⟨x, y, z, w⟩ | ⟨x, y, z, w⟩ | gb <;> simp at hfix
    obtain ⟨hx, hy⟩ := hfix
    simp [writeCoreStruct, List.append_assoc] at h
    rw [readCoreStruct, if_neg (by decide), if_pos rfl]
    rw [readFloat_at h0 hoff h (by omega)]
    simp only [bindOk]
    have h01 : (0 : Int) ≤ off + 4 := by omega
    have hoff1 := off_step h0 hoff h
    have hD1 := drop_advance h0 h
    rw [f32LE_length] at hoff1 hD1
    push_cast at hoff1 hD1
    rw [readFloat_at h01 hoff1 hD1 (by omega)]
    simp only [bindOk]
    simp only [FPropertyTag.setValue, Except.ok.injEq, Prod.mk.injEq,
      Reader.mk.injEq, true_and]
    simp [writeCoreStruct, List.length_append, f32LE_length]
    try push_cast
    try omega
  by_cases h3 : s = stRotator
  · subst h3
    simp [wfFixedValue] at hfix
    rcases v with _ | i | bi | bi2 | bb | ss | bs | bs2 | il | fl | sl | bl | ⟨x, y, z⟩ | ⟨x, y⟩ | ⟨x, y, z⟩ | ⟨x, y, z, w⟩ | ⟨x, y, z, w⟩ | ⟨x, y, z, w⟩ | gb <;> simp at hfix
    obtain ⟨⟨hx, hy⟩, hz⟩ := hfix
    simp [writeCoreStruct, List.append_assoc] at h
    rw [readCoreStruct, if_neg (by decide), if_neg (by decide), if_pos rfl]
    rw [readFloat_at h0 hoff h (by omega)]
    simp only [bindOk]
    have h01 : (0 : Int) ≤ off + 4 := by omega
    have hoff1 := off_step h0 hoff h
    have hD1 := drop_advance h0 h
    rw [f32LE_length] at hoff1 hD1
    push_cast at hoff1 hD1
    rw [readFloat_at h01 hoff1 hD1 (by omega)]
    simp only [bindOk]
    have h02 : (0 : Int) ≤ off + 4 + 4 := by omega
    have hoff2 := off_step h01 hoff1 hD1
    have hD2 := drop_advance h01 hD1
    rw [f32LE_length] at hoff2 hD2
    push_cast at hoff2 hD2
    rw [readFloat_at h02 hoff2 hD2 (by omega)]
    simp only [bindOk]
    simp only [FPropertyTag.setValue, Except.ok.injEq, Prod.mk.injEq,
      Reader.mk.injEq, true_and]
    simp [writeCoreStruct, List.length_append, f32LE_length]
    try push_cast
    try omega
  by_cases h4 : s = stQuat
  · subst h4
    simp [wfFixedValue] at hfix
    rcases v with _ | i | bi | bi2 | bb | ss | bs | bs2 | il | fl | sl | bl | ⟨x, y, z⟩ | ⟨x, y⟩ | ⟨x, y, z⟩ | ⟨x, y, z, w⟩ | ⟨x, y, z, w⟩ | ⟨x, y, z, w⟩ | gb <;> simp at hfix
    obtain ⟨⟨⟨hx, hy⟩, hz⟩, hw4⟩ := hfix
    simp [writeCoreStruct, List.append_assoc] at h
    rw [readCoreStruct, if_neg (by decide), if_neg (by decide), if_neg (by decide), if_pos rfl]
    rw [readFloat_at h0 hoff h (by omega)]
    simp only [bindOk]
    have h01 : (0 : Int) ≤ off + 4 := by omega
    have hoff1 := off_step h0 hoff h
    have hD1 := drop_advance h0 h
    rw [f32LE_length] at hoff1 hD1
    push_cast at hoff1 hD1
    rw [readFloat_at h01 hoff1 hD1 (by omega)]
    simp only [bindOk]
    have h02 : (0 : Int) ≤ off + 4 + 4 := by omega
    have hoff2 := off_step h01 hoff1 hD1
    have hD2 := drop_advance h01 hD1
    rw [f32LE_length] at hoff2 hD2
    push_cast at hoff2 hD2
    rw [readFloat_at h02 hoff2 hD2 (by omega)]
    simp only [bindOk]
    have h03 : (0 : Int) ≤ off + 4 + 4 + 4 := by omega
    have hoff3 := off_step h02 hoff2 hD2
    have hD3 := drop_advance h02 hD2
    rw [f32LE_length] at hoff3 hD3
    push_cast at hoff3 hD3
    rw [readFloat_at h03 hoff3 hD3 (by omega)]
    simp only [bindOk]
    simp only [FPropertyTag.setValue, Except.ok.injEq, Prod.mk.injEq,
      Reader.mk.injEq, true_and]
    simp [writeCoreStruct, List.length_append, f32LE_length]
    try push_cast
    try omega
  by_cases h5 : s = stLinearColor
  · subst h5
    simp [wfFixedValue] at hfix
    rcases v with _ | i | bi | bi2 | bb | ss | bs | bs2 | il | fl | sl | bl | ⟨x, y, z⟩ | ⟨x, y⟩ | ⟨x, y, z⟩ | ⟨x, y, z, w⟩ | ⟨x, y, z, w⟩ | ⟨x, y, z, w⟩ | gb <;> simp at hfix
    obtain ⟨⟨⟨hx, hy⟩, hz⟩, hw4⟩ := hfix
    simp [writeCoreStruct, List.append_assoc] at h
    rw [readCoreStruct, if_neg (by decide), if_neg (by decide), if_neg (by decide), if_neg (by decide), if_pos rfl]
    rw [readFloat_at h0 hoff h (by omega)]
    simp only [bindOk]
    have h01 : (0 : Int) ≤ off + 4 := by omega
    have hoff1 := off_step h0 hoff h
    have hD1 := drop_advance h0 h
    rw [f32LE_length] at hoff1 hD1
    push_cast at hoff1 hD1
    rw [readFloat_at h01 hoff1 hD1 (by omega)]
    simp only [bindOk]
    have h02 : (0 : Int) ≤ off + 4 + 4 := by omega
    have hoff2 := off_step h01 hoff1 hD1
    have hD2 := drop_advance h01 hD1
    rw [f32LE_length] at hoff2 hD2
    push_cast at hoff2 hD2
    rw [readFloat_at h02 hoff2 hD2 (by omega)]
    simp only [bindOk]
    have h03 : (0 : Int) ≤ off + 4 + 4 + 4 := by omega
    have hoff3 := off_step h02 hoff2 hD2
    have hD3 := drop_advance h02 hD2
    rw [f32LE_length] at hoff3 hD3
    push_cast at hoff3 hD3
    rw [readFloat_at h03 hoff3 hD3 (by omega)]
    simp only [bindOk]
    simp only [FPropertyTag.setValue, Except.ok.injEq, Prod.mk.injEq,
      Reader.mk.injEq, true_and]
    simp [writeCoreStruct, List.length_append, f32LE_length]
    try push_cast
    try omega
  by_cases h6 : s = stColor
  · subst h6
    simp [wfFixedValue] at hfix
    rcases v with _ | i | bi | bi2 | bb | ss | bs | bs2 | il | fl | sl | bl | ⟨x, y, z⟩ | ⟨x, y⟩ | ⟨x, y, z⟩ | ⟨x, y, z, w⟩ | ⟨x, y, z, w⟩ | ⟨x, y, z, w⟩ | gb <;> simp at hfix
    simp [writeCoreStruct] at h
    rw [readCoreStruct, if_neg (by decide), if_neg (by decide), if_neg (by decide), if_neg (by decide), if_neg (by decide), if_pos rfl]
    rw [readBytes_at h0 hoff
      (show List.drop off.toNat d = [z, y, x, w] ++ tail from by
        simpa using h) (by simp)]
    simp only [bindOk]
    simp only [FPropertyTag.setValue, Except.ok.injEq, Prod.mk.injEq,
      Reader.mk.injEq, true_and]
    simp [writeCoreStruct]
    try push_cast
    try omega
  by_cases h7 : s = stGuid
  · subst h7
    simp [wfFixedValue] at hfix
    rcases v with _ | i | bi | bi2 | bb | ss | bs | bs2 | il | fl | sl | bl | ⟨x, y, z⟩ | ⟨x, y⟩ | ⟨x, y, z⟩ | ⟨x, y, z, w⟩ | ⟨x, y, z, w⟩ | ⟨x, y, z, w⟩ | gb <;> simp at hfix
    obtain ⟨hlen, hall⟩ := hfix
    simp [writeCoreStruct, List.append_assoc] at h
    rw [readCoreStruct, if_neg (by decide), if_neg (by decide), if_neg (by decide), if_neg (by decide), if_neg (by decide), if_neg (by decide), if_pos rfl]
    rw [readBytes_at h0 hoff h (by rw [hlen]; norm_num)]
    simp only [bindOk]
    simp only [FPropertyTag.setValue, Except.ok.injEq, Prod.mk.injEq,
      Reader.mk.injEq, true_and]
    simp [writeCoreStruct, hlen]
    try push_cast
    try omega
  by_cases h8 : s = stDateTime ∨ s = stTimespan
  · unfold wfFixedValue at hfix
    rw [if_neg h1, if_neg h2, if_neg h3, if_neg h4, if_neg h5, if_neg h6,
      if_neg h7, if_pos h8] at hfix
    rcases v with _ | i | bi | bi2 | bb | ss | bs | bs2 | il | fl | sl | bl | ⟨x, y, z⟩ | ⟨x, y⟩ | ⟨x, y, z⟩ | ⟨x, y, z, w⟩ | ⟨x, y, z, w⟩ | ⟨x, y, z, w⟩ | gb <;> simp at hfix
    obtain ⟨hi1, hi2⟩ := hfix
    have hwc : writeCoreStruct s (.int i) = int64LE i := by
      rw [writeCoreStruct, if_neg h1, if_neg h2, if_neg h3, if_neg h4,
        if_neg h5, if_neg h6, if_neg h7, if_pos h8]
    rw [hwc] at h ⊢
    rw [readCoreStruct, if_neg h1, if_neg h2, if_neg h3, if_neg h4,
      if_neg h5, if_neg h6, if_neg h7, if_pos h8]
    rw [readInt64_at h0 hoff h (by omega) (by omega)]
    simp only [bindOk]
    simp only [FPropertyTag.setValue, Except.ok.injEq, Prod.mk.injEq,
      Reader.mk.injEq, true_and, int64LE_length]
    push_cast
    omega
  · unfold wfFixedValue at hfix
    rw [if_neg h1, if_neg h2, if_neg h3, if_neg h4, if_neg h5, if_neg h6,
      if_neg h7, if_neg h8] at hfix
    simp at hfix

/-- `_read_property` re-parses a fixed-layout StructProperty record. -/
theorem propParses_structFixed (nm s : PyStr) (v : PValue)
    (hfc : isFixedCore (some s) = true) :
    PropParses (.mk nm (some tnStruct) v Option.none (some s) Option.none
      Option.none []) := by
  intro fuel d filler tail off idx hwf hfil hidx1 hidx2 h0 hoff h hfuel
  have hw : wfCore .prop (.mk nm (some tnStruct) v Option.none (some s)
      Option.none Option.none []) = true := hwf
  rw [wfCore] at hw
  obtain ⟨hwn, hch⟩ := (Bool.and_eq_true _ _).mp hw
  unfold wfNode at hwn
  simp [hfc] at hwn
  obtain ⟨⟨⟨hnm, hne⟩, hsz⟩, hws, hfx⟩ := hwn
  have hpv : propValueBytes (.mk nm (some tnStruct) v Option.none (some s)
      Option.none Option.none []) = writeCoreStruct s v := by
    simp [propValueBytes, FPropertyTag.type_name, writeStructValue,
      FPropertyTag.struct_type, FPropertyTag.value, hfc]
  have hgh : genHeader (.mk nm (some tnStruct) v Option.none (some s)
      Option.none Option.none []) filler = writeFstring (some s) ++ filler := by
    simp [genHeader, FPropertyTag.type_name, FPropertyTag.struct_type]
  simp only [genProp, FPropertyTag.name, FPropertyTag.type_name, hgh,
    List.append_assoc] at h
  rw [readProperty,
    if_neg (by
      simp only [fuelNeedProp, fuelPropCore, if_true] at hfuel
      rw [if_pos hfc] at hfuel
      omega),
    if_neg (rem_not_lt h0 hoff h (writeFstring_length_ge (some nm)))]
  rw [readFstring_at h0 hoff (show wfStrOptB (some nm) = true from hnm) h]
  simp only [bindOk]
  rw [if_neg hne]
  have h01 : (0 : Int) ≤ off + ((writeFstring (some nm)).length : Int) := by
    omega
  have hoff1 := off_step h0 hoff h
  have hD1 := drop_advance h0 h
  rw [readFstring_at h01 hoff1 (by decide) hD1]
  simp only [bindOk]
  have h02 : (0 : Int) ≤ off + ((writeFstring (some nm)).length : Int) +
      ((writeFstring (some tnStruct)).length : Int) := by omega
  have hoff2 := off_step h01 hoff1 hD1
  have hD2 := drop_advance h01 hD1
  rw [readInt32_at h02 hoff2 hD2 (by omega) (by push_cast; omega)]
  simp only [bindOk]
  have h03 : (0 : Int) ≤ off + ((writeFstring (some nm)).length : Int) +
      ((writeFstring (some tnStruct)).length : Int) + 4 := by omega
  have hoff3 := off_step h02 hoff2 hD2
  have hD3 := drop_advance h02 hD2
  rw [int32LE_length] at hoff3 hD3
  push_cast at hoff3 hD3
  rw [readInt32_at h03 hoff3 hD3 hidx1 hidx2]
  simp only [bindOk]
  rw [if_neg (by decide)]
  simp only [if_true]
  have h04 : (0 : Int) ≤ off + ((writeFstring (some nm)).length : Int) +
      ((writeFstring (some tnStruct)).length : Int) + 4 + 4 := by omega
  have hoff4 := off_step h03 hoff3 hD3
  have hD4 := drop_advance h03 hD3
  rw [int32LE_length] at hoff4 hD4
  push_cast at hoff4 hD4
  rw [readFstring_at h04 hoff4 (show wfStrOptB (some s) = true from hws) hD4]
  simp only [bindOk]
  have h05 : (0 : Int) ≤ off + ((writeFstring (some nm)).length : Int) +
      ((writeFstring (some tnStruct)).length : Int) + 4 + 4 +
      ((writeFstring (some s)).length : Int) := by omega
  have hoff5 := off_step h04 hoff4 hD4
  have hD5 := drop_advance h04 hD4
  rw [readBytes_at h05 hoff5 hD5 (by rw [hfil]; norm_num)]
  simp only [bindOk]
  rw [readStructValue,
    if_neg (by
      simp only [fuelNeedProp, fuelPropCore, if_true] at hfuel
      rw [if_pos hfc] at hfuel
      omega),
    if_pos (by
      simp only [FPropertyTag.setStructType, FPropertyTag.struct_type]
      exact hfc)]
  have h06 : (0 : Int) ≤ off + ((writeFstring (some nm)).length : Int) +
      ((writeFstring (some tnStruct)).length : Int) + 4 + 4 +
      ((writeFstring (some s)).length : Int) + 17 := by omega
  have hoff6 := off_step h05 hoff5 hD5
  have hD6 := drop_advance h05 hD5
  rw [hfil] at hoff6 hD6
  push_cast at hoff6 hD6
  rw [hpv] at hD6
  simp only [FPropertyTag.setStructType, FPropertyTag.struct_type,
    Option.getD_some]
  rw [readCoreStruct_at _ h06 hoff6 hfx hD6]
  simp only [bindOk]
  simp only [FPropertyTag.setValue, Except.ok.injEq, Prod.mk.injEq,
    Reader.mk.injEq, true_and, genProp, FPropertyTag.name,
    FPropertyTag.type_name, hgh, hpv, List.length_append, int32LE_length,
    List.length_cons, List.length_nil, hfil]
  push_cast
  omega

/-- `_read_property` re-parses a property-bearing (non-fixed-layout)
StructProperty record, given that each nested property re-parses. -/
theorem propParses_structProps (nm s : PyStr) (ns : List FPropertyTag)
    (hfc : isFixedCore (some s) = false)
    (hmem : ∀ q ∈ ns, PropParses q) :
    PropParses (.mk nm (some tnStruct) .none Option.none (some s) Option.none
      Option.none ns) := by
  intro fuel d filler tail off idx hwf hfil hidx1 hidx2 h0 hoff h hfuel
  have hw : wfCore .prop (.mk nm (some tnStruct) .none Option.none (some s)
      Option.none Option.none ns) = true := hwf
  rw [wfCore] at hw
  obtain ⟨hwn, hch⟩ := (Bool.and_eq_true _ _).mp hw
  have hwns : wfListCore .prop ns = true := by
    simpa only [childSpec, FPropertyTag.type_name, if_true, hfc,
      if_false, Bool.false_eq_true] using hch
  unfold wfNode at hwn
  simp [hfc] at hwn
  obtain ⟨⟨⟨hnm, hne⟩, hsz⟩, hws⟩ := hwn
  have hpv : propValueBytes (.mk nm (some tnStruct) .none Option.none (some s)
      Option.none Option.none ns) = writeProperties ns false := by
    simp [propValueBytes, FPropertyTag.type_name, writeStructValue,
      FPropertyTag.struct_type, FPropertyTag.nested, hfc]
    rw [writeProperties_false_eq]
  have hgh : genHeader (.mk nm (some tnStruct) .none Option.none (some s)
      Option.none Option.none ns) filler = writeFstring (some s) ++ filler := by
    simp [genHeader, FPropertyTag.type_name, FPropertyTag.struct_type]
  simp only [genProp, FPropertyTag.name, FPropertyTag.type_name, hgh,
    List.append_assoc] at h
  have hfuel2 : 2 + fuelListCore₂ .props ns ≤ fuel := by
    simp only [fuelNeedProp, fuelPropCore, if_true] at hfuel
    rw [if_neg (by simp [hfc])] at hfuel
    omega
  rw [readProperty, if_neg (by omega),
    if_neg (rem_not_lt h0 hoff h (writeFstring_length_ge (some nm)))]
  rw [readFstring_at h0 hoff (show wfStrOptB (some nm) = true from hnm) h]
  simp only [bindOk]
  rw [if_neg hne]
  have h01 : (0 : Int) ≤ off + ((writeFstring (some nm)).length : Int) := by
    omega
  have hoff1 := off_step h0 hoff h
  have hD1 := drop_advance h0 h
  rw [readFstring_at h01 hoff1 (by decide) hD1]
  simp only [bindOk]
  have h02 : (0 : Int) ≤ off + ((writeFstring (some nm)).length : Int) +
      ((writeFstring (some tnStruct)).length : Int) := by omega
  have hoff2 := off_step h01 hoff1 hD1
  have hD2 := drop_advance h01 hD1
  rw [readInt32_at h02 hoff2 hD2 (by omega) (by push_cast; omega)]
  simp only [bindOk]
  have h03 : (0 : Int) ≤ off + ((writeFstring (some nm)).length : Int) +
      ((writeFstring (some tnStruct)).length : Int) + 4 := by omega
  have hoff3 := off_step h02 hoff2 hD2
  have hD3 := drop_advance h02 hD2
  rw [int32LE_length] at hoff3 hD3
  push_cast at hoff3 hD3
  rw [readInt32_at h03 hoff3 hD3 hidx1 hidx2]
  simp only [bindOk]
  rw [if_neg (by decide)]
  simp only [if_true]
  have h04 : (0 : Int) ≤ off + ((writeFstring (some nm)).length : Int) +
      ((writeFstring (some tnStruct)).length : Int) + 4 + 4 := by omega
  have hoff4 := off_step h03 hoff3 hD3
  have hD4 := drop_advance h03 hD3
  rw [int32LE_length] at hoff4 hD4
  push_cast at hoff4 hD4
  rw [readFstring_at h04 hoff4 (show wfStrOptB (some s) = true from hws) hD4]
  simp only [bindOk]
  have h05 : (0 : Int) ≤ off + ((writeFstring (some nm)).length : Int) +
      ((writeFstring (some tnStruct)).length : Int) + 4 + 4 +
      ((writeFstring (some s)).length : Int) := by omega
  have hoff5 := off_step h04 hoff4 hD4
  have hD5 := drop_advance h04 hD4
  rw [readBytes_at h05 hoff5 hD5 (by rw [hfil]; norm_num)]
  simp only [bindOk]
  rw [readStructValue, if_neg (by omega),
    if_neg (by
      simp only [FPropertyTag.setStructType, FPropertyTag.struct_type]
      simp [hfc])]
  have h06 : (0 : Int) ≤ off + ((writeFstring (some nm)).length : Int) +
      ((writeFstring (some tnStruct)).length : Int) + 4 + 4 +
      ((writeFstring (some s)).length : Int) + 17 := by omega
  have hoff6 := off_step h05 hoff5 hD5
  have hD6 := drop_advance h05 hD5
  rw [hfil] at hoff6 hD6
  push_cast at hoff6 hD6
  rw [hpv] at hD6
  rw [hpv]
  simp only [Reader.offset]
  rw [structLoopParses ns hmem (fuel - 1 - 1) d tail _ hwns h06 hoff6 hD6
    (by simp only [fuelNeedList]; omega)]
  simp only [bindOk]
  rw [if_neg (by omega)]
  simp only [bindOk, FPropertyTag.setStructType, FPropertyTag.setNested,
    Except.ok.injEq, Prod.mk.injEq, Reader.mk.injEq, true_and, genProp,
    FPropertyTag.name, FPropertyTag.type_name, hgh, hpv, List.length_append,
    int32LE_length, List.length_cons, List.length_nil, hfil]
  push_cast
  omega

/-- `_read_property` re-parses an ArrayProperty record with Int elements. -/
theorem propParses_arrayInt (nm : PyStr) (l : List Int) :
    PropParses (.mk nm (some tnArray) (.intList l) (some tnInt) Option.none
      Option.none Option.none []) := by
  intro fuel d filler tail off idx hwf hfil hidx1 hidx2 h0 hoff h hfuel
  have hw : wfCore .prop (.mk nm (some tnArray) (.intList l) (some tnInt)
      Option.none Option.none Option.none []) = true := hwf
  rw [wfCore] at hw
  obtain ⟨hwn, hch⟩ := (Bool.and_eq_true _ _).mp hw
  unfold wfNode at hwn
  simp at hwn
  obtain ⟨⟨⟨hnm, hne⟩, hsz⟩, hall, hlen⟩ := hwn
  have hpv : propValueBytes (.mk nm (some tnArray) (.intList l) (some tnInt)
      Option.none Option.none Option.none []) =
      int32LE (l.length : Int) ++ l.flatMap int32LE := by
    simp [propValueBytes, FPropertyTag.type_name, writeArrayValue,
      FPropertyTag.inner_type, arrayCount, simpleArrayBytes,
      FPropertyTag.value, FPropertyTag.nested]
  have hgh : genHeader (.mk nm (some tnArray) (.intList l) (some tnInt)
      Option.none Option.none Option.none []) filler =
      writeFstring (some tnInt) ++ [0] := by
    simp [genHeader, FPropertyTag.type_name, FPropertyTag.inner_type]
  simp only [genProp, FPropertyTag.name, FPropertyTag.type_name, hgh,
    List.append_assoc] at h
  have hfuel2 : 2 ≤ fuel := by
    simp only [fuelNeedProp, fuelPropCore, if_true] at hfuel
    rw [if_neg (by decide), if_neg (by decide)] at hfuel
    omega
  rw [readProperty, if_neg (by omega),
    if_neg (rem_not_lt h0 hoff h (writeFstring_length_ge (some nm)))]
  rw [readFstring_at h0 hoff (show wfStrOptB (some nm) = true from hnm) h]
  simp only [bindOk]
  rw [if_neg hne]
  have h01 : (0 : Int) ≤ off + ((writeFstring (some nm)).length : Int) := by
    omega
  have hoff1 := off_step h0 hoff h
  have hD1 := drop_advance h0 h
  rw [readFstring_at h01 hoff1 (by decide) hD1]
  simp only [bindOk]
  have h02 : (0 : Int) ≤ off + ((writeFstring (some nm)).length : Int) +
      ((writeFstring (some tnArray)).length : Int) := by omega
  have hoff2 := off_step h01 hoff1 hD1
  have hD2 := drop_advance h01 hD1
  rw [readInt32_at h02 hoff2 hD2 (by omega) (by push_cast; omega)]
  simp only [bindOk]
  have h03 : (0 : Int) ≤ off + ((writeFstring (some nm)).length : Int) +
      ((writeFstring (some tnArray)).length : Int) + 4 := by omega
  have hoff3 := off_step h02 hoff2 hD2
  have hD3 := drop_advance h02 hD2
  rw [int32LE_length] at hoff3 hD3
  push_cast at hoff3 hD3
  rw [readInt32_at h03 hoff3 hD3 hidx1 hidx2]
  simp only [bindOk, if_true]
  have h04 : (0 : Int) ≤ off + ((writeFstring (some nm)).length : Int) +
      ((writeFstring (some tnArray)).length : Int) + 4 + 4 := by omega
  have hoff4 := off_step h03 hoff3 hD3
  have hD4 := drop_advance h03 hD3
  rw [int32LE_length] at hoff4 hD4
  push_cast at hoff4 hD4
  rw [readFstring_at h04 hoff4 (by decide) hD4]
  simp only [bindOk]
  have h05 : (0 : Int) ≤ off + ((writeFstring (some nm)).length : Int) +
      ((writeFstring (some tnArray)).length : Int) + 4 + 4 +
      ((writeFstring (some tnInt)).length : Int) := by omega
  have hoff5 := off_step h04 hoff4 hD4
  have hD5 := drop_advance h04 hD4
  rw [readByte_at h05 hoff5 (by simpa using hD5)]
  simp only [bindOk]
  rw [readArrayValue, if_neg (by omega)]
  have h06 : (0 : Int) ≤ off + ((writeFstring (some nm)).length : Int) +
      ((writeFstring (some tnArray)).length : Int) + 4 + 4 +
      ((writeFstring (some tnInt)).length : Int) + 1 := by omega
  have hoff6 : off + ((writeFstring (some nm)).length : Int) +
      ((writeFstring (some tnArray)).length : Int) + 4 + 4 +
      ((writeFstring (some tnInt)).length : Int) + 1 ≤ (d.length : Int) := by
    have hq := off_step h05 hoff5 (show List.drop (off +
      ((writeFstring (some nm)).length : Int) +
      ((writeFstring (some tnArray)).length : Int) + 4 + 4 +
      ((writeFstring (some tnInt)).length : Int)).toNat d =
        [0] ++ (propValueBytes (.mk nm (some tnArray) (.intList l)
          (some tnInt) Option.none Option.none Option.none []) ++ tail)
        from hD5)
    simp at hq
    omega
  have hD6 : List.drop (off + ((writeFstring (some nm)).length : Int) +
      ((writeFstring (some tnArray)).length : Int) + 4 + 4 +
      ((writeFstring (some tnInt)).length : Int) + 1).toNat d =
      int32LE (l.length : Int) ++ (l.flatMap int32LE ++ tail) := by
    have hq := drop_advance h05 (show List.drop (off +
      ((writeFstring (some nm)).length : Int) +
      ((writeFstring (some tnArray)).length : Int) + 4 + 4 +
      ((writeFstring (some tnInt)).length : Int)).toNat d =
        [0] ++ (propValueBytes (.mk nm (some tnArray) (.intList l)
          (some tnInt) Option.none Option.none Option.none []) ++ tail)
        from hD5)
    simp only [List.length_cons, List.length_nil, hpv, List.append_assoc] at hq
    push_cast at hq
    exact hq
  rw [readInt32_at h06 hoff6 hD6 (by omega) (by push_cast; omega)]
  simp only [bindOk]
  rw [if_neg (by
      simp only [FPropertyTag.setInnerType, FPropertyTag.inner_type]
      simp),
    if_neg (by
      simp only [FPropertyTag.setInnerType, FPropertyTag.inner_type]
      simp)]
  rw [readSimpleArray, if_pos (by
    simp only [FPropertyTag.setInnerType, FPropertyTag.inner_type])]
  have h07 : (0 : Int) ≤ off + ((writeFstring (some nm)).length : Int) +
      ((writeFstring (some tnArray)).length : Int) + 4 + 4 +
      ((writeFstring (some tnInt)).length : Int) + 1 + 4 := by omega
  have hoff7 := off_step h06 hoff6 hD6
  have hD7 := drop_advance h06 hD6
  rw [int32LE_length] at hoff7 hD7
  push_cast at hoff7 hD7
  simp only [Int.toNat_natCast]
  rw [iterInt32_at l d tail _ h07 hoff7
    (fun j hj => by have := hall j hj; omega) hD7]
  simp only [bindOk]
  simp only [FPropertyTag.setValue, FPropertyTag.setInnerType,
    Except.ok.injEq, Prod.mk.injEq, Reader.mk.injEq, true_and, genProp,
    FPropertyTag.name, FPropertyTag.type_name, hgh, hpv, List.length_append,
    int32LE_length, List.length_cons, List.length_nil]
  push_cast
  omega

/-- `_read_property` re-parses an ArrayProperty record with Float elements. -/
theorem propParses_arrayFloat (nm : PyStr) (l : List Nat) :
    PropParses (.mk nm (some tnArray) (.floatList l) (some tnFloat) Option.none
      Option.none Option.none []) := by
  intro fuel d filler tail off idx hwf hfil hidx1 hidx2 h0 hoff h hfuel
  have hw : wfCore .prop (.mk nm (some tnArray) (.floatList l) (some tnFloat)
      Option.none Option.none Option.none []) = true := hwf
  rw [wfCore] at hw
  obtain ⟨hwn, hch⟩ := (Bool.and_eq_true _ _).mp hw
  unfold wfNode at hwn
  simp at hwn
  obtain ⟨⟨⟨hnm, hne⟩, hsz⟩, hall, hlen⟩ := hwn
  have hpv : propValueBytes (.mk nm (some tnArray) (.floatList l) (some tnFloat)
      Option.none Option.none Option.none []) =
      int32LE (l.length : Int) ++ l.flatMap f32LE := by
    simp [propValueBytes, FPropertyTag.type_name, writeArrayValue,
      FPropertyTag.inner_type, arrayCount, simpleArrayBytes,
      FPropertyTag.value, FPropertyTag.nested]
  have hgh : genHeader (.mk nm (some tnArray) (.floatList l) (some tnFloat)
      Option.none Option.none Option.none []) filler =
      writeFstring (some tnFloat) ++ [0] := by
    simp [genHeader, FPropertyTag.type_name, FPropertyTag.inner_type]
  simp only [genProp, FPropertyTag.name, FPropertyTag.type_name, hgh,
    List.append_assoc] at h
  have hfuel2 : 2 ≤ fuel := by
    simp only [fuelNeedProp, fuelPropCore, if_true] at hfuel
    rw [if_neg (by decide), if_neg (by decide)] at hfuel
    omega
  rw [readProperty, if_neg (by omega),
    if_neg (rem_not_lt h0 hoff h (writeFstring_length_ge (some nm)))]
  rw [readFstring_at h0 hoff (show wfStrOptB (some nm) = true from hnm) h]
  simp only [bindOk]
  rw [if_neg hne]
  have h01 : (0 : Int) ≤ off + ((writeFstring (some nm)).length : Int) := by
    omega
  have hoff1 := off_step h0 hoff h
  have hD1 := drop_advance h0 h
  rw [readFstring_at h01 hoff1 (by decide) hD1]
  simp only [bindOk]
  have h02 : (0 : Int) ≤ off + ((writeFstring (some nm)).length : Int) +
      ((writeFstring (some tnArray)).length : Int) := by omega
  have hoff2 := off_step h01 hoff1 hD1
  have hD2 := drop_advance h01 hD1
  rw [readInt32_at h02 hoff2 hD2 (by omega) (by push_cast; omega)]
  simp only [bindOk]
  have h03 : (0 : Int) ≤ off + ((writeFstring (some nm)).length : Int) +
      ((writeFstring (some tnArray)).length : Int) + 4 := by omega
  have hoff3 := off_step h02 hoff2 hD2
  have hD3 := drop_advance h02 hD2
  rw [int32LE_length] at hoff3 hD3
  push_cast at hoff3 hD3
  rw [readInt32_at h03 hoff3 hD3 hidx1 hidx2]
  simp only [bindOk, if_true]
  have h04 : (0 : Int) ≤ off + ((writeFstring (some nm)).length : Int) +
      ((writeFstring (some tnArray)).length : Int) + 4 + 4 := by omega
  have hoff4 := off_step h03 hoff3 hD3
  have hD4 := drop_advance h03 hD3
  rw [int32LE_length] at hoff4 hD4
  push_cast at hoff4 hD4
  rw [readFstring_at h04 hoff4 (by decide) hD4]
  simp only [bindOk]
  have h05 : (0 : Int) ≤ off + ((writeFstring (some nm)).length : Int) +
      ((writeFstring (some tnArray)).length : Int) + 4 + 4 +
      ((writeFstring (some tnFloat)).length : Int) := by omega
  have hoff5 := off_step h04 hoff4 hD4
  have hD5 := drop_advance h04 hD4
  rw [readByte_at h05 hoff5 (by simpa using hD5)]
  simp only [bindOk]
  rw [readArrayValue, if_neg (by omega)]
  have h06 : (0 : Int) ≤ off + ((writeFstring (some nm)).length : Int) +
      ((writeFstring (some tnArray)).length : Int) + 4 + 4 +
      ((writeFstring (some tnFloat)).length : Int) + 1 := by omega
  have hoff6 : off + ((writeFstring (some nm)).length : Int) +
      ((writeFstring (some tnArray)).length : Int) + 4 + 4 +
      ((writeFstring (some tnFloat)).length : Int) + 1 ≤ (d.length : Int) := by
    have hq := off_step h05 hoff5 (show List.drop (off +
      ((writeFstring (some nm)).length : Int) +
      ((writeFstring (some tnArray)).length : Int) + 4 + 4 +
      ((writeFstring (some tnFloat)).length : Int)).toNat d =
        [0] ++ (propValueBytes (.mk nm (some tnArray) (.floatList l)
          (some tnFloat) Option.none Option.none Option.none []) ++ tail)
        from hD5)
    simp at hq
    omega
  have hD6 : List.drop (off + ((writeFstring (some nm)).length : Int) +
      ((writeFstring (some tnArray)).length : Int) + 4 + 4 +
      ((writeFstring (some tnFloat)).length : Int) + 1).toNat d =
      int32LE (l.length : Int) ++ (l.flatMap f32LE ++ tail) := by
    have hq := drop_advance h05 (show List.drop (off +
      ((writeFstring (some nm)).length : Int) +
      ((writeFstring (some tnArray)).length : Int) + 4 + 4 +
      ((writeFstring (some tnFloat)).length : Int)).toNat d =
        [0] ++ (propValueBytes (.mk nm (some tnArray) (.floatList l)
          (some tnFloat) Option.none Option.none Option.none []) ++ tail)
        from hD5)
    simp only [List.length_cons, List.length_nil, hpv, List.append_assoc] at hq
    push_cast at hq
    exact hq
  rw [readInt32_at h06 hoff6 hD6 (by omega) (by push_cast; omega)]
  simp only [bindOk]
  rw [if_neg (by
      simp only [FPropertyTag.setInnerType, FPropertyTag.inner_type]
      simp),
    if_neg (by
      simp only [FPropertyTag.setInnerType, FPropertyTag.inner_type]
      simp)]
  rw [readSimpleArray,
    if_neg (by
      simp only [FPropertyTag.setInnerType, FPropertyTag.inner_type]
      simp),
    if_pos (by
      simp only [FPropertyTag.setInnerType, FPropertyTag.inner_type])]
  have h07 : (0 : Int) ≤ off + ((writeFstring (some nm)).length : Int) +
      ((writeFstring (some tnArray)).length : Int) + 4 + 4 +
      ((writeFstring (some tnFloat)).length : Int) + 1 + 4 := by omega
  have hoff7 := off_step h06 hoff6 hD6
  have hD7 := drop_advance h06 hD6
  rw [int32LE_length] at hoff7 hD7
  push_cast at hoff7 hD7
  simp only [Int.toNat_natCast]
  rw [iterFloat_at l d tail _ h07 hoff7
    (fun j hj => by have := hall j hj; omega) hD7]
  simp only [bindOk]
  simp only [FPropertyTag.setValue, FPropertyTag.setInnerType,
    Except.ok.injEq, Prod.mk.injEq, Reader.mk.injEq, true_and, genProp,
    FPropertyTag.name, FPropertyTag.type_name, hgh, hpv, List.length_append,
    int32LE_length, List.length_cons, List.length_nil]
  push_cast
  omega

/-- `_read_property` re-parses an ArrayProperty record with Str elements. -/
theorem propParses_arrayStr (nm : PyStr) (l : List (Option PyStr)) :
    PropParses (.mk nm (some tnArray) (.strList l) (some tnStr) Option.none
      Option.none Option.none []) := by
  intro fuel d filler tail off idx hwf hfil hidx1 hidx2 h0 hoff h hfuel
  have hw : wfCore .prop (.mk nm (some tnArray) (.strList l) (some tnStr)
      Option.none Option.none Option.none []) = true := hwf
  rw [wfCore] at hw
  obtain ⟨hwn, hch⟩ := (Bool.and_eq_true _ _).mp hw
  unfold wfNode at hwn
  simp at hwn
  obtain ⟨⟨⟨hnm, hne⟩, hsz⟩, hall, hlen⟩ := hwn
  have hpv : propValueBytes (.mk nm (some tnArray) (.strList l) (some tnStr)
      Option.none Option.none Option.none []) =
      int32LE (l.length : Int) ++ l.flatMap writeFstring := by
    simp [propValueBytes, FPropertyTag.type_name, writeArrayValue,
      FPropertyTag.inner_type, arrayCount, simpleArrayBytes,
      FPropertyTag.value, FPropertyTag.nested]
  have hgh : genHeader (.mk nm (some tnArray) (.strList l) (some tnStr)
      Option.none Option.none Option.none []) filler =
      writeFstring (some tnStr) ++ [0] := by
    simp [genHeader, FPropertyTag.type_name, FPropertyTag.inner_type]
  simp only [genProp, FPropertyTag.name, FPropertyTag.type_name, hgh,
    List.append_assoc] at h
  have hfuel2 : 2 ≤ fuel := by
    simp only [fuelNeedProp, fuelPropCore, if_true] at hfuel
    rw [if_neg (by decide), if_neg (by decide)] at hfuel
    omega
  rw [readProperty, if_neg (by omega),
    if_neg (rem_not_lt h0 hoff h (writeFstring_length_ge (some nm)))]
  rw [readFstring_at h0 hoff (show wfStrOptB (some nm) = true from hnm) h]
  simp only [bindOk]
  rw [if_neg hne]
  have h01 : (0 : Int) ≤ off + ((writeFstring (some nm)).length : Int) := by
    omega
  have hoff1 := off_step h0 hoff h
  have hD1 := drop_advance h0 h
  rw [readFstring_at h01 hoff1 (by decide) hD1]
  simp only [bindOk]
  have h02 : (0 : Int) ≤ off + ((writeFstring (some nm)).length : Int) +
      ((writeFstring (some tnArray)).length : Int) := by omega
  have hoff2 := off_step h01 hoff1 hD1
  have hD2 := drop_advance h01 hD1
  rw [readInt32_at h02 hoff2 hD2 (by omega) (by push_cast; omega)]
  simp only [bindOk]
  have h03 : (0 : Int) ≤ off + ((writeFstring (some nm)).length : Int) +
      ((writeFstring (some tnArray)).length : Int) + 4 := by omega
  have hoff3 := off_step h02 hoff2 hD2
  have hD3 := drop_advance h02 hD2
  rw [int32LE_length] at hoff3 hD3
  push_cast at hoff3 hD3
  rw [readInt32_at h03 hoff3 hD3 hidx1 hidx2]
  simp only [bindOk, if_true]
  have h04 : (0 : Int) ≤ off + ((writeFstring (some nm)).length : Int) +
      ((writeFstring (some tnArray)).length : Int) + 4 + 4 := by omega
  have hoff4 := off_step h03 hoff3 hD3
  have hD4 := drop_advance h03 hD3
  rw [int32LE_length] at hoff4 hD4
  push_cast at hoff4 hD4
  rw [readFstring_at h04 hoff4 (by decide) hD4]
  simp only [bindOk]
  have h05 : (0 : Int) ≤ off + ((writeFstring (some nm)).length : Int) +
      ((writeFstring (some tnArray)).length : Int) + 4 + 4 +
      ((writeFstring (some tnStr)).length : Int) := by omega
  have hoff5 := off_step h04 hoff4 hD4
  have hD5 := drop_advance h04 hD4
  rw [readByte_at h05 hoff5 (by simpa using hD5)]
  simp only [bindOk]
  rw [readArrayValue, if_neg (by omega)]
  have h06 : (0 : Int) ≤ off + ((writeFstring (some nm)).length : Int) +
      ((writeFstring (some tnArray)).length : Int) + 4 + 4 +
      ((writeFstring (some tnStr)).length : Int) + 1 := by omega
  have hoff6 : off + ((writeFstring (some nm)).length : Int) +
      ((writeFstring (some tnArray)).length : Int) + 4 + 4 +
      ((writeFstring (some tnStr)).length : Int) + 1 ≤ (d.length : Int) := by
    have hq := off_step h05 hoff5 (show List.drop (off +
      ((writeFstring (some nm)).length : Int) +
      ((writeFstring (some tnArray)).length : Int) + 4 + 4 +
      ((writeFstring (some tnStr)).length : Int)).toNat d =
        [0] ++ (propValueBytes (.mk nm (some tnArray) (.strList l)
          (some tnStr) Option.none Option.none Option.none []) ++ tail)
        from hD5)
    simp at hq
    omega
  have hD6 : List.drop (off + ((writeFstring (some nm)).length : Int) +
      ((writeFstring (some tnArray)).length : Int) + 4 + 4 +
      ((writeFstring (some tnStr)).length : Int) + 1).toNat d =
      int32LE (l.length : Int) ++ (l.flatMap writeFstring ++ tail) := by
    have hq := drop_advance h05 (show List.drop (off +
      ((writeFstring (some nm)).length : Int) +
      ((writeFstring (some tnArray)).length : Int) + 4 + 4 +
      ((writeFstring (some tnStr)).length : Int)).toNat d =
        [0] ++ (propValueBytes (.mk nm (some tnArray) (.strList l)
          (some tnStr) Option.none Option.none Option.none []) ++ tail)
        from hD5)
    simp only [List.length_cons, List.length_nil, hpv, List.append_assoc] at hq
    push_cast at hq
    exact hq
  rw [readInt32_at h06 hoff6 hD6 (by omega) (by push_cast; omega)]
  simp only [bindOk]
  rw [if_neg (by
      simp only [FPropertyTag.setInnerType, FPropertyTag.inner_type]
      simp),
    if_neg (by
      simp only [FPropertyTag.setInnerType, FPropertyTag.inner_type]
      simp)]
  rw [readSimpleArray,
    if_neg (by
      simp only [FPropertyTag.setInnerType, FPropertyTag.inner_type]
      simp),
    if_neg (by
      simp only [FPropertyTag.setInnerType, FPropertyTag.inner_type]
      simp),
    if_pos (by
      simp only [FPropertyTag.setInnerType, FPropertyTag.inner_type])]
  have h07 : (0 : Int) ≤ off + ((writeFstring (some nm)).length : Int) +
      ((writeFstring (some tnArray)).length : Int) + 4 + 4 +
      ((writeFstring (some tnStr)).length : Int) + 1 + 4 := by omega
  have hoff7 := off_step h06 hoff6 hD6
  have hD7 := drop_advance h06 hD6
  rw [int32LE_length] at hoff7 hD7
  push_cast at hoff7 hD7
  simp only [Int.toNat_natCast]
  rw [iterFstr_at l d tail _ h07 hoff7 (fun j hj => hall j hj) hD7]
  simp only [bindOk]
  simp only [FPropertyTag.setValue, FPropertyTag.setInnerType,
    Except.ok.injEq, Prod.mk.injEq, Reader.mk.injEq, true_and, genProp,
    FPropertyTag.name, FPropertyTag.type_name, hgh, hpv, List.length_append,
    int32LE_length, List.length_cons, List.length_nil]
  push_cast
  omega

/-- `_read_property` re-parses a ByteProperty-element ArrayProperty record (a raw byte dump). -/
theorem propParses_arrayByte (nm : PyStr) (l : List Byte) :
    PropParses (.mk nm (some tnArray) (.byteList l) (some tnByte) Option.none
      Option.none Option.none []) := by
  intro fuel d filler tail off idx hwf hfil hidx1 hidx2 h0 hoff h hfuel
  have hw : wfCore .prop (.mk nm (some tnArray) (.byteList l) (some tnByte)
      Option.none Option.none Option.none []) = true := hwf
  rw [wfCore] at hw
  obtain ⟨hwn, hch⟩ := (Bool.and_eq_true _ _).mp hw
  unfold wfNode at hwn
  simp at hwn
  obtain ⟨⟨⟨hnm, hne⟩, hsz⟩, hall, hlen⟩ := hwn
  have hpv : propValueBytes (.mk nm (some tnArray) (.byteList l) (some tnByte)
      Option.none Option.none Option.none []) =
      int32LE (l.length : Int) ++ l := by
    simp [propValueBytes, FPropertyTag.type_name, writeArrayValue,
      FPropertyTag.inner_type, arrayCount, simpleArrayBytes,
      FPropertyTag.value, FPropertyTag.nested]
  have hgh : genHeader (.mk nm (some tnArray) (.byteList l) (some tnByte)
      Option.none Option.none Option.none []) filler =
      writeFstring (some tnByte) ++ [0] := by
    simp [genHeader, FPropertyTag.type_name, FPropertyTag.inner_type]
  simp only [genProp, FPropertyTag.name, FPropertyTag.type_name, hgh,
    List.append_assoc] at h
  have hfuel2 : 2 ≤ fuel := by
    simp only [fuelNeedProp, fuelPropCore, if_true] at hfuel
    rw [if_neg (by decide), if_neg (by decide)] at hfuel
    omega
  rw [readProperty, if_neg (by omega),
    if_neg (rem_not_lt h0 hoff h (writeFstring_length_ge (some nm)))]
  rw [readFstring_at h0 hoff (show wfStrOptB (some nm) = true from hnm) h]
  simp only [bindOk]
  rw [if_neg hne]
  have h01 : (0 : Int) ≤ off + ((writeFstring (some nm)).length : Int) := by
    omega
  have hoff1 := off_step h0 hoff h
  have hD1 := drop_advance h0 h
  rw [readFstring_at h01 hoff1 (by decide) hD1]
  simp only [bindOk]
  have h02 : (0 : Int) ≤ off + ((writeFstring (some nm)).length : Int) +
      ((writeFstring (some tnArray)).length : Int) := by omega
  have hoff2 := off_step h01 hoff1 hD1
  have hD2 := drop_advance h01 hD1
  rw [readInt32_at h02 hoff2 hD2 (by omega) (by push_cast; omega)]
  simp only [bindOk]
  have h03 : (0 : Int) ≤ off + ((writeFstring (some nm)).length : Int) +
      ((writeFstring (some tnArray)).length : Int) + 4 := by omega
  have hoff3 := off_step h02 hoff2 hD2
  have hD3 := drop_advance h02 hD2
  rw [int32LE_length] at hoff3 hD3
  push_cast at hoff3 hD3
  rw [readInt32_at h03 hoff3 hD3 hidx1 hidx2]
  simp only [bindOk, if_true]
  have h04 : (0 : Int) ≤ off + ((writeFstring (some nm)).length : Int) +
      ((writeFstring (some tnArray)).length : Int) + 4 + 4 := by omega
  have hoff4 := off_step h03 hoff3 hD3
  have hD4 := drop_advance h03 hD3
  rw [int32LE_length] at hoff4 hD4
  push_cast at hoff4 hD4
  rw [readFstring_at h04 hoff4 (by decide) hD4]
  simp only [bindOk]
  have h05 : (0 : Int) ≤ off + ((writeFstring (some nm)).length : Int) +
      ((writeFstring (some tnArray)).length : Int) + 4 + 4 +
      ((writeFstring (some tnByte)).length : Int) := by omega
  have hoff5 := off_step h04 hoff4 hD4
  have hD5 := drop_advance h04 hD4
  rw [readByte_at h05 hoff5 (by simpa using hD5)]
  simp only [bindOk]
  rw [readArrayValue, if_neg (by omega)]
  have h06 : (0 : Int) ≤ off + ((writeFstring (some nm)).length : Int) +
      ((writeFstring (some tnArray)).length : Int) + 4 + 4 +
      ((writeFstring (some tnByte)).length : Int) + 1 := by omega
  have hoff6 : off + ((writeFstring (some nm)).length : Int) +
      ((writeFstring (some tnArray)).length : Int) + 4 + 4 +
      ((writeFstring (some tnByte)).length : Int) + 1 ≤ (d.length : Int) := by
    have hq := off_step h05 hoff5 (show List.drop (off +
      ((writeFstring (some nm)).length : Int) +
      ((writeFstring (some tnArray)).length : Int) + 4 + 4 +
      ((writeFstring (some tnByte)).length : Int)).toNat d =
        [0] ++ (propValueBytes (.mk nm (some tnArray) (.byteList l)
          (some tnByte) Option.none Option.none Option.none []) ++ tail)
        from hD5)
    simp at hq
    omega
  have hD6 : List.drop (off + ((writeFstring (some nm)).length : Int) +
      ((writeFstring (some tnArray)).length : Int) + 4 + 4 +
      ((writeFstring (some tnByte)).length : Int) + 1).toNat d =
      int32LE (l.length : Int) ++ (l ++ tail) := by
    have hq := drop_advance h05 (show List.drop (off +
      ((writeFstring (some nm)).length : Int) +
      ((writeFstring (some tnArray)).length : Int) + 4 + 4 +
      ((writeFstring (some tnByte)).length : Int)).toNat d =
        [0] ++ (propValueBytes (.mk nm (some tnArray) (.byteList l)
          (some tnByte) Option.none Option.none Option.none []) ++ tail)
        from hD5)
    simp only [List.length_cons, List.length_nil, hpv, List.append_assoc] at hq
    push_cast at hq
    exact hq
  rw [readInt32_at h06 hoff6 hD6 (by omega) (by push_cast; omega)]
  simp only [bindOk]
  rw [if_neg (by
      simp only [FPropertyTag.setInnerType, FPropertyTag.inner_type]
      simp),
    if_pos (by
      simp only [FPropertyTag.setInnerType, FPropertyTag.inner_type])]
  have h07 : (0 : Int) ≤ off + ((writeFstring (some nm)).length : Int) +
      ((writeFstring (some tnArray)).length : Int) + 4 + 4 +
      ((writeFstring (some tnByte)).length : Int) + 1 + 4 := by omega
  have hoff7 := off_step h06 hoff6 hD6
  have hD7 := drop_advance h06 hD6
  rw [int32LE_length] at hoff7 hD7
  push_cast at hoff7 hD7
  rw [readBytes_at h07 hoff7 hD7 rfl]
  simp only [bindOk]
  simp only [FPropertyTag.setValue, FPropertyTag.setInnerType,
    Except.ok.injEq, Prod.mk.injEq, Reader.mk.injEq, true_and, genProp,
    FPropertyTag.name, FPropertyTag.type_name, hgh, hpv, List.length_append,
    int32LE_length, List.length_cons, List.length_nil]
  push_cast
  omega

/-- `_read_property` re-parses a struct-element ArrayProperty record
(prototype tag plus element bodies), given that every property nested in an
element re-parses. -/
theorem propParses_arrayStruct (nm en s2 : PyStr) (ns : List FPropertyTag)
    (hmem : ∀ e ∈ ns, ∀ q ∈ e.nested, PropParses q) :
    PropParses (.mk nm (some tnArray) .none (some tnStruct) (some s2)
      Option.none (some en) ns) := by
  intro fuel d filler tail off idx hwf hfil hidx1 hidx2 h0 hoff h hfuel
  have hw : wfCore .prop (.mk nm (some tnArray) .none (some tnStruct)
      (some s2) Option.none (some en) ns) = true := hwf
  rw [wfCore] at hw
  obtain ⟨hwn, hch⟩ := (Bool.and_eq_true _ _).mp hw
  have hwns : wfListCore (.elem en (some s2)) ns = true := by
    simpa [childSpec, FPropertyTag.type_name, FPropertyTag.inner_type,
      FPropertyTag.elem_name, FPropertyTag.struct_type] using hch
  unfold wfNode at hwn
  simp at hwn
  obtain ⟨⟨⟨hnm, hne⟩, hsz⟩, ⟨⟨⟨⟨henw, hennil⟩, henne⟩, hs2w⟩, hs2nil⟩, hlen⟩ :=
    hwn
  have hproto : protoOf (.mk nm (some tnArray) .none (some tnStruct) (some s2)
      Option.none (some en) ns) =
      .mk en (some tnStruct) .none Option.none (some s2) Option.none
        Option.none [] := by
    rcases ns with _ | ⟨q, qs⟩ <;>
      simp [protoOf, pyOr, pyOrOpt, FPropertyTag.elem_name,
        FPropertyTag.struct_type, FPropertyTag.name, FPropertyTag.nested,
        hennil, hs2nil]
  have hpv : propValueBytes (.mk nm (some tnArray) .none (some tnStruct)
      (some s2) Option.none (some en) ns) =
      int32LE (ns.length : Int) ++
        (writeProtoTag (.mk en (some tnStruct) .none Option.none (some s2)
          Option.none Option.none []) (elemsData ns).length ++
          elemsData ns) := by
    simp [propValueBytes, FPropertyTag.type_name, writeArrayValue,
      FPropertyTag.inner_type, arrayCount, FPropertyTag.nested, hproto]
  have hed_lt : (elemsData ns).length < 2 ^ 31 := by
    have hq := hsz
    rw [hpv] at hq
    simp [List.length_append, int32LE_length] at hq
    omega
  have hgh : genHeader (.mk nm (some tnArray) .none (some tnStruct) (some s2)
      Option.none (some en) ns) filler =
      writeFstring (some tnStruct) ++ [0] := by
    simp [genHeader, FPropertyTag.type_name, FPropertyTag.inner_type]
  simp only [genProp, FPropertyTag.name, FPropertyTag.type_name, hgh,
    List.append_assoc] at h
  have hfuel2 : 3 + fuelListCore₂ WMode.elem ns ≤ fuel := by
    simp [fuelNeedProp, fuelPropCore] at hfuel
    omega
  rw [readProperty, if_neg (by omega),
    if_neg (rem_not_lt h0 hoff h (writeFstring_length_ge (some nm)))]
  rw [readFstring_at h0 hoff (show wfStrOptB (some nm) = true from hnm) h]
  simp only [bindOk]
  rw [if_neg hne]
  have h01 : (0 : Int) ≤ off + ((writeFstring (some nm)).length : Int) := by
    omega
  have hoff1 := off_step h0 hoff h
  have hD1 := drop_advance h0 h
  rw [readFstring_at h01 hoff1 (by decide) hD1]
  simp only [bindOk]
  have h02 : (0 : Int) ≤ off + ((writeFstring (some nm)).length : Int) +
      ((writeFstring (some tnArray)).length : Int) := by omega
  have hoff2 := off_step h01 hoff1 hD1
  have hD2 := drop_advance h01 hD1
  rw [readInt32_at h02 hoff2 hD2 (by omega) (by push_cast; omega)]
  simp only [bindOk]
  have h03 : (0 : Int) ≤ off + ((writeFstring (some nm)).length : Int) +
      ((writeFstring (some tnArray)).length : Int) + 4 := by omega
  have hoff3 := off_step h02 hoff2 hD2
  have hD3 := drop_advance h02 hD2
  rw [int32LE_length] at hoff3 hD3
  push_cast at hoff3 hD3
  rw [readInt32_at h03 hoff3 hD3 hidx1 hidx2]
  simp only [bindOk, if_true]
  have h04 : (0 : Int) ≤ off + ((writeFstring (some nm)).length : Int) +
      ((writeFstring (some tnArray)).length : Int) + 4 + 4 := by omega
  have hoff4 := off_step h03 hoff3 hD3
  have hD4 := drop_advance h03 hD3
  rw [int32LE_length] at hoff4 hD4
  push_cast at hoff4 hD4
  rw [readFstring_at h04 hoff4 (by decide) hD4]
  simp only [bindOk]
  have h05 : (0 : Int) ≤ off + ((writeFstring (some nm)).length : Int) +
      ((writeFstring (some tnArray)).length : Int) + 4 + 4 +
      ((writeFstring (some tnStruct)).length : Int) := by omega
  have hoff5 := off_step h04 hoff4 hD4
  have hD5 := drop_advance h04 hD4
  rw [readByte_at h05 hoff5 (by simpa using hD5)]
  simp only [bindOk]
  rw [readArrayValue, if_neg (by omega)]
  have h06 : (0 : Int) ≤ off + ((writeFstring (some nm)).length : Int) +
      ((writeFstring (some tnArray)).length : Int) + 4 + 4 +
      ((writeFstring (some tnStruct)).length : Int) + 1 := by omega
  have hoff6 : off + ((writeFstring (some nm)).length : Int) +
      ((writeFstring (some tnArray)).length : Int) + 4 + 4 +
      ((writeFstring (some tnStruct)).length : Int) + 1 ≤ (d.length : Int) := by
    have hq := off_step h05 hoff5 (show List.drop (off +
      ((writeFstring (some nm)).length : Int) +
      ((writeFstring (some tnArray)).length : Int) + 4 + 4 +
      ((writeFstring (some tnStruct)).length : Int)).toNat d =
        [0] ++ (propValueBytes (.mk nm (some tnArray) .none (some tnStruct)
          (some s2) Option.none (some en) ns) ++ tail) from hD5)
    simp at hq
    omega
  have hD6 : List.drop (off + ((writeFstring (some nm)).length : Int) +
      ((writeFstring (some tnArray)).length : Int) + 4 + 4 +
      ((writeFstring (some tnStruct)).length : Int) + 1).toNat d =
      int32LE (ns.length : Int) ++
        (writeProtoTag (.mk en (some tnStruct) .none Option.none (some s2)
          Option.none Option.none []) (elemsData ns).length ++
          (elemsData ns ++ tail)) := by
    have hq := drop_advance h05 (show List.drop (off +
      ((writeFstring (some nm)).length : Int) +
      ((writeFstring (some tnArray)).length : Int) + 4 + 4 +
      ((writeFstring (some tnStruct)).length : Int)).toNat d =
        [0] ++ (propValueBytes (.mk nm (some tnArray) .none (some tnStruct)
          (some s2) Option.none (some en) ns) ++ tail) from hD5)
    simp only [List.length_cons, List.length_nil, hpv, List.append_assoc] at hq
    push_cast at hq
    exact hq
  rw [readInt32_at h06 hoff6 hD6 (by omega) (by push_cast; omega)]
  simp only [bindOk]
  rw [if_pos (by
    simp only [FPropertyTag.setInnerType, FPropertyTag.inner_type])]
  have h07 : (0 : Int) ≤ off + ((writeFstring (some nm)).length : Int) +
      ((writeFstring (some tnArray)).length : Int) + 4 + 4 +
      ((writeFstring (some tnStruct)).length : Int) + 1 + 4 := by omega
  have hoff7 := off_step h06 hoff6 hD6
  have hD7 := drop_advance h06 hD6
  rw [int32LE_length] at hoff7 hD7
  push_cast at hoff7 hD7
  rw [readPropertyTag_at h07 hoff7 henw henne hs2w hed_lt hD7]
  simp only [bindOk]
  have h08 : (0 : Int) ≤ off + ((writeFstring (some nm)).length : Int) +
      ((writeFstring (some tnArray)).length : Int) + 4 + 4 +
      ((writeFstring (some tnStruct)).length : Int) + 1 + 4 +
      ((writeProtoTag (.mk en (some tnStruct) .none Option.none (some s2)
        Option.none Option.none []) (elemsData ns).length).length : Int) := by
    omega
  have hoff8 := off_step h07 hoff7 hD7
  have hD8 := drop_advance h07 hD7
  simp only [Int.toNat_natCast]
  rw [elemsParses ns en s2
    (.mk en (some tnStruct) .none Option.none (some s2) Option.none
      Option.none []) hmem rfl rfl (fuel - 1 - 1) d tail _ hwns h08 hoff8 hD8
    (by simp only [fuelNeedElems]; omega)]
  simp only [bindOk]
  simp only [FPropertyTag.setInnerType, FPropertyTag.setElemName,
    FPropertyTag.setStructType, FPropertyTag.setNested, FPropertyTag.name,
    FPropertyTag.struct_type, Except.ok.injEq, Prod.mk.injEq,
    Reader.mk.injEq, true_and, genProp, FPropertyTag.type_name, hgh, hpv,
    List.length_append, int32LE_length, List.length_cons, List.length_nil]
  push_cast
  omega

/-- Every well-formed property re-parses: the dispatcher over the property's
type tag, by strong induction on the size of the property tree. -/
theorem propParses_aux :
    ∀ (n : Nat) (p : FPropertyTag), sizeOf p ≤ n → PropParses p := by
  intro n
  induction n with
  | zero =>
    intro p hp
    obtain ⟨nm, t, v, it, st, et, el, ns⟩ := p
    simp only [FPropertyTag.mk.sizeOf_spec] at hp
    omega
  | succ n ih =>
    intro p hp
    obtain ⟨nm, t, v, it, st, et, el, ns⟩ := p
    simp only [FPropertyTag.mk.sizeOf_spec] at hp
    intro fuel d filler tail off idx hwf hfil hidx1 hidx2 h0 hoff h hfuel
    have hw : wfCore .prop (.mk nm t v it st et el ns) = true := hwf
    rw [wfCore] at hw
    obtain ⟨hwn, hch⟩ := (Bool.and_eq_true _ _).mp hw
    unfold wfNode at hwn
    simp only [] at hwn
    by_cases htInt : t = some tnInt
    · subst htInt
      rw [if_pos rfl] at hwn
      simp only [Bool.and_eq_true, decide_eq_true_eq] at hwn
      obtain ⟨-, ⟨⟨⟨⟨hmv, hit⟩, hst⟩, het⟩, hel⟩, hns⟩ := hwn
      subst hit; subst hst; subst het; subst hel; subst hns
      rcases v with _ | i | fb | db | b | sv | by1 | by2 | il | fl | sl | bl2 |
        ⟨x, y, z⟩ | ⟨x, y⟩ | ⟨x, y, z⟩ | ⟨x, y, z, w⟩ | ⟨x, y, z, w⟩ |
        ⟨x, y, z, w⟩ | gb <;> simp at hmv
      exact propParses_int nm i fuel d filler tail off idx hwf hfil hidx1
        hidx2 h0 hoff h hfuel
    by_cases htU : t = some tnUInt32
    · subst htU
      rw [if_neg (by decide), if_pos rfl] at hwn
      simp only [Bool.and_eq_true, decide_eq_true_eq] at hwn
      obtain ⟨-, ⟨⟨⟨⟨hmv, hit⟩, hst⟩, het⟩, hel⟩, hns⟩ := hwn
      subst hit; subst hst; subst het; subst hel; subst hns
      rcases v with _ | i | fb | db | b | sv | by1 | by2 | il | fl | sl | bl2 |
        ⟨x, y, z⟩ | ⟨x, y⟩ | ⟨x, y, z⟩ | ⟨x, y, z, w⟩ | ⟨x, y, z, w⟩ |
        ⟨x, y, z, w⟩ | gb <;> simp at hmv
      exact propParses_uint32 nm i fuel d filler tail off idx hwf hfil hidx1
        hidx2 h0 hoff h hfuel
    by_cases htI64 : t = some tnInt64
    · subst htI64
      rw [if_neg (by decide), if_neg (by decide), if_pos rfl] at hwn
      simp only [Bool.and_eq_true, decide_eq_true_eq] at hwn
      obtain ⟨-, ⟨⟨⟨⟨hmv, hit⟩, hst⟩, het⟩, hel⟩, hns⟩ := hwn
      subst hit; subst hst; subst het; subst hel; subst hns
      rcases v with _ | i | fb | db | b | sv | by1 | by2 | il | fl | sl | bl2 |
        ⟨x, y, z⟩ | ⟨x, y⟩ | ⟨x, y, z⟩ | ⟨x, y, z, w⟩ | ⟨x, y, z, w⟩ |
        ⟨x, y, z, w⟩ | gb <;> simp at hmv
      exact propParses_int64 nm i fuel d filler tail off idx hwf hfil hidx1
        hidx2 h0 hoff h hfuel
    by_cases htF : t = some tnFloat
    · subst htF
      rw [if_neg (by decide), if_neg (by decide), if_neg (by decide),
        if_pos rfl] at hwn
      simp only [Bool.and_eq_true, decide_eq_true_eq] at hwn
      obtain ⟨-, ⟨⟨⟨⟨hmv, hit⟩, hst⟩, het⟩, hel⟩, hns⟩ := hwn
      subst hit; subst hst; subst het; subst hel; subst hns
      rcases v with _ | i | fb | db | b | sv | by1 | by2 | il | fl | sl | bl2 |
        ⟨x, y, z⟩ | ⟨x, y⟩ | ⟨x, y, z⟩ | ⟨x, y, z, w⟩ | ⟨x, y, z, w⟩ |
        ⟨x, y, z, w⟩ | gb <;> simp at hmv
      exact propParses_float nm fb fuel d filler tail off idx hwf hfil hidx1
        hidx2 h0 hoff h hfuel
    by_cases htD : t = some tnDouble
    · subst htD
      rw [if_neg (by decide), if_neg (by decide), if_neg (by decide),
        if_neg (by decide), if_pos rfl] at hwn
      simp only [Bool.and_eq_true, decide_eq_true_eq] at hwn
      obtain ⟨-, ⟨⟨⟨⟨hmv, hit⟩, hst⟩, het⟩, hel⟩, hns⟩ := hwn
      subst hit; subst hst; subst het; subst hel; subst hns
      rcases v with _ | i | fb | db | b | sv | by1 | by2 | il | fl | sl | bl2 |
        ⟨x, y, z⟩ | ⟨x, y⟩ | ⟨x, y, z⟩ | ⟨x, y, z, w⟩ | ⟨x, y, z, w⟩ |
        ⟨x, y, z, w⟩ | gb <;> simp at hmv
      exact propParses_double nm db fuel d filler tail off idx hwf hfil hidx1
        hidx2 h0 hoff h hfuel
    by_cases htB : t = some tnBool
    · subst htB
      rw [if_neg (by decide), if_neg (by decide), if_neg (by decide),
        if_neg (by decide), if_neg (by decide), if_pos rfl] at hwn
      simp only [Bool.and_eq_true, decide_eq_true_eq] at hwn
      obtain ⟨-, ⟨⟨⟨⟨hmv, hit⟩, hst⟩, het⟩, hel⟩, hns⟩ := hwn
      subst hit; subst hst; subst het; subst hel; subst hns
      rcases v with _ | i | fb | db | b | sv | by1 | by2 | il | fl | sl | bl2 |
        ⟨x, y, z⟩ | ⟨x, y⟩ | ⟨x, y, z⟩ | ⟨x, y, z, w⟩ | ⟨x, y, z, w⟩ |
        ⟨x, y, z, w⟩ | gb <;> simp at hmv
      exact propParses_bool nm b fuel d filler tail off idx hwf hfil hidx1
        hidx2 h0 hoff h hfuel
    by_cases htS : t = some tnStr
    · subst htS
      rw [if_neg (by decide), if_neg (by decide), if_neg (by decide),
        if_neg (by decide), if_neg (by decide), if_neg (by decide),
        if_pos (Or.inl rfl)] at hwn
      simp only [Bool.and_eq_true, decide_eq_true_eq] at hwn
      obtain ⟨-, ⟨⟨⟨⟨hmv, hit⟩, hst⟩, het⟩, hel⟩, hns⟩ := hwn
      subst hit; subst hst; subst het; subst hel; subst hns
      rcases v with _ | i | fb | db | b | sv | by1 | by2 | il | fl | sl | bl2 |
        ⟨x, y, z⟩ | ⟨x, y⟩ | ⟨x, y, z⟩ | ⟨x, y, z, w⟩ | ⟨x, y, z, w⟩ |
        ⟨x, y, z, w⟩ | gb <;> simp at hmv
      · exact propParses_str_none nm fuel d filler tail off idx hwf hfil
          hidx1 hidx2 h0 hoff h hfuel
      · exact propParses_str_some nm sv fuel d filler tail off idx hwf hfil
          hidx1 hidx2 h0 hoff h hfuel
    by_cases htN : t = some tnName
    · subst htN
      rw [if_neg (by decide), if_neg (by decide), if_neg (by decide),
        if_neg (by decide), if_neg (by decide), if_neg (by decide),
        if_pos (Or.inr rfl)] at hwn
      simp only [Bool.and_eq_true, decide_eq_true_eq] at hwn
      obtain ⟨-, ⟨⟨⟨⟨hmv, hit⟩, hst⟩, het⟩, hel⟩, hns⟩ := hwn
      subst hit; subst hst; subst het; subst hel; subst hns
      rcases v with _ | i | fb | db | b | sv | by1 | by2 | il | fl | sl | bl2 |
        ⟨x, y, z⟩ | ⟨x, y⟩ | ⟨x, y, z⟩ | ⟨x, y, z, w⟩ | ⟨x, y, z, w⟩ |
        ⟨x, y, z, w⟩ | gb <;> simp at hmv
      · exact propParses_name_none nm fuel d filler tail off idx hwf hfil
          hidx1 hidx2 h0 hoff h hfuel
      · exact propParses_name_some nm sv fuel d filler tail off idx hwf hfil
          hidx1 hidx2 h0 hoff h hfuel
    by_cases htE : t = some tnEnum
    · subst htE
      rw [if_neg (by decide), if_neg (by decide), if_neg (by decide),
        if_neg (by decide), if_neg (by decide), if_neg (by decide),
        if_neg (by decide), if_pos rfl] at hwn
      simp only [Bool.and_eq_true, decide_eq_true_eq] at hwn
      obtain ⟨-, ⟨⟨⟨⟨-, hmv⟩, hit⟩, hst⟩, hel⟩, hns⟩ := hwn
      subst hit; subst hst; subst hel; subst hns
      rcases v with _ | i | fb | db | b | sv | by1 | by2 | il | fl | sl | bl2 |
        ⟨x, y, z⟩ | ⟨x, y⟩ | ⟨x, y, z⟩ | ⟨x, y, z, w⟩ | ⟨x, y, z, w⟩ |
        ⟨x, y, z, w⟩ | gb <;> simp at hmv
      · exact propParses_enum_none nm et fuel d filler tail off idx hwf hfil
          hidx1 hidx2 h0 hoff h hfuel
      · exact propParses_enum_some nm et sv fuel d filler tail off idx hwf
          hfil hidx1 hidx2 h0 hoff h hfuel
    by_cases htSt : t = some tnStruct
    · subst htSt
      rw [if_neg (by decide), if_neg (by decide), if_neg (by decide),
        if_neg (by decide), if_neg (by decide), if_neg (by decide),
        if_neg (by decide), if_neg (by decide), if_pos rfl] at hwn
      simp only [Bool.and_eq_true, decide_eq_true_eq] at hwn
      obtain ⟨-, ⟨⟨hms, hit⟩, het⟩, hel⟩ := hwn
      subst hit; subst het; subst hel
      rcases st with _ | s
      · simp at hms
      simp only [] at hms
      by_cases hfc : isFixedCore (some s) = true
      · rw [if_pos hfc] at hms
        simp only [Bool.and_eq_true, decide_eq_true_eq] at hms
        obtain ⟨-, -, hns⟩ := hms
        subst hns
        exact propParses_structFixed nm s v hfc fuel d filler tail off idx
          hwf hfil hidx1 hidx2 h0 hoff h hfuel
      · rw [if_neg hfc] at hms
        simp only [Bool.and_eq_true] at hms
        obtain ⟨-, hmv⟩ := hms
        rcases v with _ | i | fb | db | b | sv | by1 | by2 | il | fl | sl |
          bl2 | ⟨x, y, z⟩ | ⟨x, y⟩ | ⟨x, y, z⟩ | ⟨x, y, z, w⟩ |
          ⟨x, y, z, w⟩ | ⟨x, y, z, w⟩ | gb <;> simp at hmv
        have hfc2 : isFixedCore (some s) = false := by
          cases hq : isFixedCore (some s) with
          | true => exact absurd hq hfc
          | false => rfl
        have hmem : ∀ q ∈ ns, PropParses q := by
          intro q hq
          have hq2 := List.sizeOf_lt_of_mem hq
          exact ih q (by omega)
        exact propParses_structProps nm s ns hfc2 hmem fuel d filler tail off
          idx hwf hfil hidx1 hidx2 h0 hoff h hfuel
    by_cases htA : t = some tnArray
    · subst htA
      rw [if_neg (by decide), if_neg (by decide), if_neg (by decide),
        if_neg (by decide), if_neg (by decide), if_neg (by decide),
        if_neg (by decide), if_neg (by decide), if_neg (by decide),
        if_pos rfl] at hwn
      simp only [Bool.and_eq_true, decide_eq_true_eq] at hwn
      obtain ⟨-, hinner⟩ := hwn
      by_cases hitS : it = some tnStruct
      · subst hitS
        rw [if_pos rfl] at hinner
        rcases el with _ | en <;> rcases st with _ | s2
        · simp at hinner
        · simp at hinner
        · simp at hinner
        simp only [Bool.and_eq_true, decide_eq_true_eq] at hinner
        obtain ⟨⟨-, hmv⟩, het⟩ := hinner
        subst het
        rcases v with _ | i | fb | db | b | sv | by1 | by2 | il | fl | sl |
          bl2 | ⟨x, y, z⟩ | ⟨x, y⟩ | ⟨x, y, z⟩ | ⟨x, y, z, w⟩ |
          ⟨x, y, z, w⟩ | ⟨x, y, z, w⟩ | gb <;> simp at hmv
        have hmem : ∀ e ∈ ns, ∀ q ∈ e.nested, PropParses q := by
          intro e he q hqe
          have h1 := List.sizeOf_lt_of_mem he
          have h2 := List.sizeOf_lt_of_mem hqe
          have h3 := nested_sizeOf_lt e
          exact ih q (by omega)
        exact propParses_arrayStruct nm en s2 ns hmem fuel d filler tail off
          idx hwf hfil hidx1 hidx2 h0 hoff h hfuel
      by_cases hitB : it = some tnByte
      · subst hitB
        rw [if_neg (by decide), if_pos rfl] at hinner
        simp only [Bool.and_eq_true, decide_eq_true_eq] at hinner
        obtain ⟨⟨⟨⟨hmv, hst⟩, het⟩, hel⟩, hns⟩ := hinner
        subst hst; subst het; subst hel; subst hns
        rcases v with _ | i | fb | db | b | sv | by1 | by2 | il | fl | sl |
          bl2 | ⟨x, y, z⟩ | ⟨x, y⟩ | ⟨x, y, z⟩ | ⟨x, y, z, w⟩ |
          ⟨x, y, z, w⟩ | ⟨x, y, z, w⟩ | gb <;> simp at hmv
        exact propParses_arrayByte nm by2 fuel d filler tail off idx hwf hfil
          hidx1 hidx2 h0 hoff h hfuel
      by_cases hitI : it = some tnInt
      · subst hitI
        rw [if_neg (by decide), if_neg (by decide), if_pos rfl] at hinner
        simp only [Bool.and_eq_true, decide_eq_true_eq] at hinner
        obtain ⟨⟨⟨⟨hmv, hst⟩, het⟩, hel⟩, hns⟩ := hinner
        subst hst; subst het; subst hel; subst hns
        rcases v with _ | i | fb | db | b | sv | by1 | by2 | il | fl | sl |
          bl2 | ⟨x, y, z⟩ | ⟨x, y⟩ | ⟨x, y, z⟩ | ⟨x, y, z, w⟩ |
          ⟨x, y, z, w⟩ | ⟨x, y, z, w⟩ | gb <;> simp at hmv
        exact propParses_arrayInt nm il fuel d filler tail off idx hwf hfil
          hidx1 hidx2 h0 hoff h hfuel
      by_cases hitF : it = some tnFloat
      · subst hitF
        rw [if_neg (by decide), if_neg (by decide), if_neg (by decide),
          if_pos rfl] at hinner
        simp only [Bool.and_eq_true, decide_eq_true_eq] at hinner
        obtain ⟨⟨⟨⟨hmv, hst⟩, het⟩, hel⟩, hns⟩ := hinner
        subst hst; subst het; subst hel; subst hns
        rcases v with _ | i | fb | db | b | sv | by1 | by2 | il | fl | sl |
          bl2 | ⟨x, y, z⟩ | ⟨x, y⟩ | ⟨x, y, z⟩ | ⟨x, y, z, w⟩ |
          ⟨x, y, z, w⟩ | ⟨x, y, z, w⟩ | gb <;> simp at hmv
        exact propParses_arrayFloat nm fl fuel d filler tail off idx hwf hfil
          hidx1 hidx2 h0 hoff h hfuel
      by_cases hitStr : it = some tnStr
      · subst hitStr
        rw [if_neg (by decide), if_neg (by decide), if_neg (by decide),
          if_neg (by decide), if_pos rfl] at hinner
        simp only [Bool.and_eq_true, decide_eq_true_eq] at hinner
        obtain ⟨⟨⟨⟨hmv, hst⟩, het⟩, hel⟩, hns⟩ := hinner
        subst hst; subst het; subst hel; subst hns
        rcases v with _ | i | fb | db | b | sv | by1 | by2 | il | fl | sl |
          bl2 | ⟨x, y, z⟩ | ⟨x, y⟩ | ⟨x, y, z⟩ | ⟨x, y, z, w⟩ |
          ⟨x, y, z, w⟩ | ⟨x, y, z, w⟩ | gb <;> simp at hmv
        exact propParses_arrayStr nm sl fuel d filler tail off idx hwf hfil
          hidx1 hidx2 h0 hoff h hfuel
      rw [if_neg hitS, if_neg hitB, if_neg hitI, if_neg hitF,
        if_neg hitStr] at hinner
      simp at hinner
    rw [if_neg htInt, if_neg htU, if_neg htI64, if_neg htF, if_neg htD,
      if_neg htB, if_neg (not_or.mpr ⟨htS, htN⟩), if_neg htE, if_neg htSt,
      if_neg htA] at hwn
    simp at hwn

/-- Every well-formed property re-parses. -/
theorem propParsesAll (p : FPropertyTag) : PropParses p :=
  propParses_aux (sizeOf p) p le_rfl

/-- `serialize` with trailing zeros is the bare property-list encoding plus
four zero bytes. -/
theorem serialize_true_eq (ps : List FPropertyTag) :
    serialize ps true = writeProperties ps false ++ [0, 0, 0, 0] := by
  simp [serialize, writeProperties, List.append_assoc]

/-- Decoding inverts encoding on well-formed property trees. -/
theorem deserialize_serialize (ps : List FPropertyTag) (hwf : wfList ps) :
    deserialize (serialize ps true) = .ok ps := by
  rw [deserialize]
  have h0 : (0 : Int) ≤ 0 := le_refl 0
  have hoff : (0 : Int) ≤ ((serialize ps true).length : Int) := by
    exact_mod_cast Nat.zero_le _
  have h : List.drop ((0 : Int)).toNat (serialize ps true) =
      writeProperties ps false ++ [0, 0, 0, 0] := by
    rw [serialize_true_eq]; simp
  have hlen : (writeProperties ps false).length ≤ (serialize ps true).length := by
    rw [serialize_true_eq]; simp
  rw [listParses ps (fun p _ => propParsesAll p) ((serialize ps true).length + 1)
    (serialize ps true) [0, 0, 0, 0] 0 hwf h0 hoff h (by
      have h1 := fuelNeedList_le ps
      omega)]
  rfl

/-- A single-property blob — any array index and any 17 struct filler
bytes — decodes to exactly that property. -/
theorem onePropParses (p : FPropertyTag) (idx : Int) (filler : List Byte)
    (hwf : wfProp p) (hfil : filler.length = 17)
    (hidx1 : -(2 ^ 31) ≤ idx) (hidx2 : idx < 2 ^ 31) :
    deserialize (genProp p idx filler ++
      (writeFstring (some strNone) ++ [0, 0, 0, 0])) = .ok [p] := by
  have hglen := genProp_length_ge p idx filler
  have hterm := strNoneTerm_length
  rw [deserialize]
  generalize hd :
    genProp p idx filler ++ (writeFstring (some strNone) ++ [0, 0, 0, 0]) = d
  have hdl : d.length = (genProp p idx filler).length +
      ((writeFstring (some strNone)).length + 4) := by
    rw [← hd]; simp
  have h0 : (0 : Int) ≤ 0 := le_refl 0
  have hoff : (0 : Int) ≤ (d.length : Int) := by exact_mod_cast Nat.zero_le _
  have h : List.drop ((0 : Int)).toNat d =
      genProp p idx filler ++ (writeFstring (some strNone) ++ [0, 0, 0, 0]) := by
    rw [← hd]; simp
  rw [readProperties, if_neg (by omega), if_pos (rem_ge h0 hoff h (by omega))]
  rw [propParsesAll p (d.length + 1 - 1) d filler
    (writeFstring (some strNone) ++ [0, 0, 0, 0]) 0 idx hwf hfil hidx1 hidx2
    h0 hoff h (by
      have h1 := fuelNeedProp_le p
      have h2 := genProp_length_filler p idx filler hfil
      omega)]
  simp only [bindOk]
  rw [if_neg (wfProp_name_ne hwf)]
  have h01 : (0 : Int) ≤ 0 + ((genProp p idx filler).length : Int) := by
    have : (0 : Int) ≤ ((genProp p idx filler).length : Int) := by
      exact_mod_cast Nat.zero_le _
    omega
  have hoff1 := off_step h0 hoff h
  have hD1 := drop_advance h0 h
  rw [readProperties, if_neg (by omega),
    if_pos (rem_ge h01 hoff1 hD1 (by omega))]
  rw [readProperty_sentinel (by omega) h01 hoff1 hD1]
  simp only [bindOk, FPropertyTag.name, if_true]
  rfl

/-- `_read_property` on a record whose type tag is none of the recognized
ones: the per-type dispatch falls through to `_read_simple_value`, which
reads the declared size as opaque bytes — no error is raised. -/
theorem unknownTagParses (nm t : PyStr) (payload : List Byte)
    (hnm : wfStrB nm = true) (hne : nm ≠ strNone) (ht : wfStrB t = true)
    (ht1 : t ≠ tnArray) (ht2 : t ≠ tnStruct) (ht3 : t ≠ tnEnum)
    (ht4 : t ≠ tnMap) (ht5 : t ≠ tnBool) (ht6 : t ≠ tnInt)
    (ht7 : t ≠ tnUInt32) (ht8 : t ≠ tnInt64) (ht9 : t ≠ tnFloat)
    (ht10 : t ≠ tnDouble) (ht11 : t ≠ tnStr) (ht12 : t ≠ tnName)
    (hpl : payload ≠ []) (hplen : payload.length < 2 ^ 31) :
    ∀ (fuel : Nat) (d tail : List Byte) (off : Int),
    fuel ≠ 0 → 0 ≤ off → off ≤ (d.length : Int) →
    List.drop off.toNat d = writeFstring (some nm) ++ (writeFstring (some t) ++
      (int32LE (payload.length : Int) ++ (int32LE 0 ++
        ([0] ++ (payload ++ tail))))) →
    readProperty fuel ⟨d, off⟩ = .ok
      (some (.mk nm (some t) (.bytes payload) Option.none Option.none
        Option.none Option.none []),
       ⟨d, off + ((writeFstring (some nm)).length : Int) +
          ((writeFstring (some t)).length : Int) + 4 + 4 + 1 +
          (payload.length : Int)⟩) := by
  intro fuel d tail off hfz h0 hoff h
  rw [readProperty, if_neg hfz,
    if_neg (rem_not_lt h0 hoff h (writeFstring_length_ge (some nm)))]
  rw [readFstring_at h0 hoff (show wfStrOptB (some nm) = true from hnm) h]
  simp only [bindOk]
  rw [if_neg hne]
  have h01 : (0 : Int) ≤ off + ((writeFstring (some nm)).length : Int) := by
    omega
  have hoff1 := off_step h0 hoff h
  have hD1 := drop_advance h0 h
  rw [readFstring_at h01 hoff1 (show wfStrOptB (some t) = true from ht) hD1]
  simp only [bindOk]
  have h02 : (0 : Int) ≤ off + ((writeFstring (some nm)).length : Int) +
      ((writeFstring (some t)).length : Int) := by omega
  have hoff2 := off_step h01 hoff1 hD1
  have hD2 := drop_advance h01 hD1
  rw [readInt32_at h02 hoff2 hD2 (by omega) (by push_cast; omega)]
  simp only [bindOk]
  have h03 : (0 : Int) ≤ off + ((writeFstring (some nm)).length : Int) +
      ((writeFstring (some t)).length : Int) + 4 := by omega
  have hoff3 := off_step h02 hoff2 hD2
  have hD3 := drop_advance h02 hD2
  rw [int32LE_length] at hoff3 hD3
  push_cast at hoff3 hD3
  rw [readInt32_at h03 hoff3 hD3 (by omega) (by omega)]
  simp only [bindOk]
  rw [if_neg (by simp [ht1]), if_neg (by simp [ht2]), if_neg (by simp [ht3]),
    if_neg (by simp [ht4]), if_neg (by simp [ht5])]
  have h04 : (0 : Int) ≤ off + ((writeFstring (some nm)).length : Int) +
      ((writeFstring (some t)).length : Int) + 4 + 4 := by omega
  have hoff4 := off_step h03 hoff3 hD3
  have hD4 := drop_advance h03 hD3
  rw [int32LE_length] at hoff4 hD4
  push_cast at hoff4 hD4
  rw [readByte_at h04 hoff4 (by simpa using hD4)]
  simp only [bindOk]
  rw [readSimpleValue, if_neg (by simp [ht6]), if_neg (by simp [ht7]),
    if_neg (by simp [ht8]), if_neg (by simp [ht9]), if_neg (by simp [ht10]),
    if_neg (by simp [ht11, ht12]),
    if_pos (show (payload.length : Int) > 0 by
      have := List.length_pos.mpr hpl
      push_cast
      omega)]
  have h05 : (0 : Int) ≤ off + ((writeFstring (some nm)).length : Int) +
      ((writeFstring (some t)).length : Int) + 4 + 4 + 1 := by omega
  have hoff5 : off + ((writeFstring (some nm)).length : Int) +
      ((writeFstring (some t)).length : Int) + 4 + 4 + 1 ≤
      (d.length : Int) := by
    have hq := off_step h04 hoff4 (show List.drop (off +
      ((writeFstring (some nm)).length : Int) +
      ((writeFstring (some t)).length : Int) + 4 + 4).toNat d =
        [0] ++ (payload ++ tail) from hD4)
    simp at hq
    omega
  have hD5 : List.drop (off + ((writeFstring (some nm)).length : Int) +
      ((writeFstring (some t)).length : Int) + 4 + 4 + 1).toNat d =
      payload ++ tail := by
    have hq := drop_advance h04 (show List.drop (off +
      ((writeFstring (some nm)).length : Int) +
      ((writeFstring (some t)).length : Int) + 4 + 4).toNat d =
        [0] ++ (payload ++ tail) from hD4)
    simp only [List.length_cons, List.length_nil] at hq
    push_cast at hq
    exact hq
  rw [readBytes_at h05 hoff5 hD5 rfl]
  simp only [bindOk]
  simp only [FPropertyTag.setValue, Except.ok.injEq, Prod.mk.injEq,
    Reader.mk.injEq, true_and]

/-! ## Concrete instances used by the claim witnesses and counterexamples -/

/-- An IntProperty named `A` with value 7. -/
def exIntProp : FPropertyTag :=
  .mk (lit ("A")) (some tnInt) (.int 7) Option.none Option.none Option.none
    Option.none []

/-- An IntProperty named `B` with value 3. -/
def exIntPropB : FPropertyTag :=
  .mk (lit ("B")) (some tnInt) (.int 3) Option.none Option.none Option.none
    Option.none []

/-- A property-bearing (non-fixed-layout) StructProperty with no children. -/
def exStructProp : FPropertyTag :=
  .mk (lit ("S")) (some tnStruct) .none Option.none (some (lit ("X")))
    Option.none Option.none []

/-- A BoolProperty named `B` with value `true`. -/
def exBoolProp : FPropertyTag :=
  .mk (lit ("B")) (some tnBool) (.bool true) Option.none Option.none
    Option.none Option.none []

/-- A decoded MapProperty record: the reader keeps only the opaque body
bytes. -/
def exMapProp : FPropertyTag :=
  .mk (lit ("M")) (some tnMap) (.bytes [9]) Option.none Option.none
    Option.none Option.none []

/-- The record the decoder builds for an unrecognized primitive type tag. -/
def exUnknownProp : FPropertyTag :=
  .mk (lit ("A")) (some (lit ("ZProperty"))) (.bytes [7]) Option.none
    Option.none Option.none Option.none []

/-- The value-region bytes of `exIntProp`. -/
theorem exIntProp_pv : propValueBytes exIntProp = int32LE 7 := by
  simp only [exIntProp, propValueBytes, FPropertyTag.type_name,
    writeSimpleValue, FPropertyTag.value]
  rw [if_neg (by decide), if_neg (by decide), if_neg (by decide),
    if_neg (by decide)]
  simp only [if_true]

theorem exIntProp_wf : wfProp exIntProp := by
  show wfCore .prop (.mk (lit ("A")) (some tnInt) (.int 7) Option.none
    Option.none Option.none Option.none []) = true
  rw [wfCore]
  refine (Bool.and_eq_true _ _).mpr ⟨?_, by decide⟩
  unfold wfNode
  simp only []
  simp only [if_true]
  rw [show propValueBytes (.mk (lit ("A")) (some tnInt) (.int 7)
    Option.none Option.none Option.none Option.none []) = int32LE 7 from
    exIntProp_pv, int32LE_length]
  decide

/-- The value-region bytes of `exIntPropB`. -/
theorem exIntPropB_pv : propValueBytes exIntPropB = int32LE 3 := by
  simp only [exIntPropB, propValueBytes, FPropertyTag.type_name,
    writeSimpleValue, FPropertyTag.value]
  rw [if_neg (by decide), if_neg (by decide), if_neg (by decide),
    if_neg (by decide)]
  simp only [if_true]

theorem exIntPropB_wf : wfProp exIntPropB := by
  show wfCore .prop (.mk (lit ("B")) (some tnInt) (.int 3) Option.none
    Option.none Option.none Option.none []) = true
  rw [wfCore]
  refine (Bool.and_eq_true _ _).mpr ⟨?_, by decide⟩
  unfold wfNode
  simp only []
  simp only [if_true]
  rw [show propValueBytes (.mk (lit ("B")) (some tnInt) (.int 3)
    Option.none Option.none Option.none Option.none []) = int32LE 3 from
    exIntPropB_pv, int32LE_length]
  decide

/-- The value-region bytes of `exStructProp`: the bare `None` terminator. -/
theorem exStructProp_pv :
    propValueBytes exStructProp = writeFstring (some strNone) := by
  simp only [exStructProp, propValueBytes, FPropertyTag.type_name,
    writeStructValue, FPropertyTag.struct_type, FPropertyTag.nested]
  rw [if_neg (by decide)]
  simp only [if_true]
  rw [if_neg (by decide)]
  simp

theorem exStructProp_wf : wfProp exStructProp := by
  show wfCore .prop (.mk (lit ("S")) (some tnStruct) .none Option.none
    (some (lit ("X"))) Option.none Option.none []) = true
  rw [wfCore]
  refine (Bool.and_eq_true _ _).mpr ⟨?_, ?_⟩
  · unfold wfNode
    simp only []
    rw [if_neg (by decide), if_neg (by decide), if_neg (by decide),
      if_neg (by decide), if_neg (by decide), if_neg (by decide),
      if_neg (by decide), if_neg (by decide)]
    simp only [if_true]
    rw [if_neg (by decide)]
    rw [show propValueBytes (.mk (lit ("S")) (some tnStruct) .none Option.none
        (some (lit ("X"))) Option.none Option.none []) =
        writeFstring (some strNone) from exStructProp_pv, strNoneTerm_length]
    decide
  · rw [show childSpec WfMode.prop (.mk (lit ("S")) (some tnStruct) .none
      Option.none (some (lit ("X"))) Option.none Option.none []) =
      some WfMode.prop from rfl]
    simp only []
    rw [wfListCore]

/-- The value-region bytes of a BoolProperty are empty. -/
theorem exBoolProp_pv : propValueBytes exBoolProp = [] := by
  simp only [exBoolProp, propValueBytes, FPropertyTag.type_name]
  rw [if_neg (by decide), if_neg (by decide), if_neg (by decide)]
  simp only [if_true]

theorem exBoolProp_wf : wfProp exBoolProp := by
  show wfCore .prop (.mk (lit ("B")) (some tnBool) (.bool true) Option.none
    Option.none Option.none Option.none []) = true
  rw [wfCore]
  refine (Bool.and_eq_true _ _).mpr ⟨?_, by decide⟩
  unfold wfNode
  simp only []
  rw [if_neg (by decide), if_neg (by decide), if_neg (by decide),
    if_neg (by decide), if_neg (by decide)]
  simp only [if_true]
  rw [show propValueBytes (.mk (lit ("B")) (some tnBool) (.bool true)
      Option.none Option.none Option.none Option.none []) = [] from
      exBoolProp_pv]
  decide

/-- The one-element list holding `exIntProp` is a well-formed tree. -/
theorem exList_wf : wfList [exIntProp] := by
  show wfListCore .prop [exIntProp] = true
  rw [wfListCore, wfListCore,
    show wfCore .prop exIntProp = true from exIntProp_wf]
  decide

/-! ## The claims -/

/-- C2: for every well-formed property tree `t`, `deserialize (serialize t)`
yields a tree structurally equal to `t` — the same names, type tags, child
order, and scalar values at every node (the trees are equal as values of the
inductive `FPropertyTag`). -/
theorem C2_decode_encode_roundtrip :
    ∀ (t : List FPropertyTag), wfList t → deserialize (serialize t true) = .ok t :=
  fun t h => deserialize_serialize t h

theorem C2_decode_encode_roundtrip_witness :
    wfList [exIntProp] ∧
    deserialize (serialize [exIntProp] true) = .ok [exIntProp] :=
  ⟨exList_wf, C2_decode_encode_roundtrip [exIntProp] exList_wf⟩

/-- C1 (amended): for blobs in the image of the encoder — where padding and
GUID bytes are the literal zeros the reference encoder writes —
`serialize (deserialize b)` equals `b` byte-for-byte.  The original claim's
"arbitrary non-zero GUID bytes" part fails: see the counterexample, where a
non-zero GUID filler is accepted by the decoder but re-encoded as zeros. -/
theorem C1_blob_roundtrip :
    ∀ (t : List FPropertyTag) (b : List Byte), wfList t → b = serialize t true →
    deserialize b = .ok t ∧
      ∀ u, deserialize b = .ok u → serialize u true = b := by
  intro t b hwf hb
  subst hb
  refine ⟨deserialize_serialize t hwf, ?_⟩
  intro u hu
  rw [deserialize_serialize t hwf] at hu
  obtain rfl : t = u := by simpa using hu
  rfl

theorem C1_blob_roundtrip_witness :
    deserialize (serialize [exBoolProp] true) = .ok [exBoolProp] ∧
    ∀ u, deserialize (serialize [exBoolProp] true) = .ok u →
      serialize u true = serialize [exBoolProp] true :=
  C1_blob_roundtrip [exBoolProp] (serialize [exBoolProp] true)
    (by rw [wfList, wfListCore, wfListCore,
          show wfCore .prop exBoolProp = true from exBoolProp_wf]
        decide)
    rfl

/-- The 17 struct filler bytes (16 GUID bytes plus padding) with a leading
one instead of the encoder's zeros. -/
def fillOne : List Byte := 1 :: List.replicate 16 0

/-- C1 counterexample: a struct-property blob whose GUID region holds a
non-zero byte decodes without error, but re-encoding the decoded record
writes zeros there, so `serialize (deserialize b) ≠ b`. -/
theorem C1_guid_not_roundtripped :
    deserialize (genProp exStructProp 0 fillOne ++
      (writeFstring (some strNone) ++ [0, 0, 0, 0])) = .ok [exStructProp] ∧
    serialize [exStructProp] true ≠
      genProp exStructProp 0 fillOne ++
        (writeFstring (some strNone) ++ [0, 0, 0, 0]) := by
  constructor
  · exact onePropParses exStructProp 0 fillOne exStructProp_wf
      (by simp [fillOne]) (by norm_num) (by norm_num)
  · intro heq
    have h1 : serialize [exStructProp] true =
        genProp exStructProp 0 (List.replicate 17 0) ++
          (writeFstring (some strNone) ++ [0, 0, 0, 0]) := by
      rw [serialize_true_eq, writeProperties_cons, writeProperties_nil,
        writeProperty_eq_gen]
      simp [List.append_assoc]
    rw [h1] at heq
    have hgh : ∀ f, genHeader exStructProp f =
        writeFstring (some (lit ("X"))) ++ f := by
      intro f
      simp only [exStructProp, genHeader, FPropertyTag.type_name,
        FPropertyTag.struct_type]
      rw [if_neg (by decide)]
      simp only [if_true]
    simp only [genProp, hgh, List.append_assoc] at heq
    rw [List.append_right_inj, List.append_right_inj, List.append_right_inj,
      List.append_right_inj, List.append_right_inj] at heq
    rw [show (List.replicate 17 (0 : Byte)) = 0 :: List.replicate 16 0 from
      rfl] at heq
    simp only [fillOne] at heq
    simp at heq

/-- C3: the patched 32-bit size field of every written property record is the
byte length of the value region only — the per-type header bytes and the
name/type/size/index preamble are excluded; for a BoolProperty the value
region is empty (size 0) and the value byte plus padding byte live in the
header, after the array-index field. -/
theorem C3_size_field :
    ∀ (p : FPropertyTag),
    writeProperty p = writeFstring (some p.name) ++ (writeFstring p.type_name ++
      (int32LE ((propValueBytes p).length : Int) ++ (int32LE 0 ++
        (propHeaderBytes p ++ propValueBytes p)))) ∧
    (p.type_name = some tnBool → propValueBytes p = [] ∧
      propHeaderBytes p = [if pyTruthy p.value then 1 else 0, 0]) := by
  intro p
  constructor
  · rw [writeProperty_eq_gen]
    simp only [genProp, genHeader_replicate, List.append_assoc]
  · intro hb
    constructor
    · simp only [propValueBytes, hb]
      rw [if_neg (by decide), if_neg (by decide), if_neg (by decide)]
      simp only [if_true]
    · simp only [propHeaderBytes, hb]
      rw [if_neg (by decide), if_neg (by decide), if_neg (by decide)]
      simp only [if_true]

theorem C3_size_field_witness :
    writeProperty exBoolProp = writeFstring (some exBoolProp.name) ++
      (writeFstring exBoolProp.type_name ++
        (int32LE ((propValueBytes exBoolProp).length : Int) ++ (int32LE 0 ++
          (propHeaderBytes exBoolProp ++ propValueBytes exBoolProp)))) ∧
    propValueBytes exBoolProp = [] ∧
    propHeaderBytes exBoolProp = [if pyTruthy exBoolProp.value then 1 else 0, 0] :=
  ⟨(C3_size_field exBoolProp).1, (C3_size_field exBoolProp).2 rfl⟩

/-- C5 (amended): `write_fstring` emits length 0 and no body for `None`; a
positive prefix `len + 1` with raw bytes and a NUL when every code point is
below 0x80 (covering the empty string as prefix 1); otherwise a negative
prefix whose magnitude is the *code-point* count plus one — which equals the
16-bit-unit count plus one exactly for BMP strings, where
`utf16leEncode` yields `2 * len` bytes; and `read_fstring` inverts the
encoding for well-formed (BMP, surrogate-free) strings.  For astral code
points the unit count exceeds the prefix and read-back fails: see the
counterexample. -/
theorem C5_fstring_encoding :
    writeFstring Option.none = int32LE 0 ∧
    (∀ s : PyStr, s.all (fun c => c < 128) = true →
      writeFstring (some s) = int32LE ((s.length : Int) + 1) ++ s ++ [0]) ∧
    (∀ s : PyStr, s.all (fun c => c < 128) = false →
      writeFstring (some s) =
        int32LE (-((s.length : Int) + 1)) ++ utf16leEncode s ++ [0, 0]) ∧
    (∀ s : PyStr, wfStrB s = true → (utf16leEncode s).length = 2 * s.length) ∧
    (∀ (x : Option PyStr) (d tail : List Byte) (off : Int), 0 ≤ off →
      off ≤ (d.length : Int) → wfStrOptB x = true →
      List.drop off.toNat d = writeFstring x ++ tail →
      Reader.readFstring ⟨d, off⟩ =
        .ok (x, ⟨d, off + ((writeFstring x).length : Int)⟩)) := by
  refine ⟨rfl, ?_, ?_, ?_, ?_⟩
  · intro s hall
    simp only [writeFstring]
    rw [if_pos hall]
  · intro s hall
    simp only [writeFstring]
    rw [if_neg (by simp [hall])]
  · intro s hs
    simp only [wfStrB, Bool.and_eq_true, decide_eq_true_eq, List.all_eq_true]
      at hs
    refine utf16leEncode_length_bmp (fun c hc => ?_)
    have := hs.2 c hc
    simp at this
    omega
  · intro x d tail off h0 hoff hwf h
    exact readFstring_at h0 hoff hwf h

theorem C5_fstring_encoding_witness :
    writeFstring (some (lit ("AB"))) =
      int32LE (((lit ("AB")).length : Int) + 1) ++ lit ("AB") ++ [0] ∧
    writeFstring (some [256]) =
      int32LE (-((([256] : PyStr).length : Int) + 1)) ++
        utf16leEncode [256] ++ [0, 0] ∧
    (utf16leEncode (lit ("AB"))).length = 2 * (lit ("AB")).length ∧
    Reader.readFstring ⟨writeFstring (some strNone), 0⟩ =
      .ok (some strNone,
        ⟨writeFstring (some strNone),
         0 + ((writeFstring (some strNone)).length : Int)⟩) :=
  ⟨C5_fstring_encoding.2.1 (lit ("AB")) (by decide),
   C5_fstring_encoding.2.2.1 [256] (by decide),
   C5_fstring_encoding.2.2.2.1 (lit ("AB")) (by decide),
   C5_fstring_encoding.2.2.2.2 (some strNone) (writeFstring (some strNone))
     [] 0 (by norm_num) (by exact_mod_cast Nat.zero_le _) (by decide)
     (by simp)⟩

/-- C5 counterexample: for the astral string `[0x10000]` the negative prefix
magnitude is 2, but the body holds 3 UTF-16 units (surrogate pair plus NUL);
`read_fstring` on exactly the written bytes then consumes the pair
misaligned and fails with a decode error instead of returning the string. -/
theorem C5_astral_break :
    writeFstring (some [65536]) =
      [254, 255, 255, 255, 0, 216, 0, 220, 0, 0] ∧
    (utf16leEncode [65536]).length + 2 = 6 ∧
    Reader.readFstring ⟨[254, 255, 255, 255, 0, 216, 0, 220, 0, 0], 0⟩ =
      .error ("UnicodeDecodeError") := by
  refine ⟨?_, by decide, by decide⟩
  simp only [writeFstring]
  rw [if_neg (by decide)]
  simp [int32LE, natLE, utf16leEncode, utf16Units]

/-- C8 (amended): the writer always emits a zero array-index field, and the
decoder accepts any in-range index value silently — the record decodes to the
same property, with no error and no trace of the index.  The original
claim's "reject non-zero with a descriptive error" has the counterexample
below; "preserved verbatim" fails the same way, since re-encoding writes 0. -/
theorem C8_array_index :
    ∀ (p : FPropertyTag) (idx : Int) (filler : List Byte),
    wfProp p → filler.length = 17 → -(2 ^ 31) ≤ idx → idx < 2 ^ 31 →
    deserialize (genProp p idx filler ++
      (writeFstring (some strNone) ++ [0, 0, 0, 0])) = .ok [p] ∧
    writeProperty p = genProp p 0 (List.replicate 17 0) :=
  fun p idx filler h1 h2 h3 h4 =>
    ⟨onePropParses p idx filler h1 h2 h3 h4, writeProperty_eq_gen p⟩

theorem C8_array_index_witness :
    deserialize (genProp exBoolProp 2 (List.replicate 17 0) ++
      (writeFstring (some strNone) ++ [0, 0, 0, 0])) = .ok [exBoolProp] ∧
    writeProperty exBoolProp = genProp exBoolProp 0 (List.replicate 17 0) :=
  C8_array_index exBoolProp 2 (List.replicate 17 0) exBoolProp_wf (by simp)
    (by norm_num) (by norm_num)

/-- C8 counterexample: a record whose array-index field holds 1 decodes
without any error — the non-zero index is silently ignored, not rejected. -/
theorem C8_nonzero_index_accepted :
    deserialize (genProp exIntPropB 1 (List.replicate 17 0) ++
      (writeFstring (some strNone) ++ [0, 0, 0, 0])) = .ok [exIntPropB] :=
  onePropParses exIntPropB 1 (List.replicate 17 0) exIntPropB_wf (by simp)
    (by norm_num) (by norm_num)

/-- C9: the top-level property-list decoder stops without raising when fewer
than 4 bytes remain (returning what it decoded so far, the empty list for an
empty buffer), and the `None` terminator is never stored in the returned
sequence. -/
theorem C9_toplevel_terminator :
    deserialize [] = .ok [] ∧
    (∀ (fuel : Nat) (r : Reader), fuel ≠ 0 → Reader.remaining r < 4 →
      readProperties fuel r = .ok ([], r)) ∧
    (∀ (fuel : Nat) (r : Reader) (ps : List FPropertyTag) (r1 : Reader),
      readProperties fuel r = .ok (ps, r1) → ∀ p ∈ ps, p.name ≠ strNone) := by
  refine ⟨?_, ?_, ?_⟩
  · rw [deserialize, readProperties, if_neg (by decide), if_neg (by decide)]
    rfl
  · intro fuel r hf hrem
    rw [readProperties, if_neg hf, if_neg (by omega)]
  · intro fuel
    induction fuel with
    | zero =>
      intro r ps r1 h
      rw [readProperties, if_pos rfl] at h
      exact absurd h (by simp)
    | succ n ihn =>
      intro r ps r1 h
      rw [readProperties, if_neg (by omega)] at h
      by_cases hrem : r.remaining ≥ 4
      · rw [if_pos hrem] at h
        simp only [Nat.add_sub_cancel] at h
        rcases hrp : readProperty n r with e | pr
        · rw [hrp, bindErr] at h
          simp at h
        · obtain ⟨p?, r2⟩ := pr
          rw [hrp, bindOk] at h
          rcases p? with _ | p
          · simp only [] at h
            simp at h
            obtain ⟨h1, -⟩ := h
            subst h1
            intro p hp
            simp at hp
          · simp only [] at h
            by_cases hpn : p.name = strNone
            · rw [if_pos hpn] at h
              simp at h
              obtain ⟨h1, -⟩ := h
              subst h1
              intro q hq
              simp at hq
            · rw [if_neg hpn] at h
              rcases hrec : readProperties n r2 with e2 | pr2
              · rw [hrec, bindErr] at h
                simp at h
              · obtain ⟨ps2, r3⟩ := pr2
                rw [hrec, bindOk] at h
                simp at h
                obtain ⟨h1, -⟩ := h
                subst h1
                intro q hq
                rcases List.mem_cons.mp hq with hq1 | hq2
                · rw [hq1]
                  exact hpn
                · exact ihn r2 ps2 r3 hrec q hq2
      · rw [if_neg hrem] at h
        simp at h
        obtain ⟨h1, -⟩ := h
        subst h1
        intro p hp
        simp at hp

theorem C9_toplevel_terminator_witness :
    readProperties 5 ⟨[1, 2], 0⟩ = .ok ([], ⟨[1, 2], 0⟩) ∧
    ∀ p ∈ ([] : List FPropertyTag), p.name ≠ strNone :=
  ⟨C9_toplevel_terminator.2.1 5 ⟨[1, 2], 0⟩ (by decide) (by decide),
   C9_toplevel_terminator.2.2 1 ⟨[], 0⟩ [] ⟨[], 0⟩
     (by rw [readProperties, if_neg (by decide), if_neg (by decide)])⟩

/-- Projection reductions for reader literals. -/
theorem reader_offset_mk (d : List Byte) (o : Int) :
    (Reader.mk d o).offset = o := rfl

theorem reader_remaining_mk (d : List Byte) (o : Int) :
    Reader.remaining (Reader.mk d o) = (d.length : Int) - o := rfl

/-- C4 (amended): decoding a property-bearing struct value of declared size
`S`, the bounded list loop stops at the `None` sentinel, at the `S` boundary,
or when fewer than 4 bytes remain — and when it stopped with fewer than `S`
bytes consumed, the cursor is advanced to exactly `S` bytes past the start of
the value region, discarding the skipped padding from the decoded tree.  The
original claim's "exactly `S` bytes, whichever comes first" fails when a
record straddles the boundary: the loop only checks the cursor *before* a
record, so it can overshoot `S` and then skips nothing (counterexample). -/
theorem C4_struct_value_loop :
    (∀ (fuel : Nat) (r : Reader) (p : FPropertyTag) (size : Int)
      (ps : List FPropertyTag) (r1 : Reader),
      fuel ≠ 0 → isFixedCore p.struct_type = false →
      structLoop (fuel - 1) r (r.offset + size) = .ok (ps, r1) →
      r1.data = r.data → r1.offset - r.offset < size →
      r.offset + size ≤ (r.data.length : Int) →
      readStructValue fuel r p size =
        .ok (p.setNested ps, ⟨r.data, r.offset + size⟩)) ∧
    (∀ (fuel : Nat) (r : Reader) (endPos : Int), fuel ≠ 0 →
      ¬(r.offset < endPos ∧ r.remaining ≥ 4) →
      structLoop fuel r endPos = .ok ([], r)) := by
  constructor
  · intro fuel r p size ps r1 hf hfc hloop hdata hlt hbound
    rw [readStructValue, if_neg hf, if_neg (by simp [hfc])]
    simp only []
    rw [hloop]
    simp only [bindOk]
    rw [if_pos hlt]
    rw [show Reader.readBytes r1 (size - (r1.offset - r.offset)) =
      .ok (pySlice r1.data r1.offset (r1.offset + (size - (r1.offset - r.offset))),
        ⟨r1.data, r1.offset + (size - (r1.offset - r.offset))⟩) from by
      rw [Reader.readBytes, if_neg (by rw [hdata]; omega)]]
    simp only [bindOk]
    rw [hdata]
    simp only [Except.ok.injEq, Prod.mk.injEq, Reader.mk.injEq, true_and]
    omega
  · intro fuel r endPos hf hstop
    rw [structLoop, if_neg hf, if_neg hstop]

theorem C4_struct_value_loop_witness :
    readStructValue 2 ⟨[0, 0], 0⟩ exStructProp 2 =
      .ok (exStructProp.setNested [], ⟨[0, 0], (0 : Int) + 2⟩) ∧
    structLoop 3 ⟨[], 0⟩ 0 = .ok ([], ⟨[], 0⟩) :=
  ⟨C4_struct_value_loop.1 2 ⟨[0, 0], 0⟩ exStructProp 2 [] ⟨[0, 0], 0⟩
     (by decide) (by decide)
     (by rw [structLoop, if_neg (by decide), if_neg (by decide)])
     rfl (by decide) (by decide),
   C4_struct_value_loop.2 3 ⟨[], 0⟩ 0 (by decide) (by decide)⟩

/-- C4 counterexample: a struct value whose declared size is 1 but whose
body opens with a full 35-byte property record.  The loop's boundary check
passes at the start (`0 < 1`), the whole record is consumed, and the decoder
returns with the cursor far past the declared boundary — it neither stopped
at exactly `S` bytes nor advanced to the `S` boundary, refuting "stops upon
consuming exactly S bytes, whichever comes first". -/
theorem C4_boundary_overshoot :
    readStructValue 50 ⟨writeProperty exIntProp, 0⟩ exStructProp 1 =
      .ok (exStructProp.setNested [exIntProp],
        ⟨writeProperty exIntProp, ((writeProperty exIntProp).length : Int)⟩) ∧
    16 ≤ (writeProperty exIntProp).length := by
  have hlen := writeProperty_length_ge exIntProp
  have hgp : (genProp exIntProp 0 (List.replicate 17 0)).length =
      (writeProperty exIntProp).length :=
    genProp_length_filler exIntProp 0 (List.replicate 17 0) (by simp)
  constructor
  · rw [readStructValue, if_neg (by norm_num),
      if_neg (by
        rw [show exStructProp.struct_type = some (lit ("X")) from rfl]
        decide)]
    simp only [Reader.offset]
    rw [structLoop, if_neg (by norm_num),
      if_pos (by
        refine ⟨by simp [Reader.offset], ?_⟩
        simp only [Reader.remaining]
        push_cast
        omega)]
    have h0 : (0 : Int) ≤ 0 := le_refl 0
    have hoff : (0 : Int) ≤ ((writeProperty exIntProp).length : Int) := by
      exact_mod_cast Nat.zero_le _
    have h : List.drop ((0 : Int)).toNat (writeProperty exIntProp) =
        genProp exIntProp 0 (List.replicate 17 0) ++ [] := by
      rw [← writeProperty_eq_gen]
      simp
    rw [propParsesAll exIntProp (50 - 1 - 1) (writeProperty exIntProp)
      (List.replicate 17 0) [] 0 0 exIntProp_wf (by simp) (by norm_num)
      (by norm_num) h0 hoff h (by
        rw [show fuelNeedProp exIntProp = 1 from by
          rw [fuelNeedProp, show exIntProp = FPropertyTag.mk (lit ("A"))
            (some tnInt) (.int 7) Option.none Option.none Option.none
            Option.none [] from rfl, fuelPropCore]
          rw [if_neg (by decide), if_neg (by decide)]]
        omega)]
    simp only [bindOk]
    rw [if_neg (by decide)]
    have hgge := genProp_length_ge exIntProp 0 (List.replicate 17 0)
    rw [structLoop, if_neg (by norm_num),
      if_neg (by
        intro hcon
        have hq := hcon.1
        rw [reader_offset_mk] at hq
        omega)]
    simp only [bindOk, reader_offset_mk]
    rw [if_neg (by omega)]
    simp only [Except.ok.injEq, Prod.mk.injEq, Reader.mk.injEq, true_and]
    rw [hgp]
    omega
  · omega

/-- A full blob holding one record with an unrecognized primitive type tag
deserializes — without any error — to the property carrying the declared
size's bytes as an opaque value. -/
theorem oneUnknownParses (nm t : PyStr) (payload : List Byte)
    (hnm : wfStrB nm = true) (hne : nm ≠ strNone) (ht : wfStrB t = true)
    (ht1 : t ≠ tnArray) (ht2 : t ≠ tnStruct) (ht3 : t ≠ tnEnum)
    (ht4 : t ≠ tnMap) (ht5 : t ≠ tnBool) (ht6 : t ≠ tnInt)
    (ht7 : t ≠ tnUInt32) (ht8 : t ≠ tnInt64) (ht9 : t ≠ tnFloat)
    (ht10 : t ≠ tnDouble) (ht11 : t ≠ tnStr) (ht12 : t ≠ tnName)
    (hpl : payload ≠ []) (hplen : payload.length < 2 ^ 31) :
    deserialize (writeFstring (some nm) ++ (writeFstring (some t) ++
      (int32LE (payload.length : Int) ++ (int32LE 0 ++ ([0] ++ (payload ++
        (writeFstring (some strNone) ++ [0, 0, 0, 0]))))))) =
      .ok [.mk nm (some t) (.bytes payload) Option.none Option.none
        Option.none Option.none []] := by
  have hterm := strNoneTerm_length
  rw [deserialize]
  generalize hd : writeFstring (some nm) ++ (writeFstring (some t) ++
      (int32LE (payload.length : Int) ++ (int32LE 0 ++ ([0] ++ (payload ++
        (writeFstring (some strNone) ++ [0, 0, 0, 0])))))) = d
  have h0 : (0 : Int) ≤ 0 := le_refl 0
  have hoff : (0 : Int) ≤ (d.length : Int) := by exact_mod_cast Nat.zero_le _
  have h : List.drop ((0 : Int)).toNat d =
      writeFstring (some nm) ++ (writeFstring (some t) ++
        (int32LE (payload.length : Int) ++ (int32LE 0 ++ ([0] ++ (payload ++
          (writeFstring (some strNone) ++ [0, 0, 0, 0])))))) := by
    rw [← hd]; simp
  rw [readProperties, if_neg (by omega),
    if_pos (rem_ge h0 hoff h (writeFstring_length_ge (some nm)))]
  rw [unknownTagParses nm t payload hnm hne ht ht1 ht2 ht3 ht4 ht5 ht6 ht7
    ht8 ht9 ht10 ht11 ht12 hpl hplen (d.length + 1 - 1) d
    (writeFstring (some strNone) ++ [0, 0, 0, 0]) 0 (by
      have := le_of_drop h0 hoff h
      have := writeFstring_length_ge (some nm)
      omega) h0 hoff h]
  simp only [bindOk, FPropertyTag.name]
  rw [if_neg hne]
  have h01 : (0 : Int) ≤ 0 + ((writeFstring (some nm)).length : Int) := by
    omega
  have hoff1 := off_step h0 hoff h
  have hD1 := drop_advance h0 h
  have h02 : (0 : Int) ≤ 0 + ((writeFstring (some nm)).length : Int) +
      ((writeFstring (some t)).length : Int) := by omega
  have hoff2 := off_step h01 hoff1 hD1
  have hD2 := drop_advance h01 hD1
  have h03 : (0 : Int) ≤ 0 + ((writeFstring (some nm)).length : Int) +
      ((writeFstring (some t)).length : Int) + 4 := by omega
  have hoff3 := off_step h02 hoff2 hD2
  have hD3 := drop_advance h02 hD2
  rw [int32LE_length] at hoff3 hD3
  push_cast at hoff3 hD3
  have h04 : (0 : Int) ≤ 0 + ((writeFstring (some nm)).length : Int) +
      ((writeFstring (some t)).length : Int) + 4 + 4 := by omega
  have hoff4 := off_step h03 hoff3 hD3
  have hD4 := drop_advance h03 hD3
  rw [int32LE_length] at hoff4 hD4
  push_cast at hoff4 hD4
  have h05 : (0 : Int) ≤ 0 + ((writeFstring (some nm)).length : Int) +
      ((writeFstring (some t)).length : Int) + 4 + 4 + 1 := by omega
  have hoff5 : 0 + ((writeFstring (some nm)).length : Int) +
      ((writeFstring (some t)).length : Int) + 4 + 4 + 1 ≤
      (d.length : Int) := by
    have hq := off_step h04 hoff4 hD4
    simp at hq
    omega
  have hD5 : List.drop (0 + ((writeFstring (some nm)).length : Int) +
      ((writeFstring (some t)).length : Int) + 4 + 4 + 1).toNat d =
      payload ++ (writeFstring (some strNone) ++ [0, 0, 0, 0]) := by
    have hq := drop_advance h04 hD4
    simp only [List.length_cons, List.length_nil] at hq
    push_cast at hq
    exact hq
  have h06 : (0 : Int) ≤ 0 + ((writeFstring (some nm)).length : Int) +
      ((writeFstring (some t)).length : Int) + 4 + 4 + 1 +
      (payload.length : Int) := by
    have : (0 : Int) ≤ (payload.length : Int) := by
      exact_mod_cast Nat.zero_le _
    omega
  have hoff6 := off_step h05 hoff5 hD5
  have hD6 := drop_advance h05 hD5
  push_cast at hoff6 hD6
  rw [readProperties, if_neg (by omega),
    if_pos (rem_ge h06 hoff6 hD6 (by omega))]
  rw [readProperty_sentinel (by omega) h06 hoff6 hD6]
  simp only [bindOk, FPropertyTag.name, if_true]
  rfl

/-- C7 (amended): a truncated read past end-of-stream is a fatal decode
error, and unknown *struct* tags remain legal — but a primitive type tag
outside the recognized set is not an error: with a positive declared size the
value decodes as that many opaque bytes (first conjunct, at the `deserialize`
level), and with a non-positive declared size the value read is skipped
entirely (third conjunct).  The "unknown primitive tag ⇒ fatal error" and
"negative declared size ⇒ fatal error" parts of the original claim are
refuted by the counterexample. -/
theorem C7_structural_anomalies :
    (∀ (nm t : PyStr) (payload : List Byte),
      wfStrB nm = true → nm ≠ strNone → wfStrB t = true →
      t ≠ tnArray → t ≠ tnStruct → t ≠ tnEnum → t ≠ tnMap → t ≠ tnBool →
      t ≠ tnInt → t ≠ tnUInt32 → t ≠ tnInt64 → t ≠ tnFloat → t ≠ tnDouble →
      t ≠ tnStr → t ≠ tnName → payload ≠ [] → payload.length < 2 ^ 31 →
      deserialize (writeFstring (some nm) ++ (writeFstring (some t) ++
        (int32LE (payload.length : Int) ++ (int32LE 0 ++ ([0] ++ (payload ++
          (writeFstring (some strNone) ++ [0, 0, 0, 0]))))))) =
        .ok [.mk nm (some t) (.bytes payload) Option.none Option.none
          Option.none Option.none []]) ∧
    (∀ (r : Reader) (n : Int), (r.data.length : Int) < r.offset + n →
      Reader.readBytes r n = .error ("EOFError")) ∧
    (∀ (r : Reader) (p : FPropertyTag) (t : PyStr) (size : Int),
      t ≠ tnInt → t ≠ tnUInt32 → t ≠ tnInt64 → t ≠ tnFloat → t ≠ tnDouble →
      t ≠ tnStr → t ≠ tnName → size ≤ 0 →
      readSimpleValue r p (some t) size = .ok (p, r)) := by
  refine ⟨?_, ?_, ?_⟩
  · intro nm t payload hnm hne ht ht1 ht2 ht3 ht4 ht5 ht6 ht7 ht8 ht9 ht10
      ht11 ht12 hpl hplen
    exact oneUnknownParses nm t payload hnm hne ht ht1 ht2 ht3 ht4 ht5 ht6
      ht7 ht8 ht9 ht10 ht11 ht12 hpl hplen
  · intro r n hn
    rw [Reader.readBytes, if_pos (by omega)]
  · intro r p t size ht6 ht7 ht8 ht9 ht10 ht11 ht12 hsz
    rw [readSimpleValue, if_neg (by simp [ht6]), if_neg (by simp [ht7]),
      if_neg (by simp [ht8]), if_neg (by simp [ht9]), if_neg (by simp [ht10]),
      if_neg (by simp [ht11, ht12]), if_neg (by omega)]

theorem C7_structural_anomalies_witness :
    deserialize (writeFstring (some (lit ("A"))) ++
      (writeFstring (some (lit ("QProperty"))) ++
        (int32LE (([6] : List Byte).length : Int) ++ (int32LE 0 ++ ([0] ++
          ([6] ++ (writeFstring (some strNone) ++ [0, 0, 0, 0]))))))) =
      .ok [.mk (lit ("A")) (some (lit ("QProperty"))) (.bytes [6]) Option.none
        Option.none Option.none Option.none []] ∧
    Reader.readBytes ⟨[1, 2], 1⟩ 5 = .error ("EOFError") ∧
    readSimpleValue ⟨[3], 0⟩ exBoolProp (some (lit ("QProperty"))) (-4) =
      .ok (exBoolProp, ⟨[3], 0⟩) :=
  ⟨C7_structural_anomalies.1 (lit ("A")) (lit ("QProperty")) [6] (by decide)
     (by decide) (by decide) (by decide) (by decide) (by decide) (by decide)
     (by decide) (by decide) (by decide) (by decide) (by decide) (by decide)
     (by decide) (by decide) (by decide) (by norm_num),
   C7_structural_anomalies.2.1 ⟨[1, 2], 1⟩ 5 (by decide),
   C7_structural_anomalies.2.2 ⟨[3], 0⟩ exBoolProp (lit ("QProperty")) (-4)
     (by decide) (by decide) (by decide) (by decide) (by decide) (by decide)
     (by decide) (by norm_num)⟩

/-- C7 counterexample: a blob whose record is tagged `ZProperty` — no
recognized primitive — deserializes without error to an opaque-bytes value,
and a negative declared size on an unknown tag is likewise accepted as a
no-op; neither anomaly is fatal, refuting the original claim. -/
theorem C7_unknown_tag_accepted :
    deserialize (writeFstring (some (lit ("A"))) ++
      (writeFstring (some (lit ("ZProperty"))) ++
        (int32LE (([7] : List Byte).length : Int) ++ (int32LE 0 ++ ([0] ++
          ([7] ++ (writeFstring (some strNone) ++ [0, 0, 0, 0]))))))) =
      .ok [exUnknownProp] ∧
    readSimpleValue ⟨[], 0⟩ exUnknownProp (some (lit ("ZProperty"))) (-1) =
      .ok (exUnknownProp, ⟨[], 0⟩) := by
  constructor
  · exact oneUnknownParses (lit ("A")) (lit ("ZProperty")) [7] (by decide)
      (by decide) (by decide) (by decide) (by decide) (by decide) (by decide)
      (by decide) (by decide) (by decide) (by decide) (by decide) (by decide)
      (by decide) (by decide) (by decide) (by norm_num)
  · rw [readSimpleValue, if_neg (by decide), if_neg (by decide),
      if_neg (by decide), if_neg (by decide), if_neg (by decide),
      if_neg (by decide), if_neg (by norm_num)]

/-- A serialized MapProperty record: name `M`, tag `MapProperty`, declared
size 14, index 0, then the map body — key type `K`, value type `V`, one
padding byte and one opaque body byte — followed by the list terminator and
trailing zeros. -/
def mapBlob : List Byte :=
  writeFstring (some (lit ("M"))) ++ (writeFstring (some tnMap) ++
    (int32LE 14 ++ (int32LE 0 ++
      (writeFstring (some (lit ("K"))) ++ (writeFstring (some (lit ("V"))) ++
        ([0] ++ ([9] ++ (writeFstring (some strNone) ++ [0, 0, 0, 0]))))))))

/-- C6: decoding `mapBlob` succeeds and keeps only the opaque body byte; the
writer has no MapProperty branch and re-encodes the record through the
generic simple-value path, so the key-type string, value-type string and
padding byte are lost and the bytes are not reproduced. -/
theorem C6_map_roundtrip_fails :
    deserialize mapBlob = .ok [exMapProp] ∧
    serialize [exMapProp] true ≠ mapBlob := by
  constructor
  · have hterm := strNoneTerm_length
    rw [deserialize]
    rw [show mapBlob = writeFstring (some (lit ("M"))) ++
      (writeFstring (some tnMap) ++ (int32LE 14 ++ (int32LE 0 ++
        (writeFstring (some (lit ("K"))) ++ (writeFstring (some (lit ("V"))) ++
          ([0] ++ ([9] ++ (writeFstring (some strNone) ++
            [0, 0, 0, 0])))))))) from rfl]
    generalize hd : writeFstring (some (lit ("M"))) ++
      (writeFstring (some tnMap) ++ (int32LE 14 ++ (int32LE 0 ++
        (writeFstring (some (lit ("K"))) ++ (writeFstring (some (lit ("V"))) ++
          ([0] ++ ([9] ++ (writeFstring (some strNone) ++
            [0, 0, 0, 0])))))))) = d
    have h0 : (0 : Int) ≤ 0 := le_refl 0
    have hoff : (0 : Int) ≤ (d.length : Int) := by exact_mod_cast Nat.zero_le _
    have h : List.drop ((0 : Int)).toNat d =
        writeFstring (some (lit ("M"))) ++
          (writeFstring (some tnMap) ++ (int32LE 14 ++ (int32LE 0 ++
            (writeFstring (some (lit ("K"))) ++
              (writeFstring (some (lit ("V"))) ++
                ([0] ++ ([9] ++ (writeFstring (some strNone) ++
                  [0, 0, 0, 0])))))))) := by
      rw [← hd]; simp
    have hle := le_of_drop h0 hoff h
    have hwf4 := writeFstring_length_ge (some (lit ("M")))
    rw [readProperties, if_neg (by omega),
      if_pos (rem_ge h0 hoff h (writeFstring_length_ge (some (lit ("M")))))]
    rw [readProperty, if_neg (by omega),
      if_neg (rem_not_lt h0 hoff h (writeFstring_length_ge (some (lit ("M")))))]
    rw [readFstring_at h0 hoff (by decide) h]
    simp only [bindOk]
    rw [if_neg (by decide)]
    have h01 : (0 : Int) ≤ 0 + ((writeFstring (some (lit ("M")))).length :
      Int) := by omega
    have hoff1 := off_step h0 hoff h
    have hD1 := drop_advance h0 h
    rw [readFstring_at h01 hoff1 (by decide) hD1]
    simp only [bindOk]
    have h02 : (0 : Int) ≤ 0 + ((writeFstring (some (lit ("M")))).length :
      Int) + ((writeFstring (some tnMap)).length : Int) := by omega
    have hoff2 := off_step h01 hoff1 hD1
    have hD2 := drop_advance h01 hD1
    rw [readInt32_at h02 hoff2 hD2 (by norm_num) (by norm_num)]
    simp only [bindOk]
    have h03 : (0 : Int) ≤ 0 + ((writeFstring (some (lit ("M")))).length :
      Int) + ((writeFstring (some tnMap)).length : Int) + 4 := by omega
    have hoff3 := off_step h02 hoff2 hD2
    have hD3 := drop_advance h02 hD2
    rw [int32LE_length] at hoff3 hD3
    push_cast at hoff3 hD3
    rw [readInt32_at h03 hoff3 hD3 (by norm_num) (by norm_num)]
    simp only [bindOk]
    rw [if_neg (by decide), if_neg (by decide), if_neg (by decide)]
    simp only [if_true]
    have h04 : (0 : Int) ≤ 0 + ((writeFstring (some (lit ("M")))).length :
      Int) + ((writeFstring (some tnMap)).length : Int) + 4 + 4 := by omega
    have hoff4 := off_step h03 hoff3 hD3
    have hD4 := drop_advance h03 hD3
    rw [int32LE_length] at hoff4 hD4
    push_cast at hoff4 hD4
    rw [readMapProperty]
    rw [readFstring_at h04 hoff4 (by decide) hD4]
    simp only [bindOk]
    have h05 : (0 : Int) ≤ 0 + ((writeFstring (some (lit ("M")))).length :
      Int) + ((writeFstring (some tnMap)).length : Int) + 4 + 4 +
      ((writeFstring (some (lit ("K")))).length : Int) := by omega
    have hoff5 := off_step h04 hoff4 hD4
    have hD5 := drop_advance h04 hD4
    rw [readFstring_at h05 hoff5 (by decide) hD5]
    simp only [bindOk]
    have h06 : (0 : Int) ≤ 0 + ((writeFstring (some (lit ("M")))).length :
      Int) + ((writeFstring (some tnMap)).length : Int) + 4 + 4 +
      ((writeFstring (some (lit ("K")))).length : Int) +
      ((writeFstring (some (lit ("V")))).length : Int) := by omega
    have hoff6 := off_step h05 hoff5 hD5
    have hD6 := drop_advance h05 hD5
    rw [readByte_at h06 hoff6 (by simpa using hD6)]
    simp only [bindOk]
    rw [show (14 - (((lit ("K")).length : Int) + 5) -
      (((lit ("V")).length : Int) + 5) - 1 : Int) = 1 from by decide]
    rw [if_pos (by norm_num)]
    have h07 : (0 : Int) ≤ 0 + ((writeFstring (some (lit ("M")))).length :
      Int) + ((writeFstring (some tnMap)).length : Int) + 4 + 4 +
      ((writeFstring (some (lit ("K")))).length : Int) +
      ((writeFstring (some (lit ("V")))).length : Int) + 1 := by omega
    have hoff7 : 0 + ((writeFstring (some (lit ("M")))).length : Int) +
        ((writeFstring (some tnMap)).length : Int) + 4 + 4 +
        ((writeFstring (some (lit ("K")))).length : Int) +
        ((writeFstring (some (lit ("V")))).length : Int) + 1 ≤
        (d.length : Int) := by
      have hq := off_step h06 hoff6 hD6
      simp at hq
      omega
    have hD7 : List.drop (0 + ((writeFstring (some (lit ("M")))).length :
        Int) + ((writeFstring (some tnMap)).length : Int) + 4 + 4 +
        ((writeFstring (some (lit ("K")))).length : Int) +
        ((writeFstring (some (lit ("V")))).length : Int) + 1).toNat d =
        [9] ++ (writeFstring (some strNone) ++ [0, 0, 0, 0]) := by
      have hq := drop_advance h06 hD6
      simp only [List.length_cons, List.length_nil] at hq
      push_cast at hq
      exact hq
    rw [readBytes_at h07 hoff7 hD7 (by decide)]
    simp only [bindOk]
    simp only [FPropertyTag.setValue, bindOk]
    rw [if_neg (by decide)]
    have h08 : (0 : Int) ≤ 0 + ((writeFstring (some (lit ("M")))).length :
      Int) + ((writeFstring (some tnMap)).length : Int) + 4 + 4 +
      ((writeFstring (some (lit ("K")))).length : Int) +
      ((writeFstring (some (lit ("V")))).length : Int) + 1 + 1 := by omega
    have hoff8 := off_step h07 hoff7 hD7
    have hD8 := drop_advance h07 hD7
    simp only [List.length_cons, List.length_nil] at hoff8 hD8
    push_cast at hoff8 hD8
    rw [readProperties, if_neg (by omega),
      if_pos (rem_ge h08 hoff8 hD8 (by omega))]
    rw [readProperty_sentinel (by omega) h08 hoff8 hD8]
    simp only [bindOk, FPropertyTag.name, if_true]
    rfl
  · intro heq
    have hpv : propValueBytes exMapProp = [9] := by
      simp only [exMapProp, propValueBytes, FPropertyTag.type_name,
        writeSimpleValue, FPropertyTag.value]
      rw [if_neg (by decide), if_neg (by decide), if_neg (by decide),
        if_neg (by decide), if_neg (by decide), if_neg (by decide),
        if_neg (by decide), if_neg (by decide), if_neg (by decide),
        if_neg (by decide)]
    have hgh : genHeader exMapProp (List.replicate 17 0) = [0] := by
      simp only [exMapProp, genHeader, FPropertyTag.type_name]
      rw [if_neg (by decide), if_neg (by decide), if_neg (by decide),
        if_neg (by decide)]
    have h1 : serialize [exMapProp] true =
        writeFstring (some (lit ("M"))) ++ (writeFstring (some tnMap) ++
          (int32LE ((([9] : List Byte).length : Int)) ++ (int32LE 0 ++
            ([0] ++ ([9] ++ (writeFstring (some strNone) ++
              [0, 0, 0, 0])))))) := by
      rw [serialize_true_eq, writeProperties_cons, writeProperties_nil,
        writeProperty_eq_gen]
      simp only [genProp, hgh, hpv,
        show exMapProp.name = lit ("M") from rfl,
        show exMapProp.type_name = some tnMap from rfl,
        List.append_assoc, List.nil_append, List.cons_append,
        List.singleton_append, List.append_nil]
    rw [h1] at heq
    rw [show mapBlob = writeFstring (some (lit ("M"))) ++
      (writeFstring (some tnMap) ++ (int32LE 14 ++ (int32LE 0 ++
        (writeFstring (some (lit ("K"))) ++ (writeFstring (some (lit ("V"))) ++
          ([0] ++ ([9] ++ (writeFstring (some strNone) ++
            [0, 0, 0, 0])))))))) from rfl] at heq
    rw [List.append_right_inj, List.append_right_inj] at heq
    rw [show int32LE ((([9] : List Byte).length : Int)) = [1, 0, 0, 0] from
      by simp [int32LE, natLE]] at heq
    rw [show int32LE 14 = [14, 0, 0, 0] from by simp [int32LE, natLE]] at heq
    simp at heq

/-- `takeWhile` over a dot-free string is the identity (the first segment of
`split('.', 1)` is the whole path). -/
theorem takeWhileNe46_eq_self : ∀ (l : PyStr), (∀ c ∈ l, c ≠ 46) →
    l.takeWhile (fun c => c ≠ 46) = l := by
  intro l
  induction l with
  | nil => intro h; rfl
  | cons c cs ih =>
    intro h
    rw [List.takeWhile_cons, if_pos (by
      simp only [decide_eq_true_eq]
      exact h c (List.mem_cons_self c cs))]
    rw [ih (fun x hx => h x (List.mem_cons_of_mem c hx))]

/-- A decoded scalar array: the int elements live in the record's value
list, `nested` is empty. -/
def exArrayIntProp : FPropertyTag :=
  .mk (lit ("A")) (some tnArray) (.intList [7]) (some tnInt) Option.none
    Option.none Option.none []

/-- C10 (amended): path lookup with a non-negative index suffix `Name[i]` on
a property that is an array whose decoded elements are scalars or bytes —
so its `nested` list is empty — returns not-found for every such `i`, even
when `i` is within the element count of the stored value list.  (A negative
`i` instead raises `IndexError` through Python's reverse indexing of the
empty `nested` list: see the counterexample.) -/
theorem C10_index_on_scalar_array :
    ∀ (props : List FPropertyTag) (pr : FPropertyTag) (nm idxStr : PyStr)
      (i : Int),
    (∀ c ∈ nm, c ≠ 46) → 91 ∉ nm →
    (∀ c ∈ idxStr, 48 ≤ c ∧ c ≤ 57) → idxStr ≠ [] →
    pyInt idxStr = .ok i → 0 ≤ i →
    props.find? (fun p => p.name = nm) = some pr →
    pr.type_name = some tnArray → pr.nested = [] →
    findProperty props (nm ++ 91 :: (idxStr ++ [93])) = .ok Option.none := by
  intro props pr nm idxStr i h46 h91 hdig hne hpi hi0 hfind harr hnest
  have h46p : ∀ c ∈ nm ++ 91 :: (idxStr ++ [93]), c ≠ 46 := by
    intro c hc
    rcases List.mem_append.mp hc with h1 | h2
    · exact h46 c h1
    · rcases List.mem_cons.mp h2 with h3 | h4
      · omega
      · rcases List.mem_append.mp h4 with h5 | h6
        · have := hdig c h5
          omega
        · simp at h6
          omega
  have hsplit : splitDot1 (nm ++ 91 :: (idxStr ++ [93])) =
      (nm ++ 91 :: (idxStr ++ [93]), Option.none) := by
    simp only [splitDot1]
    rw [takeWhileNe46_eq_self _ h46p, if_pos rfl]
  have hstrip : rstripBrack (nm ++ 91 :: (idxStr ++ [93])) =
      nm ++ 91 :: idxStr := by
    rw [rstripBrack]
    have hr : (nm ++ 91 :: (idxStr ++ [93])).reverse =
        93 :: (idxStr.reverse ++ (91 :: nm.reverse)) := by simp
    rw [hr]
    rw [List.dropWhile_cons, if_pos (by decide)]
    rcases hrev : idxStr.reverse with _ | ⟨c, cs⟩
    · exact absurd (by simpa using hrev) hne
    · rw [List.cons_append, List.dropWhile_cons, if_neg (by
        have hcmem : c ∈ idxStr := by
          have hq : c ∈ idxStr.reverse := by
            rw [hrev]
            exact List.mem_cons_self _ _
          simpa using hq
        have := hdig c hcmem
        simp only [decide_eq_true_eq]
        omega)]
      rw [← List.cons_append, ← hrev]
      simp
  have hsplitOn : (nm ++ 91 :: idxStr).splitOn 91 = [nm, idxStr] := by
    rw [show (nm ++ 91 :: idxStr).splitOn 91 =
      (nm ++ 91 :: idxStr).splitOnP (fun c => c == 91) from rfl]
    rw [List.splitOnP_first (fun c => c == 91) nm (fun x hx => by
        simp only [beq_iff_eq]
        intro he
        exact h91 (he ▸ hx)) 91 (by simp) idxStr]
    rw [List.splitOnP_eq_single (fun c => c == 91) idxStr (fun x hx => by
      simp only [beq_iff_eq]
      intro he
      have := hdig x hx
      omega)]
  have hpar : parseSegment (nm ++ 91 :: (idxStr ++ [93])) =
      .ok (nm, some i) := by
    rw [parseSegment, if_pos (List.mem_append.mpr
      (Or.inr (List.mem_cons_self _ _)))]
    rw [hstrip, hsplitOn]
    simp only []
    rw [hpi, bindOk]
  rw [findProperty, findPropertyAux, if_neg (by omega)]
  rw [hsplit]
  simp only []
  rw [hpar, bindOk]
  simp only []
  rw [hfind]
  simp only []
  rw [if_neg (by
    intro hcon
    have hq := hcon.2
    rw [hnest] at hq
    simp at hq
    omega)]

theorem C10_index_on_scalar_array_witness :
    findProperty [exArrayIntProp] (lit ("A") ++ 91 :: ([48] ++ [93])) =
      .ok Option.none :=
  C10_index_on_scalar_array [exArrayIntProp] exArrayIntProp (lit ("A")) [48]
    0 (by decide) (by decide) (by decide) (by decide) (by decide)
    (by norm_num) (by decide) rfl rfl

/-- C10 counterexample: on a scalar int array, the path `A[-1]` does not
return not-found — Python's negative indexing of the empty `nested` list
raises `IndexError`, so "returns not-found for every index i" fails for
negative indices. -/
theorem C10_negative_index_raises :
    findProperty [exArrayIntProp] (lit ("A[-1]")) = .error ("IndexError") := by
  rw [findProperty, findPropertyAux]
  decide

end UE4Props
